import Mathlib

/-!
# aks-engine-azurestack: upgrade orchestration, drain and scale-down

A shallow embedding of the cluster-lifecycle operations exercised by
`pkg/operations/cordondrainvm_test.go`, `pkg/operations/scaledownagentpool_test.go`
and `pkg/operations/kubernetesupgrade/upgradecluster_test.go`, followed by the
properties proved about them.

Conventions: a Go `error` is an `Option String` (`none` is `nil`), a Go slice is a
`List` (the nil slice is `[]`), a Go map is a key-unique association list.
-/

set_option autoImplicit false
set_option linter.dupNamespace false

namespace AksEngine

/-! ## Definitions -/

/-! ### Control-plane health poller -/

/-- What one iteration of the `select` loop of `checkControlPlaneNodesStatus` can
observe: a snapshot received on the stream, the stream being closed, or the
context being done. -/
inductive StreamEvent where
  | snapshot (upgradedNotReady : List String)
  | closed
  | deadline
deriving DecidableEq, Repr

/-- The error returned when the quorum-safety check fails. -/
def errTooManyNotReady : String := "too many upgraded nodes are not ready"

/-- Modelled from the spec: the receive loop of `checkControlPlaneNodesStatus`
(`pkg/operations/kubernetesupgrade`, not part of the sources at hand). It keeps the
size of the last snapshot received and stops when the stream closes or the context
is done. `none` means the loop is still blocked: the trace ended with neither. -/
def checkControlPlaneNodesLoop : List StreamEvent → Nat → Option Nat
  | [], _ => none
  | StreamEvent.snapshot upgradedNotReady :: rest, _ =>
      checkControlPlaneNodesLoop rest upgradedNotReady.length
  | StreamEvent.closed :: _, upgradedNotReadyCount => some upgradedNotReadyCount
  | StreamEvent.deadline :: _, upgradedNotReadyCount => some upgradedNotReadyCount

/-- Modelled from the spec: `UpgradeCluster.checkControlPlaneNodesStatus`
(§4.3.1, §8 property 3; the function is not part of the sources at hand). The
inner `Option` is the Go error: more than one upgraded control-plane node NotReady
in the last known snapshot is fatal; with no snapshot at all the count is zero. -/
def checkControlPlaneNodesStatus (events : List StreamEvent) : Option (Option String) :=
  (checkControlPlaneNodesLoop events 0).map fun upgradedNotReadyCount =>
    if upgradedNotReadyCount > 1 then some errTooManyNotReady else none

/-- A node condition as the tests build it: a type and a status. -/
structure NodeCondition where
  type : String
  status : String
deriving DecidableEq, Repr

/-- The part of a Kubernetes node object the upgrade workflow reads and writes. -/
structure Node where
  name : String
  conditions : List NodeCondition := []
  labels : List (String × String) := []
  annotations : List (String × String) := []
  taints : List (String × String × String) := []
  unschedulable : Bool := false
deriving DecidableEq, Repr

/-- Modelled from the spec: `kubernetes.IsNodeReady` (called from
`cmd/rotatecerts/wait.go`, defined outside the sources at hand): a node is Ready
when it carries a condition of type `Ready` with status `True`. -/
def isNodeReady (n : Node) : Bool :=
  n.conditions.any fun c => c.type == "Ready" && c.status == "True"

/-- The nodes `TestCheckControlPlaneNodesStatus` builds: one `Ready` condition, with
status `True` for the names starting with `ok` and `False` for the others. -/
def testNode (name : String) (ready : Bool) : Node :=
  { name := name, conditions := [{ type := "Ready", status := if ready then "True" else "False" }] }

/-- Modelled from the spec: `UpgradeCluster.getUpgradedNotReady` (§4.3.1; the
function is not part of the sources at hand). `listNodes` is the answer of
`ListNodesByOptions`. The loop walks the listed nodes and appends the name of every
node that is already upgraded and not Ready. -/
def getUpgradedNotReady (listNodes : Except String (List Node)) (upgraded : List String) :
    List String × Option String :=
  match listNodes with
  | Except.error err => ([], some err)
  | Except.ok nodes =>
      (nodes.foldl
        (fun upgradedNotReady node =>
          if upgraded.contains node.name && !isNodeReady node then
            upgradedNotReady ++ [node.name]
          else upgradedNotReady)
        [], none)

/-! ### Node drain operation -/

/-- An owner reference of a pod: the owner kind and the optional controller flag. -/
structure OwnerReference where
  kind : String
  controller : Option Bool := none
deriving DecidableEq, Repr

/-- The part of a pod the drain operation reads. -/
structure Pod where
  name : String := ""
  ownerReferences : List OwnerReference := []
deriving DecidableEq, Repr

/-- Modelled from the spec: the daemonset filter of the drain operation (§4.1 step 4;
`cordondrainvm.go` is not part of the sources at hand): a pod is owned by a
daemonset when one of its owner references is a controller reference of kind
`DaemonSet`. -/
def isDaemonSetOwned (pod : Pod) : Bool :=
  pod.ownerReferences.any fun ref => ref.controller == some true && ref.kind == "DaemonSet"

/-- Modelled from the spec: `drainOperation.getPodsForDeletion` (§4.1 step 4; not
part of the sources at hand). `listPods` is the answer of `ListPods`. Pods owned by
a daemonset are dropped, every other listed pod is kept, in list order. -/
def getPodsForDeletion (listPods : Except String (List Pod)) : List Pod × Option String :=
  match listPods with
  | Except.error err => ([], some err)
  | Except.ok items =>
      (items.foldl
        (fun pods pod => if isDaemonSetOwned pod then pods else pods ++ [pod])
        [], none)

/-! ### Custom node metadata -/

/-- Modelled from the spec: the copy loop of `Upgrader.copyCustomNodeProperties`
(§4.3 step e, §8 property 5; `upgrader.go` is not part of the sources at hand),
for one string map: it ranges over the old node's entries and adds an entry to the
new node's map when the new node has no entry under that key. -/
def copyCustomEntries (oldEntries newEntries : List (String × String)) :
    List (String × String) :=
  oldEntries.foldl
    (fun entries kv => if (entries.lookup kv.1).isSome then entries else entries ++ [kv])
    newEntries

/-- Modelled from the spec: `Upgrader.copyCustomNodeProperties` (§4.3 step e; not
part of the sources at hand). Annotations and labels are copied with
`copyCustomEntries`, the old node's taints are carried over, and the new node is
written back with `UpdateNode`, whose error is the result. -/
def copyCustomNodeProperties (updateNode : Node → Option String) (oldNode newNode : Node) :
    Node × Option String :=
  let newNode :=
    { newNode with
      annotations := copyCustomEntries oldNode.annotations newNode.annotations
      labels := copyCustomEntries oldNode.labels newNode.labels
      taints := newNode.taints ++ oldNode.taints }
  (newNode, updateNode newNode)

/-! ### VM scale-down operation -/

/-- One element of the error accumulator of `ScaleDownVMs`. -/
structure VMScalingErrorDetails where
  Name : String
  Error : String
deriving DecidableEq, Repr

/-- Modelled from the spec: the goroutine `ScaleDownVMs` starts for the VM at
position `i` (§4.2; `scaledownagentpool.go` is not part of the sources at hand). It
deletes the VM once and sends one message: the error details, or nil. -/
def scaleDownGoroutine (cleanDelete : Nat → String → Option String) (i : Nat)
    (vmName : String) : Option VMScalingErrorDetails :=
  match cleanDelete i vmName with
  | some err => some { Name := vmName, Error := err }
  | none => none

/-- Fan-in over the shared channel: `receives` receive operations on the messages in
flight. The scheduler decides which goroutine is received next: `schedule` names,
at each receive, the position (modulo the number in flight) of the message taken. -/
def fanIn {α : Type} : Nat → List Nat → List α → List α
  | 0, _, _ => []
  | _ + 1, _, [] => []
  | receives + 1, schedule, m :: inFlight =>
      let k := schedule.headD 0 % (m :: inFlight).length
      ((m :: inFlight).getD k m) :: fanIn receives schedule.tail ((m :: inFlight).eraseIdx k)

/-- Modelled from the spec: the body of the receive loop of `ScaleDownVMs` (§4.2):
a non-nil message is pushed on
the back of the accumulator, a nil message is dropped. -/
def pushBackFailure (failed : List VMScalingErrorDetails)
    (errDetails : Option VMScalingErrorDetails) : List VMScalingErrorDetails :=
  match errDetails with
  | some details => failed ++ [details]
  | none => failed

/-- Modelled from the spec: `ScaleDownVMs` (§4.2; not part of the sources at hand).
One goroutine per VM name, `len(vmNames)` receives, the non-nil messages pushed on
the accumulator in arrival order; the result is nil when the accumulator is empty.
`cleanDelete i name` is the outcome of deleting the VM at position `i`. -/
def ScaleDownVMs (cleanDelete : Nat → String → Option String) (schedule : List Nat)
    (vmNames : List String) : Option (List VMScalingErrorDetails) :=
  let numVmsToDelete := vmNames.length
  let errChan := vmNames.enum.map fun iv => scaleDownGoroutine cleanDelete iv.1 iv.2
  let failedVMDeletions := (fanIn numVmsToDelete schedule errChan).foldl pushBackFailure []
  if failedVMDeletions.length > 0 then some failedVMDeletions else none

/-! ### Cluster topology and discovery -/

/-- A VM handle as discovery sees it: the name, the pool identity parsed from the
name (`none` for a control-plane VM, `some p` for a VM of agent pool `p`; the
parsing itself is outside this model) and the Kubernetes version recorded in its
tag. -/
structure VirtualMachine where
  name : String
  pool : Option String
  orchestratorVersion : String
deriving DecidableEq, Repr

/-- The version tag of a VM, in the format `Kubernetes:<version>`. -/
def VirtualMachine.tag (vm : VirtualMachine) : String :=
  "Kubernetes:" ++ vm.orchestratorVersion

/-- The per-pool part of the topology: pending and already-upgraded VMs. -/
structure AgentPoolTopology where
  Name : String
  AgentVMs : List VirtualMachine := []
  UpgradedAgentVMs : List VirtualMachine := []
deriving DecidableEq, Repr

/-- The root aggregate of an upgrade run. `AgentPools` is the map from pool name to
pool topology. -/
structure ClusterTopology where
  AgentPools : List (String × AgentPoolTopology) := []
  MasterVMs : List VirtualMachine := []
  UpgradedMasterVMs : List VirtualMachine := []
deriving DecidableEq, Repr

/-- The inputs of an upgrade run that discovery and the workflow gating read. -/
structure UpgradeCluster where
  Force : Bool := false
  ControlPlaneOnly : Bool := false
  OrchestratorVersion : String
  AgentPoolsToUpgrade : List (String × Bool) := []
  ClusterAutoscalerEnabled : Bool := false
deriving Repr

/-- The entry of a pool in the map, or a fresh empty topology when it has none. -/
def ClusterTopology.agentPool (t : ClusterTopology) (poolName : String) : AgentPoolTopology :=
  (t.AgentPools.lookup poolName).getD { Name := poolName }

/-- Store a pool topology under its name, replacing the earlier entry. -/
def ClusterTopology.setAgentPool (t : ClusterTopology) (p : AgentPoolTopology) :
    ClusterTopology :=
  { t with AgentPools := (p.Name, p) :: t.AgentPools.filter fun e => !(e.1 == p.Name) }

/-- Modelled from the spec: `UpgradeCluster.addVMToAgentPool` (§3; `upgradecluster.go`
is not part of the sources at hand): the pool entry is created on first use and the
VM is appended to the pending or to the upgraded sequence. -/
def addVMToAgentPool (t : ClusterTopology) (poolName : String) (vm : VirtualMachine)
    (isUpgradableVM : Bool) : ClusterTopology :=
  let p := t.agentPool poolName
  if isUpgradableVM then
    t.setAgentPool { Name := poolName, AgentVMs := p.AgentVMs ++ [vm],
                     UpgradedAgentVMs := p.UpgradedAgentVMs }
  else
    t.setAgentPool { Name := poolName, AgentVMs := p.AgentVMs,
                     UpgradedAgentVMs := p.UpgradedAgentVMs ++ [vm] }

/-- Whether an agent pool is targeted by this run. -/
def UpgradeCluster.targets (uc : UpgradeCluster) (poolName : String) : Bool :=
  uc.AgentPoolsToUpgrade.lookup poolName == some true

/-- Modelled from the spec: `UpgradeCluster.addVMToUpgradeSets` (§3, §4.3 Discover):
queue a VM for upgrade: a control-plane VM in `MasterVMs`, a VM of a targeted pool
in that pool's `AgentVMs`; VMs of other pools are left out. -/
def addVMToUpgradeSets (uc : UpgradeCluster) (t : ClusterTopology) (vm : VirtualMachine) :
    ClusterTopology :=
  match vm.pool with
  | none => { t with MasterVMs := t.MasterVMs ++ [vm] }
  | some poolName => if uc.targets poolName then addVMToAgentPool t poolName vm true else t

/-- Modelled from the spec: `UpgradeCluster.addVMToFinishedSets` (§3, §4.3 Discover):
record a VM as already upgraded: a control-plane VM in `UpgradedMasterVMs`, a VM of
a targeted pool in that pool's `UpgradedAgentVMs`. -/
def addVMToFinishedSets (uc : UpgradeCluster) (t : ClusterTopology) (vm : VirtualMachine) :
    ClusterTopology :=
  match vm.pool with
  | none => { t with UpgradedMasterVMs := t.UpgradedMasterVMs ++ [vm] }
  | some poolName => if uc.targets poolName then addVMToAgentPool t poolName vm false else t

/-- Modelled from the spec: `UpgradeCluster.upgradable` (§4.3 Discover, §8 property 7;
not part of the sources at hand). `supportedVersions` is the process-wide table
`common.AllKubernetesSupportedVersions`, passed in. A target that the table does
not mark supported is rejected with an error naming both versions. -/
def upgradable (supportedVersions : List (String × Bool)) (currentVersion targetVersion : String) :
    Option String :=
  if supportedVersions.lookup targetVersion == some true then none
  else some (currentVersion ++ " cannot be upgraded to " ++ targetVersion)

/-- Modelled from the spec: the loop of `UpgradeCluster.getClusterNodeStatus` over the
listed VMs (§4.3 Discover). With `Force` every VM is queued; otherwise a VM whose tag
equals `Kubernetes:<desired version>` is recorded as upgraded, and any other VM is
queued after the upgrade-path check, whose failure stops discovery at that VM. The
topology is mutated in place, so it is returned along with the error. -/
def classifyVMs (uc : UpgradeCluster) (supportedVersions : List (String × Bool)) :
    List VirtualMachine → ClusterTopology → ClusterTopology × Option String
  | [], t => (t, none)
  | vm :: rest, t =>
      if uc.Force then
        classifyVMs uc supportedVersions rest (addVMToUpgradeSets uc t vm)
      else if vm.tag == "Kubernetes:" ++ uc.OrchestratorVersion then
        classifyVMs uc supportedVersions rest (addVMToFinishedSets uc t vm)
      else
        match upgradable supportedVersions vm.orchestratorVersion uc.OrchestratorVersion with
        | some err => (t, some err)
        | none => classifyVMs uc supportedVersions rest (addVMToUpgradeSets uc t vm)

/-- Modelled from the spec: `UpgradeCluster.getClusterNodeStatus` (§4.3 Discover; not
part of the sources at hand). `listVMs` is the answer of `ListVirtualMachines`; the
topology starts empty. -/
def getClusterNodeStatus (uc : UpgradeCluster) (supportedVersions : List (String × Bool))
    (listVMs : Except String (List VirtualMachine)) : ClusterTopology × Option String :=
  match listVMs with
  | Except.error err => ({}, some err)
  | Except.ok vms => classifyVMs uc supportedVersions vms {}

/-- The pending set a VM belongs to by its pool identity: `MasterVMs` for a
control-plane VM, the pool's `AgentVMs` otherwise. -/
def ClusterTopology.pendingSetOf (t : ClusterTopology) (vm : VirtualMachine) :
    List VirtualMachine :=
  match vm.pool with
  | none => t.MasterVMs
  | some poolName => (t.agentPool poolName).AgentVMs

/-- The upgraded set a VM belongs to by its pool identity: `UpgradedMasterVMs` for a
control-plane VM, the pool's `UpgradedAgentVMs` otherwise. -/
def ClusterTopology.upgradedSetOf (t : ClusterTopology) (vm : VirtualMachine) :
    List VirtualMachine :=
  match vm.pool with
  | none => t.UpgradedMasterVMs
  | some poolName => (t.agentPool poolName).UpgradedAgentVMs

/-- Whether discovery files a VM at all: control-plane VMs always, agent VMs when
their pool is targeted. -/
def UpgradeCluster.files (uc : UpgradeCluster) (vm : VirtualMachine) : Bool :=
  match vm.pool with
  | none => true
  | some poolName => uc.targets poolName

/-- Whether discovery queues a VM for upgrade rather than recording it as upgraded:
always under `Force`, otherwise when its tag differs from the desired one. -/
def UpgradeCluster.queues (uc : UpgradeCluster) (vm : VirtualMachine) : Bool :=
  uc.Force || !(vm.tag == "Kubernetes:" ++ uc.OrchestratorVersion)

/-- The run of the availability-set tests: desired version 1.9.10, pool `agentpool1`
targeted. -/
def testUpgradeCluster (force : Bool) : UpgradeCluster :=
  { Force := force, OrchestratorVersion := "1.9.10", AgentPoolsToUpgrade := [("agentpool1", true)] }

/-- The agent VM the tests discover, `k8s-agentpool1-12345678-0`, at a given version. -/
def testAgentVM (version : String) : VirtualMachine :=
  { name := "k8s-agentpool1-12345678-0", pool := some "agentpool1", orchestratorVersion := version }

/-- The control-plane VM the tests discover, at a given version. -/
def testMasterVM (version : String) : VirtualMachine :=
  { name := "k8s-master-12345678-0", pool := none, orchestratorVersion := version }

/-! ### Kubernetes client -/

/-- Modelled from the spec: the Kubernetes client of §6 as the tests script it
(`armhelpers.MockKubernetesClient`, not part of the sources at hand): one switch
per call that can fail, the pod list to return, a hook deciding the error of each
`UpdateNode` call from the number of earlier calls, countdowns of failing
`GetDeployment` and `UpdateDeployment` calls, and the replica count of the
cluster-autoscaler deployment. -/
structure MockKubernetesClient where
  FailGetNode : Bool := false
  FailUpdateNode : Bool := false
  UpdateNodeFunc : Option (Nat → Option String) := none
  FailListPods : Bool := false
  PodsList : List Pod := []
  FailSupportEviction : Bool := false
  ShouldSupportEviction : Bool := false
  FailDeletePod : Bool := false
  FailEvictPod : Bool := false
  FailWaitForDelete : Bool := false
  FailGetDeploymentCount : Nat := 0
  FailUpdateDeploymentCount : Nat := 0
  Replicas : Int := 1

/-- Modelled from the spec: the cloud client of the tests
(`armhelpers.MockAKSEngineClient`, not part of the sources at hand), as far as the
drain reads it: whether a Kubernetes client can be built, and that client. -/
structure MockAKSEngineClient where
  FailGetKubernetesClient : Bool := false
  MockKubernetesClient : MockKubernetesClient := {}

/-- Modelled from the spec: the error of the mock's `GetNode`. -/
def MockKubernetesClient.GetNode (c : MockKubernetesClient) : Option String :=
  if c.FailGetNode then some "GetNode failed" else none

/-- Modelled from the spec: the error of the mock's `UpdateNode` call made after
`calls` earlier ones: the hook decides when there is one, the switch otherwise. -/
def MockKubernetesClient.UpdateNode (c : MockKubernetesClient) (calls : Nat) : Option String :=
  match c.UpdateNodeFunc with
  | some f => f calls
  | none => if c.FailUpdateNode then some "UpdateNode failed" else none

/-- Modelled from the spec: the answer of the mock's `ListPods`. -/
def MockKubernetesClient.ListPods (c : MockKubernetesClient) : Except String (List Pod) :=
  if c.FailListPods then Except.error "ListPods failed" else Except.ok c.PodsList

/-- Modelled from the spec: the answer of the mock's `SupportEviction`: whether the
eviction API is available. -/
def MockKubernetesClient.SupportEviction (c : MockKubernetesClient) : Except String Bool :=
  if c.FailSupportEviction then Except.error "SupportEviction failed"
  else Except.ok c.ShouldSupportEviction

/-- Modelled from the spec: the error of the mock's `EvictPod`. -/
def MockKubernetesClient.EvictPod (c : MockKubernetesClient) (_pod : Pod) : Option String :=
  if c.FailEvictPod then some "EvictPod failed" else none

/-- Modelled from the spec: the error of the mock's `DeletePod`. -/
def MockKubernetesClient.DeletePod (c : MockKubernetesClient) (_pod : Pod) : Option String :=
  if c.FailDeletePod then some "DeletePod failed" else none

/-- Modelled from the spec: the error of the mock's `WaitForDelete`. -/
def MockKubernetesClient.WaitForDelete (c : MockKubernetesClient) (_pod : Pod) : Option String :=
  if c.FailWaitForDelete then some "WaitForDelete failed" else none

/-- Modelled from the spec: the mock's `GetDeployment` for the cluster-autoscaler
deployment, after the countdown `FailGetDeploymentCount` of the tests: fails while
the countdown lasts, then answers the current replica count. -/
def MockKubernetesClient.GetDeployment (c : MockKubernetesClient) :
    MockKubernetesClient × Except String Int :=
  if c.FailGetDeploymentCount > 0 then
    ({ c with FailGetDeploymentCount := c.FailGetDeploymentCount - 1 },
      Except.error "GetDeployment failed")
  else (c, Except.ok c.Replicas)

/-- Modelled from the spec: the mock's `UpdateDeployment` for the cluster-autoscaler
deployment, after the countdown `FailUpdateDeploymentCount` of the tests: fails
while the countdown lasts, then stores the replica count. -/
def MockKubernetesClient.UpdateDeployment (c : MockKubernetesClient) (replicas : Int) :
    MockKubernetesClient × Option String :=
  if c.FailUpdateDeploymentCount > 0 then
    ({ c with FailUpdateDeploymentCount := c.FailUpdateDeploymentCount - 1 },
      some "UpdateDeployment failed")
  else ({ c with Replicas := replicas }, none)

/-! ### Cordon and drain -/

/-- The two constants of the drain operation whose values are not in the sources at
hand: the number of cordon attempts and the text by which an optimistic-lock
conflict is recognised. -/
structure DrainSettings where
  cordonMaxRetries : Nat
  kubernetesOptimisticLockErrorMsg : String

/-- Go `strings.Contains` on character lists. -/
def containsSubstr (s sub : List Char) : Bool :=
  s.tails.any fun t => sub.isPrefixOf t

/-- Whether an update error is the optimistic-lock conflict: its text contains the
known conflict message. -/
def DrainSettings.isConflict (cfg : DrainSettings) (err : String) : Bool :=
  containsSubstr err.data cfg.kubernetesOptimisticLockErrorMsg.data

/-- Modelled from the spec: the cordon loop of `SafelyDrainNode` (§4.1 steps 2 and 3;
`cordondrainvm.go` is not part of the sources at hand). Each attempt fetches the
node and updates it as unschedulable; a conflict on update starts the next attempt,
any other error is returned at once, and when the attempts are used up the loop
fails with the last conflict. `calls` counts the `UpdateNode` calls made so far. -/
def cordonNode (cfg : DrainSettings) (client : MockKubernetesClient) :
    Nat → Nat → Option String → Option String
  | 0, _, lastErr => lastErr
  | attempts + 1, calls, _ =>
      match client.GetNode with
      | some err => some err
      | none =>
          match client.UpdateNode calls with
          | none => none
          | some err =>
              if cfg.isConflict err then cordonNode cfg client attempts (calls + 1) (some err)
              else some err

/-- Modelled from the spec: the per-pod part of the drain (§4.1 steps 6 and 7): evict
or delete the pod, then wait for it to disappear; the first failure aborts. -/
def deleteOrEvictPods (client : MockKubernetesClient) (supportsEviction : Bool) :
    List Pod → Option String
  | [] => none
  | pod :: rest =>
      match (if supportsEviction then client.EvictPod pod else client.DeletePod pod) with
      | some err => some err
      | none =>
          match client.WaitForDelete pod with
          | some err => some err
          | none => deleteOrEvictPods client supportsEviction rest

/-- Modelled from the spec: `SafelyDrainNode` (§4.1; `cordondrainvm.go` is not part
of the sources at hand): build the client, cordon the node, resolve the pods to
remove, find out whether eviction is supported, then evict or delete each pod and
wait for it to go. The result is the error, `none` for success. -/
def SafelyDrainNode (cfg : DrainSettings) (az : MockAKSEngineClient) : Option String :=
  if az.FailGetKubernetesClient then some "GetKubernetesClient failed"
  else
    let client := az.MockKubernetesClient
    match cordonNode cfg client cfg.cordonMaxRetries 0 none with
    | some err => some err
    | none =>
        match getPodsForDeletion client.ListPods with
        | (_, some err) => some err
        | (pods, none) =>
            match client.SupportEviction with
            | Except.error err => some err
            | Except.ok supportsEviction => deleteOrEvictPods client supportsEviction pods

/-- The hook of the retry test: the first `k` calls of `UpdateNode` fail with `err`,
the later ones succeed. -/
def failFirst (k : Nat) (err : String) : Nat → Option String :=
  fun calls => if calls < k then some err else none

/-- Every step of the drain other than the node update succeeds: the node can be
fetched, the pods listed, eviction support determined, and pods evicted, deleted
and waited for. -/
def MockKubernetesClient.otherDrainStepsSucceed (c : MockKubernetesClient) : Bool :=
  !c.FailGetNode && !c.FailListPods && !c.FailSupportEviction && !c.FailEvictPod
    && !c.FailDeletePod && !c.FailWaitForDelete

/-- The drain settings used in the worked examples: five cordon attempts and the
conflict message of the Kubernetes API server. -/
def testDrainSettings : DrainSettings :=
  { cordonMaxRetries := 5
    kubernetesOptimisticLockErrorMsg :=
      "the object has been modified; please apply your changes to the latest version and try again" }

/-! ### Cluster-autoscaler pause and resume -/

/-- Modelled from the spec: the retry loop of `SetClusterAutoscalerReplicaCount`
(§4.4; `upgradecluster.go` is not part of the sources at hand). Each attempt reads
the deployment, remembers its replica count and writes the desired one; a failing
read or write starts the next attempt. The state is the client, the count read
last and the last error. -/
def setReplicaCountLoop (replicaCount : Int) :
    Nat → MockKubernetesClient → Int → Option String →
      MockKubernetesClient × Int × Option String
  | 0, client, count, err => (client, count, err)
  | attempts + 1, client, count, _ =>
      match client.GetDeployment with
      | (client, Except.error err) =>
          setReplicaCountLoop replicaCount attempts client count (some err)
      | (client, Except.ok current) =>
          match client.UpdateDeployment replicaCount with
          | (client, none) => (client, current, none)
          | (client, some err) =>
              setReplicaCountLoop replicaCount attempts client current (some err)

/-- Modelled from the spec: `UpgradeCluster.SetClusterAutoscalerReplicaCount` (§4.4;
not part of the sources at hand). `retries` is the bound on attempts, a constant
whose value is not in the sources. The result is the client after the calls, the
previous replica count and the error; a nil client gives count 0 and the error
`no kubernetes client`, and a failure after all attempts gives count 0 and the last
error. -/
def SetClusterAutoscalerReplicaCount (retries : Nat) (kubeClient : Option MockKubernetesClient)
    (replicaCount : Int) : Option MockKubernetesClient × Int × Option String :=
  match kubeClient with
  | none => (none, 0, some "no kubernetes client")
  | some client =>
      match setReplicaCountLoop replicaCount retries client 0 none with
      | (client, _, some err) => (some client, 0, some err)
      | (client, count, none) => (some client, count, none)

/-! ### The upgrade run -/

/-- What the run logs about the autoscaler. -/
inductive LogEntry where
  | pausingClusterAutoscaler
  | failedToPauseClusterAutoscaler (err : String)
  | resumingClusterAutoscaler (count : Int)
  | failedToResumeClusterAutoscaler (err : String)
deriving DecidableEq, Repr

/-- What an upgrade run leaves behind: the returned error, the topology discovery
built, the client after the calls, whether the upgrade workflow was started, and
the log. -/
structure UpgradeOutcome where
  err : Option String
  topology : ClusterTopology
  kubeClient : Option MockKubernetesClient
  upgradeRan : Bool
  log : List LogEntry := []

/-- Modelled from the spec: `UpgradeCluster.UpgradeCluster` (§4.3, §4.4; not part of
the sources at hand). Discovery first, its error wrapped as the tests expect; then,
unless only the control plane is upgraded or the addon is off, the autoscaler is
paused, a pause failure aborting the run unless `Force` is set; then the workflow
`runUpgrade` runs on the topology; a paused autoscaler is resumed at the end with
the count it had. -/
def UpgradeCluster.UpgradeCluster (uc : UpgradeCluster)
    (supportedVersions : List (String × Bool)) (retries : Nat)
    (listVMs : Except String (List VirtualMachine)) (kubeClient : Option MockKubernetesClient)
    (runUpgrade : ClusterTopology → Option String) : UpgradeOutcome :=
  match getClusterNodeStatus uc supportedVersions listVMs with
  | (topology, some err) =>
      { err := some ("Error while querying ARM for resources: " ++ err), topology := topology,
        kubeClient := kubeClient, upgradeRan := false }
  | (topology, none) =>
      if !uc.ControlPlaneOnly && uc.ClusterAutoscalerEnabled then
        match SetClusterAutoscalerReplicaCount retries kubeClient 0 with
        | (kubeClient, _, some err) =>
            if !uc.Force then
              { err := some err, topology := topology, kubeClient := kubeClient,
                upgradeRan := false,
                log := [LogEntry.pausingClusterAutoscaler,
                  LogEntry.failedToPauseClusterAutoscaler err] }
            else
              { err := runUpgrade topology, topology := topology, kubeClient := kubeClient,
                upgradeRan := true,
                log := [LogEntry.pausingClusterAutoscaler,
                  LogEntry.failedToPauseClusterAutoscaler err] }
        | (kubeClient, count, none) =>
            match SetClusterAutoscalerReplicaCount retries kubeClient count with
            | (kubeClient, _, some err) =>
                { err := runUpgrade topology, topology := topology, kubeClient := kubeClient,
                  upgradeRan := true,
                  log := [LogEntry.pausingClusterAutoscaler,
                    LogEntry.resumingClusterAutoscaler count,
                    LogEntry.failedToResumeClusterAutoscaler err] }
            | (kubeClient, _, none) =>
                { err := runUpgrade topology, topology := topology, kubeClient := kubeClient,
                  upgradeRan := true,
                  log := [LogEntry.pausingClusterAutoscaler,
                    LogEntry.resumingClusterAutoscaler count] }
      else
        { err := runUpgrade topology, topology := topology, kubeClient := kubeClient,
          upgradeRan := true }

/-! ### ARM helper utilities (`pkg/armhelpers/utils/util.go`) -/

/-- Go `strings.Split(s, sep)` for a one-character separator, on character lists:
the pieces between the separators, so always at least one piece. -/
def splitOn (sep : Char) : List Char → List (List Char)
  | [] => [[]]
  | c :: cs =>
      if c = sep then [] :: splitOn sep cs
      else ((c :: (splitOn sep cs).headD []) :: (splitOn sep cs).tail)

/-- Go `strings.Join(parts, sep)` for a one-character separator, on character lists. -/
def joinWith (sep : Char) : List (List Char) → List Char
  | [] => []
  | [p] => p
  | p :: q :: rest => p ++ sep :: joinWith sep (q :: rest)

/-- Go `strings.Split(s, sep)` with `sep` a single character. -/
def stringsSplit (s : String) (sep : Char) : List String :=
  (splitOn sep s.data).map String.mk

/-- Go `strings.Join(parts, sep)` with `sep` a single character. -/
def stringsJoin (parts : List String) (sep : Char) : String :=
  String.mk (joinWith sep (parts.map String.data))

/-- ResourceName returns the last segment (the resource name) for the specified
resource identifier. -/
def ResourceName (id : String) : String × Option String :=
  let parts := stringsSplit id '/'
  let name := parts.getLast?.getD ""
  if name.length = 0 then ("", some "resource name was missing from identifier")
  else (name, none)

/-- One element of the naming patterns of `util.go`: a character class repeated
between `min` and `max` times (no `max`: unbounded), greedily, inside a capture
group or not. Every pattern of the file is a sequence of such elements. -/
structure RegexItem where
  cls : Char → Bool
  min : Nat
  max : Option Nat
  capture : Bool

/-- A pattern of `util.go`: whether it starts with `^`, and its elements. Every
pattern of the file ends with `$`, which the matcher builds in. -/
structure Regex where
  anchoredStart : Bool
  items : List RegexItem

/-- The class `[0-9]`. -/
def isDigit (c : Char) : Bool := '0' ≤ c && c ≤ '9'

/-- The class `[0-9a-zA-Z]`. -/
def isAlnum (c : Char) : Bool :=
  ('0' ≤ c && c ≤ '9') || ('a' ≤ c && c ≤ 'z') || ('A' ≤ c && c ≤ 'Z')

/-- The class `[0-9a-fA-F]`. -/
def isHex (c : Char) : Bool :=
  ('0' ≤ c && c ≤ '9') || ('a' ≤ c && c ≤ 'f') || ('A' ≤ c && c ≤ 'F')

/-- The class `.` of Go regular expressions: any character but the line feed. -/
def isDot (c : Char) : Bool := c != '\n'

/-- A literal character of a pattern. -/
def RegexItem.lit (c : Char) : RegexItem :=
  { cls := fun x => x == c, min := 1, max := some 1, capture := false }

/-- The number of leading characters of `s` in the class. -/
def runLength (cls : Char → Bool) : List Char → Nat
  | [] => 0
  | c :: cs => if cls c then runLength cls cs + 1 else 0

/-- One greedy element followed by the rest of the pattern `k`: the repetition
counts `lo + d`, `lo + d - 1`, ..., `lo` are tried in that order and the first one
after which the rest of the pattern matches wins, as a backtracking matcher does.
The captured text, when the element is a group, is put in front of the captures of
the rest. -/
def tryCounts (k : List Char → Option (List (List Char))) (capture : Bool) (s : List Char)
    (lo : Nat) : Nat → Option (List (List Char))
  | 0 => (k (s.drop lo)).map fun caps => if capture then s.take lo :: caps else caps
  | d + 1 =>
      match k (s.drop (lo + (d + 1))) with
      | some caps => some (if capture then s.take (lo + (d + 1)) :: caps else caps)
      | none => tryCounts k capture s lo d

/-- Match a sequence of elements against the whole of `s` (the final `$`), giving
the captured groups in order. -/
def matchItems : List RegexItem → List Char → Option (List (List Char))
  | [], s => if s.isEmpty then some [] else none
  | item :: items, s =>
      let hi := Nat.min (runLength item.cls s) (item.max.getD (runLength item.cls s))
      if hi < item.min then none
      else tryCounts (matchItems items) item.capture s item.min (hi - item.min)

/-- The leftmost match of the elements that ends at the end of the text: the start
positions are tried from the left. The result is the matched text followed by the
groups, or nothing. -/
def findFrom (items : List RegexItem) : List Char → List (List Char)
  | [] =>
      match matchItems items [] with
      | some caps => [] :: caps
      | none => []
  | c :: cs =>
      match matchItems items (c :: cs) with
      | some caps => (c :: cs) :: caps
      | none => findFrom items cs

/-- Go `(*Regexp).FindStringSubmatch` for the patterns of `util.go`: the text of the
leftmost match and of its groups, or the empty slice when there is no match. -/
def Regex.FindStringSubmatch (re : Regex) (s : String) : List String :=
  if re.anchoredStart then
    match matchItems re.items s.data with
    | some caps => s :: caps.map String.mk
    | none => []
  else (findFrom re.items s.data).map String.mk

/-- The pattern `^[0-9a-zA-Z]{3}-(.+)-([0-9a-fA-F]{8})-{0,2}([0-9]+)$`. -/
def k8sLinuxVMNamingFormat : Regex :=
  { anchoredStart := true
    items :=
      [{ cls := isAlnum, min := 3, max := some 3, capture := false },
       RegexItem.lit '-',
       { cls := isDot, min := 1, max := none, capture := true },
       RegexItem.lit '-',
       { cls := isHex, min := 8, max := some 8, capture := true },
       { cls := fun x => x == '-', min := 0, max := some 2, capture := false },
       { cls := isDigit, min := 1, max := none, capture := true }] }

/-- The pattern `^[0-9a-zA-Z]+-(.+)-([0-9a-fA-F]{8})-vmss$`. -/
def vmssNamingFormat : Regex :=
  { anchoredStart := true
    items :=
      [{ cls := isAlnum, min := 1, max := none, capture := false },
       RegexItem.lit '-',
       { cls := isDot, min := 1, max := none, capture := true },
       RegexItem.lit '-',
       { cls := isHex, min := 8, max := some 8, capture := true },
       RegexItem.lit '-', RegexItem.lit 'v', RegexItem.lit 'm', RegexItem.lit 's',
       RegexItem.lit 's'] }

/-- The pattern `^([a-fA-F0-9]{5})([0-9a-zA-Z]{3})([9])([a-zA-Z0-9]{3,5})$`. -/
def k8sWindowsOldVMNamingFormat : Regex :=
  { anchoredStart := true
    items :=
      [{ cls := isHex, min := 5, max := some 5, capture := true },
       { cls := isAlnum, min := 3, max := some 3, capture := true },
       { cls := fun x => x == '9', min := 1, max := some 1, capture := true },
       { cls := isAlnum, min := 3, max := some 5, capture := true }] }

/-- The pattern `^([a-fA-F0-9]{4})([0-9a-zA-Z]{3})([0-9]{3,8})$`. -/
def k8sWindowsVMNamingFormat : Regex :=
  { anchoredStart := true
    items :=
      [{ cls := isHex, min := 4, max := some 4, capture := true },
       { cls := isAlnum, min := 3, max := some 3, capture := true },
       { cls := isDigit, min := 3, max := some 8, capture := true }] }

/-- The pattern `aks([0-9a-zA-Z]+)$`, which has no `^`. -/
def windowsVmssNamingFormatV2 : Regex :=
  { anchoredStart := false
    items :=
      [RegexItem.lit 'a', RegexItem.lit 'k', RegexItem.lit 's',
       { cls := isAlnum, min := 1, max := none, capture := true }] }

/-- The value of a run of decimal digits read after `acc`; nothing when a character
is not a digit. -/
def parseDigits : List Char → Nat → Option Nat
  | [], acc => some acc
  | c :: cs, acc => if isDigit c then parseDigits cs (acc * 10 + (c.toNat - '0'.toNat)) else none

/-- Go `strconv.Atoi` on a 64-bit platform: an optional sign, then at least one
decimal digit and nothing else; a value outside the `int` range is an error. -/
def Atoi (s : String) : Except String Int :=
  let syntaxErr := "strconv.Atoi: parsing " ++ s.quote ++ ": invalid syntax"
  let rangeErr := "strconv.Atoi: parsing " ++ s.quote ++ ": value out of range"
  match s.data with
  | [] => Except.error syntaxErr
  | c :: cs =>
      let negative := c == '-'
      let digits := if c == '-' || c == '+' then cs else c :: cs
      if digits.isEmpty then Except.error syntaxErr
      else
        match parseDigits digits 0 with
        | none => Except.error syntaxErr
        | some n =>
            if negative then
              if n ≤ 2 ^ 63 then Except.ok (-(n : Int)) else Except.error rangeErr
            else if n < 2 ^ 63 then Except.ok (n : Int) else Except.error rangeErr

/-- The decimal digits of `n`, most significant first; `fuel` bounds the number of
digits. -/
def decimalDigits : Nat → Nat → List Char
  | 0, _ => []
  | fuel + 1, n =>
      if n < 10 then [Char.ofNat (n + '0'.toNat)]
      else decimalDigits fuel (n / 10) ++ [Char.ofNat (n % 10 + '0'.toNat)]

/-- Go `%d` (and `strconv.Itoa`) for a non-negative integer. -/
def Itoa (n : Nat) : String := String.mk (decimalDigits (n + 1) n)

/-- K8sLinuxVMNameParts returns parts of Linux VM name e.g: k8s-agentpool1-11290731-0 -/
def K8sLinuxVMNameParts (vmName : String) : String × String × Int × Option String :=
  match k8sLinuxVMNamingFormat.FindStringSubmatch vmName with
  | [_, poolIdentifier, nameSuffix, agentIndex] =>
      match Atoi agentIndex with
      | Except.error err => ("", "", -1, some ("Error parsing VM Name: " ++ err))
      | Except.ok vmNum => (poolIdentifier, nameSuffix, vmNum, none)
  | _ => ("", "", -1, some "resource name was missing from identifier")

/-- VmssNameParts returns parts of a scale-set name: the pool identifier and the
cluster suffix. -/
def VmssNameParts (vmssName : String) : String × String × Option String :=
  match vmssNamingFormat.FindStringSubmatch vmssName with
  | [_, poolIdentifier, nameSuffix] => (poolIdentifier, nameSuffix, none)
  | _ => ("", "", some "resource name was missing from identifier")

/-- WindowsVmssNameParts returns the agent pool name from the VMSS name. For windows,
the VMSS name is `aks` concatenated with agentpool name. -/
def WindowsVmssNameParts (vmssName : String) : String × Option String :=
  match windowsVmssNamingFormatV2.FindStringSubmatch vmssName with
  | [_, poolIdentifier] => (poolIdentifier, none)
  | _ => ("", some "resource name was missing from identifier")

/-- The tail of `WindowsVMNameParts` once the pattern has matched: the two parts of
`poolInfo` are read as integers. -/
def windowsPoolInfo (poolPrefix orch poolInfo : String) :
    String × String × Int × Int × Option String :=
  match Atoi (String.mk (poolInfo.data.take 2)) with
  | Except.error err => ("", "", -1, -1, some ("Error parsing VM Name: " ++ err))
  | Except.ok poolIndex =>
      match Atoi (String.mk (poolInfo.data.drop 2)) with
      | Except.error err => ("", "", -1, -1, some ("Error parsing VM Name: " ++ err))
      | Except.ok agentIndex => (poolPrefix, orch, poolIndex, agentIndex, none)

/-- WindowsVMNameParts returns parts of Windows VM name: the old naming format is
tried first, the current one when the old one does not match. -/
def WindowsVMNameParts (vmName : String) : String × String × Int × Int × Option String :=
  match k8sWindowsOldVMNamingFormat.FindStringSubmatch vmName with
  | [_, poolPrefix, orch, _, poolInfo] => windowsPoolInfo poolPrefix orch poolInfo
  | _ =>
      match k8sWindowsVMNamingFormat.FindStringSubmatch vmName with
      | [_, poolPrefix, orch, poolInfo] => windowsPoolInfo poolPrefix orch poolInfo
      | _ => ("", "", -1, -1, some "resource name was missing from identifier")

/-- The value `compute.OperatingSystemTypesLinux`. -/
def OperatingSystemTypesLinux : String := "Linux"

/-- The value `compute.OperatingSystemTypesWindows`. -/
def OperatingSystemTypesWindows : String := "Windows"

/-- GetVMNameIndex return VM index of a node in the Kubernetes cluster -/
def GetVMNameIndex (osType : String) (vmName : String) : Int × Option String :=
  if osType = OperatingSystemTypesLinux then
    match K8sLinuxVMNameParts vmName with
    | (_, _, _, some err) => (0, some err)
    | (_, _, agentIndex, none) => (agentIndex, none)
  else if osType = OperatingSystemTypesWindows then
    match WindowsVMNameParts vmName with
    | (_, _, _, _, some err) => (0, some err)
    | (_, _, _, agentIndex, none) => (agentIndex, none)
  else (0, some "Unknown os type. Can't determine vm index")

/-- The number a run of decimal digits denotes, leading zeros allowed. -/
def decimalValue (ds : List Char) : Nat :=
  ds.foldl (fun acc c => acc * 10 + (c.toNat - 48)) 0

/-- The two fields of a parsed URL that `SplitBlobURI` reads. -/
structure URL where
  Host : String
  Path : String
deriving DecidableEq, Repr

/-- SplitBlobURI returns a decomposed blob URI parts: accountName, containerName,
blobName. `urlParse` stands for `url.Parse` of the Go standard library. The outer
`Option` is `none` when an index is out of range, where the Go code panics. -/
def SplitBlobURI (urlParse : String → Except String URL) (uri : String) :
    Option (String × String × String × Option String) :=
  match urlParse uri with
  | Except.error err => some ("", "", "", some err)
  | Except.ok parsed =>
      match (stringsSplit parsed.Host '.')[0]? with
      | none => none
      | some accountName =>
          let urlParts := stringsSplit parsed.Path '/'
          match urlParts[1]? with
          | none => none
          | some containerName =>
              let blobPath := stringsJoin (urlParts.drop 2) '/'
              some (accountName, containerName, blobPath, none)

/-- The parse of the URI of `Test_SplitBlobURI`, for every input. -/
def testUrlParse : String → Except String URL :=
  fun _ =>
    Except.ok
      { Host := "vhdstorage8h8pjybi9hbsl6.blob.core.windows.net"
        Path := "/vhds/osdisks/disk1234.vhd" }

/-! ### ARM resource builders (`pkg/engine`) -/

/-- The fields of `api.KubernetesConfig` the ARM resource builders read; a nil
`*bool` is `none`. -/
structure KubernetesConfig where
  UseManagedIdentity : Option Bool := none
  UserAssignedID : String := ""
deriving DecidableEq, Repr

/-- The field of `api.OrchestratorProfile` the ARM resource builders read. -/
structure OrchestratorProfile where
  KubernetesConfig : KubernetesConfig := {}
deriving DecidableEq, Repr

/-- The fields of `api.MasterProfile` the ARM resource builders read. -/
structure MasterProfile where
  Count : Int := 0
  VnetSubnetID : String := ""
deriving DecidableEq, Repr

/-- The field of `api.AgentPoolProfile` the check reads. -/
structure AgentPoolProfile where
  VnetSubnetID : String := ""
deriving DecidableEq, Repr

/-- The part of `api.Properties` the ARM resource builders read. -/
structure Properties where
  OrchestratorProfile : OrchestratorProfile := {}
  MasterProfile : MasterProfile := {}
  AgentPoolProfiles : List AgentPoolProfile := []
deriving DecidableEq, Repr

/-- The part of `api.ContainerService` the ARM resource builders read. -/
structure ContainerService where
  Properties : Properties := {}
deriving DecidableEq, Repr

/-- The loop of `hasDistinctControlPlaneVNET` over the agent pools, with its early
returns: a malformed pool subnet returns false, a pool subnet in another VNET
returns true, a pool without subnet returns true when the control plane has one;
when the pools run out the answer is false. -/
def agentPoolsHaveDistinctVNET (masterVnetSubnetID controlPlaneVNETResourceURI : String) :
    List AgentPoolProfile → Bool
  | [] => false
  | agentPool :: rest =>
      if agentPool.VnetSubnetID ≠ "" then
        let nodePoolSubnetElements := stringsSplit agentPool.VnetSubnetID '/'
        if nodePoolSubnetElements.length < 9 then false
        else if stringsJoin (nodePoolSubnetElements.take 9) '/' ≠ controlPlaneVNETResourceURI then
          true
        else agentPoolsHaveDistinctVNET masterVnetSubnetID controlPlaneVNETResourceURI rest
      else if masterVnetSubnetID ≠ "" then true
      else agentPoolsHaveDistinctVNET masterVnetSubnetID controlPlaneVNETResourceURI rest

/-- hasDistinctControlPlaneVNET returns whether or not the VNET config of the control
plane is distinct from any one node pool. If the VnetSubnetID string is malformed in
either the MasterProfile or any AgentPoolProfile, we return false (so the source
comment says). -/
def hasDistinctControlPlaneVNET (cs : ContainerService) : Bool :=
  let masterVnetSubnetID := cs.Properties.MasterProfile.VnetSubnetID
  if masterVnetSubnetID ≠ "" then
    let controlPlaneSubnetElements := stringsSplit masterVnetSubnetID '/'
    if controlPlaneSubnetElements.length ≥ 9 then
      agentPoolsHaveDistinctVNET masterVnetSubnetID
        (stringsJoin (controlPlaneSubnetElements.take 9) '/') cs.Properties.AgentPoolProfiles
    else false
  else agentPoolsHaveDistinctVNET masterVnetSubnetID "" cs.Properties.AgentPoolProfiles

/-- Whether a subnet id is malformed: non-empty, with fewer than 9 elements between
the `/`. -/
def malformedVnetSubnetID (id : String) : Bool :=
  decide (id ≠ "") && decide ((stringsSplit id '/').length < 9)

/-- A well-formed subnet id, 11 elements long. -/
def testSubnetID : String :=
  "/subscriptions/s/resourceGroups/rg/providers/Microsoft.Network/virtualNetworks/vnet/subnets/a"

/-! ### Certificate-rotation waits (`cmd/rotatecerts/wait.go`) -/

/-- Go `m[k] = v` on a map kept as an association list: every entry under the key
gets the value, and a new entry is added when there is none. -/
def mapSet (m : List (String × Bool)) (k : String) (v : Bool) : List (String × Bool) :=
  if (m.lookup k).isSome then m.map fun e => if e.1 == k then (e.1, v) else e
  else m ++ [(k, v)]

/-- The loop of `allNodesReadyCondition` over the listed nodes: a node whose name is
not required is skipped, a required node that is not Ready ends the loop with
`false` (here `none`), a required Ready node is recorded. -/
def recordReadyNodes (isReady : Node → Bool) :
    List (String × Bool) → List Node → Option (List (String × Bool))
  | requiredReady, [] => some requiredReady
  | requiredReady, nli :: rest =>
      match requiredReady.lookup nli.name with
      | none => recordReadyNodes isReady requiredReady rest
      | some _ =>
          if !isReady nli then none
          else recordReadyNodes isReady (mapSet requiredReady nli.name (isReady nli)) rest

/-- The condition `allNodesReadyCondition(requiredNodes)` applied to a node list.
`isReady` stands for `kubernetes.IsNodeReady`, which is defined outside
`wait.go`. -/
def allNodesReadyCondition (isReady : Node → Bool) (requiredNodes : List String)
    (nl : List Node) : Bool :=
  let requiredReady := requiredNodes.foldl (fun m name => mapSet m name false) []
  match recordReadyNodes isReady requiredReady nl with
  | none => false
  | some requiredReady => requiredReady.all fun e => e.2

/-- The pointer `c.State.Running` of a container status points to a value of this
type of the Kubernetes API; the condition only tests it against nil. -/
structure v1.ContainerStateRunning where
deriving DecidableEq, Repr

/-- The field of `v1.ContainerState` the pod condition reads; `none` is the nil
pointer. -/
structure v1.ContainerState where
  Running : Option v1.ContainerStateRunning := none
deriving DecidableEq, Repr

/-- The fields of `v1.ContainerStatus` the pod condition reads. -/
structure v1.ContainerStatus where
  State : v1.ContainerState := {}
  Ready : Bool := false
deriving DecidableEq, Repr

/-- The fields of `v1.PodStatus` the pod condition reads. -/
structure v1.PodStatus where
  Phase : String := ""
  ContainerStatuses : List v1.ContainerStatus := []
deriving DecidableEq, Repr

/-- The field of `metav1.ObjectMeta` the pod condition reads. -/
structure v1.ObjectMeta where
  Name : String := ""
deriving DecidableEq, Repr

/-- The fields of `v1.Pod` the pod condition reads. -/
structure v1.Pod where
  ObjectMeta : v1.ObjectMeta := {}
  Status : v1.PodStatus := {}
deriving DecidableEq, Repr

/-- The pods of a `v1.PodList`. -/
structure v1.PodList where
  Items : List v1.Pod := []
deriving DecidableEq, Repr

/-- The pod phase `v1.PodRunning`. -/
def v1.PodRunning : String := "Running"

/-- The readiness `allExpectedPodsReadyCondition` computes for one listed pod: the
phase is Running, and the loop over the container statuses keeps it only while each
container is running and ready. -/
def podItemReady (pli : v1.Pod) : Bool :=
  pli.Status.ContainerStatuses.foldl
    (fun ready c => ready && c.State.Running.isSome && c.Ready)
    (pli.Status.Phase == v1.PodRunning)

/-- The loop of `allExpectedPodsReadyCondition` over the listed pods: a pod whose
name is not a key of the map is skipped, the readiness of every other pod is stored
under its name. -/
def recordPodReady : List (String × Bool) → List v1.Pod → List (String × Bool)
  | podReady, [] => podReady
  | podReady, pli :: rest =>
      match podReady.lookup pli.ObjectMeta.Name with
      | none => recordPodReady podReady rest
      | some _ => recordPodReady (mapSet podReady pli.ObjectMeta.Name (podItemReady pli)) rest

/-- Go `%s` of a string slice: the elements between brackets, a blank apart. -/
def formatStrings (xs : List String) : String :=
  "[" ++ " ".intercalate xs ++ "]"

/-- The condition `allExpectedPodsReadyCondition(expectedPods)` applied to a pod
list; `none` is the nil error. The map is kept as an association list, so the pods
of the error message come in the order the names were first stored, where Go ranges
over the map in an unspecified order. -/
def allExpectedPodsReadyCondition (expectedPods : List String) (pl : v1.PodList) :
    Option String :=
  let podReady := expectedPods.foldl (fun m n => mapSet m n false) []
  let podReady := recordPodReady podReady pl.Items
  let podsNotReady := (podReady.filter fun e => !e.2).map Prod.fst
  if podsNotReady.length ≠ 0 then
    some ("at least one pod did not reach the Ready state: " ++ formatStrings podsNotReady)
  else none

/-- A pod with one container, for the examples. -/
def testPod (name phase : String) (running ready : Bool) : v1.Pod :=
  { ObjectMeta := { Name := name }
    Status :=
      { Phase := phase
        ContainerStatuses :=
          [{ State := { Running := if running then some {} else none }, Ready := ready }] } }

/-! ### Key vault resource (`pkg/engine/keyvaults.go`) -/

/-- The `sku` map of the key vault properties. -/
structure KeyVaultSku where
  name : String
  family : String
deriving DecidableEq, Repr

/-- The `permissions` map of an access policy. -/
structure KeyVaultPermissions where
  keys : List String
deriving DecidableEq, Repr

/-- One access policy map of the key vault properties. -/
structure KeyVaultAccessPolicy where
  tenantId : String
  objectId : String
  permissions : KeyVaultPermissions
deriving DecidableEq, Repr

/-- The `properties` map of the key vault resource. -/
structure KeyVaultProperties where
  enabledForDeployment : String
  enabledForDiskEncryption : String
  enabledForTemplateDeployment : String
  tenantId : String
  sku : KeyVaultSku
  accessPolicies : List KeyVaultAccessPolicy
deriving DecidableEq, Repr

/-- The map `CreateKeyVaultVMAS` returns, one field for each key it can hold;
`dependsOn` is `none` when the map has no such key. -/
structure KeyVaultARM where
  type : String
  name : String
  apiVersion : String
  location : String
  dependsOn : Option (List String)
  properties : KeyVaultProperties
deriving DecidableEq, Repr

/-- The two dependencies appended for master `i`: its virtual machine and the role
assignment of that virtual machine. -/
def masterVMDependencies (i : Nat) : List String :=
  ["[concat('Microsoft.Compute/virtualMachines/', variables('masterVMNamePrefix'), '"
      ++ Itoa i ++ "')]",
   "[concat('Microsoft.Authorization/roleAssignments/', guid(concat('Microsoft.Compute/virtualMachines/', variables('masterVMNamePrefix'), '"
      ++ Itoa i ++ "', 'vmidentity')))]"]

/-- The access policy appended for master `i` under a system-assigned identity. -/
def masterVMAccessPolicy (i : Nat) : KeyVaultAccessPolicy :=
  { objectId :=
      "[reference(concat('Microsoft.Compute/virtualMachines/', variables('masterVMNamePrefix'), '"
        ++ Itoa i ++ "'), '2017-03-30', 'Full').identity.principalId]"
    permissions := { keys := ["create", "encrypt", "decrypt", "get", "list"] }
    tenantId := "[variables('tenantID')]" }

/-- CreateKeyVaultVMAS, the key vault resource of a cluster whose masters are in an
availability set. `toBool` stands for `to.Bool`, and `UserAssignedIDEnabled` and
`ShouldCreateNewUserAssignedIdentity` for the methods of `api.KubernetesConfig` of
those names; all three are defined outside `keyvaults.go`. The loops
`for i := 0; i < masterCount; i++` run over `List.range masterCount.toNat`. -/
def CreateKeyVaultVMAS (toBool : Option Bool → Bool)
    (UserAssignedIDEnabled ShouldCreateNewUserAssignedIdentity : KubernetesConfig → Bool)
    (cs : ContainerService) : KeyVaultARM :=
  let useManagedIdentity :=
    toBool cs.Properties.OrchestratorProfile.KubernetesConfig.UseManagedIdentity
  let userAssignedIDEnabled :=
    UserAssignedIDEnabled cs.Properties.OrchestratorProfile.KubernetesConfig
  let creatingNewUserAssignedIdentity :=
    ShouldCreateNewUserAssignedIdentity cs.Properties.OrchestratorProfile.KubernetesConfig
  let masterCount := cs.Properties.MasterProfile.Count
  let dependsOn : Option (List String) :=
    if useManagedIdentity then
      some
        (if userAssignedIDEnabled then
          (if creatingNewUserAssignedIdentity then ["[variables('userAssignedIDReference')]"]
            else [])
        else
          (List.range masterCount.toNat).foldl
            (fun dependencies i => dependencies ++ masterVMDependencies i) [])
    else none
  let accessPolicies : List KeyVaultAccessPolicy :=
    if useManagedIdentity then
      if userAssignedIDEnabled then
        [{ tenantId := "[variables('tenantID')]"
           objectId :=
             "[reference(variables('userAssignedIDReference'), variables('apiVersionManagedIdentity')).principalId]"
           permissions := { keys := ["create", "encrypt", "decrypt", "get", "list"] } }]
      else
        (List.range masterCount.toNat).foldl
          (fun accessPolicies i => accessPolicies ++ [masterVMAccessPolicy i]) []
    else
      [{ tenantId := "[variables('tenantID')]"
         objectId := "[parameters('servicePrincipalObjectId')]"
         permissions := { keys := ["create", "encrypt", "decrypt", "get", "list"] } }]
  { type := "Microsoft.KeyVault/vaults"
    name := "[variables('clusterKeyVaultName')]"
    apiVersion := "[variables('apiVersionKeyVault')]"
    location := "[variables('location')]"
    dependsOn := dependsOn
    properties :=
      { enabledForDeployment := "false"
        enabledForDiskEncryption := "false"
        enabledForTemplateDeployment := "false"
        tenantId := "[variables('tenantID')]"
        sku := { name := "[parameters('clusterKeyVaultSku')]", family := "A" }
        accessPolicies := accessPolicies } }

/-- The value of a bool pointer, false for nil: what `TestCreateKeyVault` relies on
from `to.Bool`. -/
def testToBool (b : Option Bool) : Bool := b.getD false

/-- A user-assigned identity is in use when managed identity is on and an identity
is named: what `TestCreateKeyVault` relies on from `UserAssignedIDEnabled`. -/
def testUserAssignedIDEnabled (k : KubernetesConfig) : Bool :=
  testToBool k.UseManagedIdentity && k.UserAssignedID != ""

/-- The container service of `TestCreateKeyVault`: one master. -/
def testKeyVaultCS (useManagedIdentity : Option Bool) (userAssignedID : String) :
    ContainerService :=
  { Properties :=
      { OrchestratorProfile :=
          { KubernetesConfig :=
              { UseManagedIdentity := useManagedIdentity, UserAssignedID := userAssignedID } }
        MasterProfile := { Count := 1 } } }

/-! ### Scale command (`cmd/scale.go`) -/

/-- The check `scaleCmd.validate` makes on the desired node count, the only one it
makes on it; `none` is no error. -/
def validateNewDesiredAgentCount (newDesiredAgentCount : Int) : Option String :=
  if newDesiredAgentCount = 0 then some "--new-node-count must be specified" else none

/-- The fields of a listed `compute.VirtualMachine` that `scaleCmd.run` reads. -/
structure compute.VirtualMachine where
  Name : String
  Tags : List (String × String) := []
deriving DecidableEq, Repr

/-- The agent index and the error `scaleCmd.run` takes from the name of a VM:
`utils.WindowsVMNameParts` for a Windows pool, `utils.K8sLinuxVMNameParts`
otherwise. -/
def vmNameIndex (isWindows : Bool) (vmName : String) : Int × Option String :=
  if isWindows then
    match WindowsVMNameParts vmName with
    | (_, _, _, index, err) => (index, err)
  else
    match K8sLinuxVMNameParts vmName with
    | (_, _, index, err) => (index, err)

/-- The loop of `scaleCmd.run` over one listing of the resource group's VMs. The state
is the slice `indexes` and the map `indexToVM`, kept as an association list with the
latest assignment first. `vmInVMASAgentPool` stands for the method of that name, which
reads the API model, and `isWindows` for `sc.agentPool.OSType == api.Windows`. A VM
outside the pool is skipped, a name that does not parse ends the run with the error. -/
def collectIndexes (vmInVMASAgentPool : String → List (String × String) → Bool)
    (isWindows : Bool) :
    List compute.VirtualMachine → List Int × List (Int × String) →
      Except String (List Int × List (Int × String))
  | [], state => Except.ok state
  | vm :: rest, (indexes, indexToVM) =>
      if !vmInVMASAgentPool vm.Name vm.Tags then
        collectIndexes vmInVMASAgentPool isWindows rest (indexes, indexToVM)
      else
        match vmNameIndex isWindows vm.Name with
        | (_, some err) => Except.error err
        | (index, none) =>
            collectIndexes vmInVMASAgentPool isWindows rest
              (indexes ++ [index], (index, vm.Name) :: indexToVM)

/-- The indexes after `sort.IntSlice(indexes).Sort()`: in increasing order. -/
def sortIndexes (indexes : List Int) : List Int :=
  indexes.insertionSort (fun a b => a ≤ b)

/-- The body of the loop that selects the VMs to delete, run for the loop counters
`i` in turn: `index = indexes[i]`, then `indexToVM[index]` is appended. `none` is the
Go panic on an index out of range; a key the map lacks gives the empty string. -/
def vmsToDeleteLoop (indexes : List Int) (indexToVM : List (Int × String)) :
    List Int → List String → Option (List String)
  | [], vmsToDelete => some vmsToDelete
  | i :: rest, vmsToDelete =>
      if 0 ≤ i then
        match indexes[i.toNat]? with
        | none => none
        | some index =>
            vmsToDeleteLoop indexes indexToVM rest
              (vmsToDelete ++ [(indexToVM.lookup index).getD ""])
      else none

/-- The VMs `scaleCmd.run` hands to `drainNodes` and to `operations.ScaleDownVMs`: the
loop `for i := currentNodeCount - 1; i >= sc.newDesiredAgentCount; i--` over the
sorted indexes, whose counters are `currentNodeCount - 1` down to
`newDesiredAgentCount`. -/
def vmsToDelete (indexes : List Int) (indexToVM : List (Int × String))
    (newDesiredAgentCount : Int) : Option (List String) :=
  let indexes := sortIndexes indexes
  let currentNodeCount : Int := indexes.length
  vmsToDeleteLoop indexes indexToVM
    ((List.range (currentNodeCount - newDesiredAgentCount).toNat).map
      fun (k : Nat) => currentNodeCount - 1 - (k : Int)) []

/-- The two parameters `scaleCmd.run` writes for the pool with `addValue`. -/
structure ScaleParameters where
  Count : Int
  Offset : Int
deriving DecidableEq, Repr

/-- The result of a Go `int` operation on a 64-bit platform: the exact result wrapped
around into the range `-2^63 .. 2^63 - 1`. -/
def wrapInt (x : Int) : Int :=
  (x + 9223372036854775808) % 18446744073709551616 - 9223372036854775808

/-- The template range of `scaleCmd.run` for an availability-set pool, from the
collected indexes: the values it computes for `<pool>Count` and `<pool>Offset` when it
gets as far as the template, `none` when it returns before (the pool is at the desired
count already, or no VM was found). For a desired count below the current one the
scale-down branch comes first. The sums and the difference are Go `int` operations
and wrap around. -/
def scaleParameters (indexes : List Int) (newDesiredAgentCount : Int) :
    Option ScaleParameters :=
  let indexes := sortIndexes indexes
  let currentNodeCount : Int := indexes.length
  if currentNodeCount = newDesiredAgentCount then none
  else if currentNodeCount > 0 then
    match indexes[(currentNodeCount - 1).toNat]? with
    | none => none
    | some highestUsedIndex =>
        let countForTemplate :=
          if highestUsedIndex ≠ 0 then
            wrapInt (newDesiredAgentCount
              + wrapInt (wrapInt (highestUsedIndex + 1) - currentNodeCount))
          else newDesiredAgentCount
        some { Count := countForTemplate, Offset := wrapInt (highestUsedIndex + 1) }
  else none

/-! ### Node polling (`cmd/rotatecerts/wait.go`) -/

/-- The constant `defaultSuccessesNeeded` of `wait.go`. -/
def defaultSuccessesNeeded : Int := 5

/-- The error `wait.PollUntilContextCancel` returns when the context of the timeout
ends before the condition has returned true or an error. -/
def contextDeadlineExceeded : String := "context deadline exceeded"

/-- What `waitForNodesCondition` returns, the node list `nl` (`none` is nil) and the
error, and the number of polls it made. -/
structure NodesPollResult where
  nl : Option (List Node)
  err : Option String
  polls : Nat
deriving DecidableEq, Repr

/-- The polling of `waitForNodesCondition`. `wait.PollUntilContextCancel` calls the
closure at once and then once per interval, until it returns true or an error or the
timeout ends; the list holds what `client.ListNodes()` answers at each poll the timeout
leaves room for. The state is the variables `nl` and `successesCount` of the function
and the number of polls made so far. -/
def waitForNodesConditionLoop (condition : List Node → Bool) (successesNeeded : Int) :
    List (Except String (List Node)) → Option (List Node) → Int → Nat → NodesPollResult
  | [], nl, _, polls => { nl := nl, err := some contextDeadlineExceeded, polls := polls }
  | Except.error err :: _, _, _, polls => { nl := none, err := some err, polls := polls + 1 }
  | Except.ok nl :: rest, _, successesCount, polls =>
      if !condition nl then
        waitForNodesConditionLoop condition successesNeeded rest (some nl) successesCount
          (polls + 1)
      else if successesCount + 1 < successesNeeded then
        waitForNodesConditionLoop condition successesNeeded rest (some nl) (successesCount + 1)
          (polls + 1)
      else { nl := some nl, err := none, polls := polls + 1 }

/-- waitForNodesCondition checks that nodesCondition is met for every node in the
cluster; `listNodes` holds the answers of `client.ListNodes()`, poll by poll. -/
def waitForNodesCondition (listNodes : List (Except String (List Node)))
    (condition : List Node → Bool) (successesNeeded : Int) : NodesPollResult :=
  waitForNodesConditionLoop condition successesNeeded listNodes none 0 0

/-- WaitForNodesReady returns true if all requiredNodes reached the Ready state: the
error of `waitForNodesCondition` for `allNodesReadyCondition(requiredNodes)` and
`defaultSuccessesNeeded`. -/
def WaitForNodesReady (isReady : Node → Bool) (listNodes : List (Except String (List Node)))
    (requiredNodes : List String) : Option String :=
  (waitForNodesCondition listNodes (allNodesReadyCondition isReady requiredNodes)
    defaultSuccessesNeeded).err

/-! ### Network security group (`pkg/engine/networksecuritygroups.go`) -/

/-- The values of `network.SecurityRuleAccess` the builder uses. -/
inductive network.SecurityRuleAccess where
  | Allow
  | Deny
deriving DecidableEq, Repr

/-- The values of `network.SecurityRuleDirection` the builder uses. -/
inductive network.SecurityRuleDirection where
  | Inbound
  | Outbound
deriving DecidableEq, Repr

/-- The values of `network.SecurityRuleProtocol` the builder uses. -/
inductive network.SecurityRuleProtocol where
  | TCP
  | Asterisk
deriving DecidableEq, Repr

/-- A `network.SecurityRule` with the properties the builder sets. -/
structure network.SecurityRule where
  Name : String
  Access : network.SecurityRuleAccess
  Description : String
  DestinationAddressPrefix : String
  DestinationPortRange : String
  Direction : network.SecurityRuleDirection
  Priority : Int
  Protocol : network.SecurityRuleProtocol
  SourceAddressPrefix : String
  SourcePortRange : String
deriving DecidableEq, Repr

/-- A `network.SecurityGroup` with the fields the builder sets; `ResourceType` is its
field `Type`. -/
structure network.SecurityGroup where
  Location : String
  Name : String
  ResourceType : String
  SecurityRules : List network.SecurityRule
deriving DecidableEq, Repr

/-- The field of `ARMResource` the builder sets. -/
structure ARMResource where
  APIVersion : String
deriving DecidableEq, Repr

/-- The resource `CreateNetworkSecurityGroup` returns. -/
structure NetworkSecurityGroupARM where
  ARMResource : ARMResource
  SecurityGroup : network.SecurityGroup
deriving DecidableEq, Repr

/-- CreateNetworkSecurityGroup, the network security group of the masters.
`IsPrivateCluster` stands for the method of `api.OrchestratorProfile`, `HasWindows`
for the method of `api.Properties`, and `IsFeatureEnabled` for
`cs.Properties.FeatureFlags.IsFeatureEnabled`; the three are defined outside
`networksecuritygroups.go`. -/
def CreateNetworkSecurityGroup (IsPrivateCluster : OrchestratorProfile → Bool)
    (HasWindows : Properties → Bool) (IsFeatureEnabled : Properties → String → Bool)
    (cs : ContainerService) : NetworkSecurityGroupARM :=
  let armResource : ARMResource := { APIVersion := "[variables('apiVersionNetwork')]" }
  let sshRule : network.SecurityRule :=
    { Name := "allow_ssh"
      Access := network.SecurityRuleAccess.Allow
      Description := "Allow SSH traffic to master"
      DestinationAddressPrefix := "*"
      DestinationPortRange := "22-22"
      Direction := network.SecurityRuleDirection.Inbound
      Priority := 101
      Protocol := network.SecurityRuleProtocol.TCP
      SourceAddressPrefix := "*"
      SourcePortRange := "*" }
  let kubeTLSRule : network.SecurityRule :=
    { Name := "allow_kube_tls"
      Access := network.SecurityRuleAccess.Allow
      Description := "Allow kube-apiserver (tls) traffic to master"
      DestinationAddressPrefix := "*"
      DestinationPortRange := "443-443"
      Direction := network.SecurityRuleDirection.Inbound
      Priority := 100
      Protocol := network.SecurityRuleProtocol.TCP
      SourceAddressPrefix := "*"
      SourcePortRange := "*" }
  let kubeTLSRule : network.SecurityRule :=
    if IsPrivateCluster cs.Properties.OrchestratorProfile then
      { kubeTLSRule with SourceAddressPrefix := "VirtualNetwork" }
    else kubeTLSRule
  let securityRules := [sshRule, kubeTLSRule]
  let securityRules :=
    if HasWindows cs.Properties then
      let rdpRule : network.SecurityRule :=
        { Name := "allow_rdp"
          Access := network.SecurityRuleAccess.Allow
          Description := "Allow RDP traffic to master"
          DestinationAddressPrefix := "*"
          DestinationPortRange := "3389-3389"
          Direction := network.SecurityRuleDirection.Inbound
          Priority := 102
          Protocol := network.SecurityRuleProtocol.TCP
          SourceAddressPrefix := "*"
          SourcePortRange := "*" }
      securityRules ++ [rdpRule]
    else securityRules
  let securityRules :=
    if IsFeatureEnabled cs.Properties "BlockOutboundInternet" then
      let vnetRule : network.SecurityRule :=
        { Name := "allow_vnet"
          Access := network.SecurityRuleAccess.Allow
          Description := "Allow outbound internet to vnet"
          DestinationAddressPrefix := "[parameters('masterSubnet')]"
          DestinationPortRange := "*"
          Direction := network.SecurityRuleDirection.Outbound
          Priority := 110
          Protocol := network.SecurityRuleProtocol.Asterisk
          SourceAddressPrefix := "VirtualNetwork"
          SourcePortRange := "*" }
      let blockOutBoundRule : network.SecurityRule :=
        { Name := "block_outbound"
          Access := network.SecurityRuleAccess.Deny
          Description := "Block outbound internet from master"
          DestinationAddressPrefix := "*"
          DestinationPortRange := "*"
          Direction := network.SecurityRuleDirection.Outbound
          Priority := 120
          Protocol := network.SecurityRuleProtocol.Asterisk
          SourceAddressPrefix := "*"
          SourcePortRange := "*" }
      let allowARMRule : network.SecurityRule :=
        { Name := "allow_ARM"
          Access := network.SecurityRuleAccess.Allow
          Description := "Allow outbound internet to ARM"
          DestinationAddressPrefix := "AzureResourceManager"
          DestinationPortRange := "443"
          Direction := network.SecurityRuleDirection.Outbound
          Priority := 100
          Protocol := network.SecurityRuleProtocol.TCP
          SourceAddressPrefix := "*"
          SourcePortRange := "*" }
      securityRules ++ [vnetRule] ++ [blockOutBoundRule] ++ [allowARMRule]
    else securityRules
  { ARMResource := armResource
    SecurityGroup :=
      { Location := "[variables('location')]"
        Name := "[variables('nsgName')]"
        ResourceType := "Microsoft.Network/networkSecurityGroups"
        SecurityRules := securityRules } }

/-! ## Theorems -/

/-- The accumulating loop of `getUpgradedNotReady` is a filter followed by a map. -/
theorem foldl_append_filter_map {α β : Type} (p : α → Bool) (f : α → β) (xs : List α)
    (acc : List β) :
    xs.foldl (fun acc x => if p x then acc ++ [f x] else acc) acc
      = acc ++ (xs.filter p).map f := by
  induction xs generalizing acc with
  | nil => simp
  | cons x xs ih =>
      by_cases hp : p x = true
      · simp [List.foldl_cons, ih, hp, List.filter_cons]
      · simp [List.foldl_cons, ih, hp, List.filter_cons]

/-- The receive loop after a run of snapshots followed by a stop event returns the
size of the last snapshot, or the count it started from when there was none. -/
theorem checkControlPlaneNodesLoop_snapshots (snaps : List (List String))
    (byDeadline : Bool) (rest : List StreamEvent) (count : Nat) :
    checkControlPlaneNodesLoop
        (snaps.map StreamEvent.snapshot
          ++ (if byDeadline then StreamEvent.deadline else StreamEvent.closed) :: rest) count
      = some ((snaps.getLast?.map List.length).getD count) := by
  induction snaps generalizing count with
  | nil => cases byDeadline <;> simp [checkControlPlaneNodesLoop]
  | cons s snaps ih =>
      rw [List.map_cons, List.cons_append, checkControlPlaneNodesLoop, ih]
      cases snaps with
      | nil => simp
      | cons t ts =>
          have hl : (t :: ts).getLast? = some ((t :: ts).getLast (by simp)) :=
            List.getLast?_eq_getLast _ _
          rw [List.getLast?_cons_cons, hl]
          simp

/-- C1: for every sequence of snapshots delivered on the stream before the stream
closes or the context deadline expires (whatever would follow is never read),
`checkControlPlaneNodesStatus` returns, and it returns the error exactly when the
last snapshot received names two or more nodes; it returns nil when that snapshot
names at most one node and when no snapshot was received at all. -/
theorem c1_checkControlPlaneNodesStatus_last_snapshot (snaps : List (List String))
    (byDeadline : Bool) (rest : List StreamEvent) :
    checkControlPlaneNodesStatus
        (snaps.map StreamEvent.snapshot
          ++ (if byDeadline then StreamEvent.deadline else StreamEvent.closed) :: rest)
      = some (match snaps.getLast? with
              | none => none
              | some last => if 2 ≤ last.length then some errTooManyNotReady else none) := by
  unfold checkControlPlaneNodesStatus
  rw [checkControlPlaneNodesLoop_snapshots]
  cases h : snaps.getLast? with
  | none => simp
  | some last =>
      simp only [Option.map_some', Option.getD_some]
      by_cases h2 : 2 ≤ last.length
      · have : last.length > 1 := h2
        simp [h2, this]
      · have : ¬ last.length > 1 := h2
        simp [h2, this]

/-- C2: for every node list and every list of upgraded control-plane node names,
`getUpgradedNotReady` returns, with a nil error, exactly the names of the listed
nodes that are upgraded and NotReady, in node-list order; a name is reported only
for an upgraded NotReady listed node, so a node that is not upgraded is never
reported; when listing fails the result is nil together with the error; and the
node list [nok1, ok2, nok3, ok4, ok5] with upgraded [nok1, ok2, nok3] gives
[nok1, nok3]. -/
theorem c2_getUpgradedNotReady_exact (nodes : List Node) (upgraded : List String)
    (err : String) :
    getUpgradedNotReady (Except.ok nodes) upgraded
        = ((nodes.filter fun n => upgraded.contains n.name && !isNodeReady n).map Node.name,
            none)
      ∧ (∀ name, name ∈ (getUpgradedNotReady (Except.ok nodes) upgraded).1 ↔
            ∃ n ∈ nodes, n.name = name ∧ name ∈ upgraded ∧ isNodeReady n = false)
      ∧ (∀ n ∈ nodes, n.name ∉ upgraded →
            n.name ∉ (getUpgradedNotReady (Except.ok nodes) upgraded).1)
      ∧ getUpgradedNotReady (Except.error err) upgraded = ([], some err)
      ∧ getUpgradedNotReady
            (Except.ok [testNode "nok1" false, testNode "ok2" true, testNode "nok3" false,
              testNode "ok4" true, testNode "ok5" true])
            ["nok1", "ok2", "nok3"]
          = (["nok1", "nok3"], none) := by
  have hexact : getUpgradedNotReady (Except.ok nodes) upgraded
      = ((nodes.filter fun n => upgraded.contains n.name && !isNodeReady n).map Node.name,
          none) := by
    simp only [getUpgradedNotReady]
    rw [foldl_append_filter_map (fun n => upgraded.contains n.name && !isNodeReady n) Node.name]
    simp
  have hmem : ∀ name, name ∈ (getUpgradedNotReady (Except.ok nodes) upgraded).1 ↔
      ∃ n ∈ nodes, n.name = name ∧ name ∈ upgraded ∧ isNodeReady n = false := by
    intro name
    rw [hexact]
    simp only [List.mem_map, List.mem_filter, Bool.and_eq_true, List.contains_eq_any_beq,
      List.any_eq_true, beq_iff_eq, Bool.not_eq_true']
    constructor
    · rintro ⟨n, ⟨hn, ⟨x, hx, hnx⟩, hready⟩, rfl⟩
      exact ⟨n, hn, rfl, hnx ▸ hx, hready⟩
    · rintro ⟨n, hn, rfl, hup, hready⟩
      exact ⟨n, ⟨hn, ⟨n.name, hup, rfl⟩, hready⟩, rfl⟩
  refine ⟨hexact, hmem, ?_, rfl, ?_⟩
  · intro n _ hnot hin
    obtain ⟨m, _, hname, hup, _⟩ := (hmem n.name).1 hin
    exact hnot hup
  · decide

/-- C3: for every pod list returned by the API, `getPodsForDeletion` returns, with
a nil error, exactly the listed pods that have no controller owner reference of
kind `DaemonSet`, in list order: a pod is in the result exactly when it is listed
and not daemonset-owned; and the list of one unowned, one daemonset-owned and one
replicaset-owned pod yields 2 pods. -/
theorem c3_getPodsForDeletion_excludes_daemonsets (items : List Pod) :
    getPodsForDeletion (Except.ok items)
        = (items.filter fun pod => !isDaemonSetOwned pod, none)
      ∧ (∀ pod, pod ∈ (getPodsForDeletion (Except.ok items)).1 ↔
            pod ∈ items ∧ ¬ ∃ ref ∈ pod.ownerReferences,
              ref.controller = some true ∧ ref.kind = "DaemonSet")
      ∧ (getPodsForDeletion
            (Except.ok [{}, { ownerReferences := [{ kind := "DaemonSet", controller := some true }] },
              { ownerReferences := [{ kind := "ReplicaSet", controller := some true }] }])).1.length
          = 2 := by
  have hexact : getPodsForDeletion (Except.ok items)
      = (items.filter fun pod => !isDaemonSetOwned pod, none) := by
    simp only [getPodsForDeletion]
    have h := foldl_append_filter_map (fun pod => !isDaemonSetOwned pod) id items []
    simp only [List.nil_append, List.map_id_fun, id_eq, Bool.not_eq_true',
      Bool.not_eq_eq_eq_not, Bool.not_true] at h
    rw [← h]
    congr 1
    congr 1
    funext pods pod
    cases isDaemonSetOwned pod <;> simp
  refine ⟨hexact, ?_, by decide⟩
  intro pod
  rw [hexact]
  simp [isDaemonSetOwned]

/-- Looking up a key other than the filtered-out one ignores the filter. -/
theorem lookup_filter_ne (l : List (String × AgentPoolTopology)) (k q : String) (h : q ≠ k) :
    (l.filter fun e => !(e.1 == k)).lookup q = l.lookup q := by
  induction l with
  | nil => rfl
  | cons e l ih =>
      obtain ⟨key, v⟩ := e
      by_cases hk : key = k
      · subst hk
        have hq : (q == key) = false := by simpa using h
        simp [List.filter_cons, List.lookup_cons, hq, ih]
      · have hk2 : (key == k) = false := by simpa using hk
        simp only [List.filter_cons, hk2, Bool.not_false, if_true, List.lookup_cons, ih]

/-- Reading a pool back after storing one. -/
theorem agentPool_setAgentPool (t : ClusterTopology) (p : AgentPoolTopology) (q : String) :
    (t.setAgentPool p).agentPool q = if q = p.Name then p else t.agentPool q := by
  by_cases h : q = p.Name
  · subst h
    simp [ClusterTopology.agentPool, ClusterTopology.setAgentPool]
  · have hq : (q == p.Name) = false := by simpa using h
    simp [ClusterTopology.agentPool, ClusterTopology.setAgentPool, List.lookup_cons, hq,
      lookup_filter_ne _ _ _ h, h]

/-- Queuing a VM appends it to its own pending set and to no other. -/
theorem pendingSetOf_addVMToUpgradeSets (uc : UpgradeCluster) (t : ClusterTopology)
    (vm w : VirtualMachine) :
    (addVMToUpgradeSets uc t vm).pendingSetOf w
      = t.pendingSetOf w ++ (if vm.pool = w.pool ∧ uc.files vm = true then [vm] else []) := by
  cases hv : vm.pool with
  | none =>
      cases hw : w.pool with
      | none => simp [addVMToUpgradeSets, ClusterTopology.pendingSetOf, UpgradeCluster.files, hv, hw]
      | some q =>
          simp [addVMToUpgradeSets, ClusterTopology.pendingSetOf, UpgradeCluster.files, hv, hw,
            ClusterTopology.agentPool]
  | some p =>
      by_cases ht : uc.targets p = true
      · cases hw : w.pool with
        | none =>
            simp [addVMToUpgradeSets, ClusterTopology.pendingSetOf, UpgradeCluster.files, hv, hw,
              ht, addVMToAgentPool, ClusterTopology.setAgentPool]
        | some q =>
            by_cases hpq : q = p
            · subst hpq
              simp [addVMToUpgradeSets, ClusterTopology.pendingSetOf, UpgradeCluster.files, hv,
                hw, ht, addVMToAgentPool, agentPool_setAgentPool]
            · have hpq2 : ¬ p = q := fun h => hpq h.symm
              simp [addVMToUpgradeSets, ClusterTopology.pendingSetOf, UpgradeCluster.files, hv,
                hw, ht, addVMToAgentPool, agentPool_setAgentPool, hpq, hpq2]
      · have ht2 : uc.targets p = false := by simpa using ht
        simp [addVMToUpgradeSets, UpgradeCluster.files, hv, ht2]

/-- Queuing a VM leaves every upgraded set as it was. -/
theorem upgradedSetOf_addVMToUpgradeSets (uc : UpgradeCluster) (t : ClusterTopology)
    (vm w : VirtualMachine) :
    (addVMToUpgradeSets uc t vm).upgradedSetOf w = t.upgradedSetOf w := by
  cases hv : vm.pool with
  | none =>
      cases hw : w.pool with
      | none => simp [addVMToUpgradeSets, ClusterTopology.upgradedSetOf, hv, hw]
      | some q =>
          simp [addVMToUpgradeSets, ClusterTopology.upgradedSetOf, hv, hw,
            ClusterTopology.agentPool]
  | some p =>
      by_cases ht : uc.targets p = true
      · cases hw : w.pool with
        | none =>
            simp [addVMToUpgradeSets, ClusterTopology.upgradedSetOf, hv, hw,
              ht, addVMToAgentPool, ClusterTopology.setAgentPool]
        | some q =>
            by_cases hpq : q = p
            · subst hpq
              simp [addVMToUpgradeSets, ClusterTopology.upgradedSetOf, hv,
                hw, ht, addVMToAgentPool, agentPool_setAgentPool]
            · simp [addVMToUpgradeSets, ClusterTopology.upgradedSetOf, hv,
                hw, ht, addVMToAgentPool, agentPool_setAgentPool, hpq]
      · have ht2 : uc.targets p = false := by simpa using ht
        simp [addVMToUpgradeSets, hv, ht2]

/-- Recording a VM as upgraded appends it to its own upgraded set and to no other. -/
theorem upgradedSetOf_addVMToFinishedSets (uc : UpgradeCluster) (t : ClusterTopology)
    (vm w : VirtualMachine) :
    (addVMToFinishedSets uc t vm).upgradedSetOf w
      = t.upgradedSetOf w ++ (if vm.pool = w.pool ∧ uc.files vm = true then [vm] else []) := by
  cases hv : vm.pool with
  | none =>
      cases hw : w.pool with
      | none =>
          simp [addVMToFinishedSets, ClusterTopology.upgradedSetOf, UpgradeCluster.files, hv, hw]
      | some q =>
          simp [addVMToFinishedSets, ClusterTopology.upgradedSetOf, UpgradeCluster.files, hv, hw,
            ClusterTopology.agentPool]
  | some p =>
      by_cases ht : uc.targets p = true
      · cases hw : w.pool with
        | none =>
            simp [addVMToFinishedSets, ClusterTopology.upgradedSetOf, UpgradeCluster.files, hv,
              hw, ht, addVMToAgentPool, ClusterTopology.setAgentPool]
        | some q =>
            by_cases hpq : q = p
            · subst hpq
              simp [addVMToFinishedSets, ClusterTopology.upgradedSetOf, UpgradeCluster.files, hv,
                hw, ht, addVMToAgentPool, agentPool_setAgentPool]
            · have hpq2 : ¬ p = q := fun h => hpq h.symm
              simp [addVMToFinishedSets, ClusterTopology.upgradedSetOf, UpgradeCluster.files, hv,
                hw, ht, addVMToAgentPool, agentPool_setAgentPool, hpq, hpq2]
      · have ht2 : uc.targets p = false := by simpa using ht
        simp [addVMToFinishedSets, UpgradeCluster.files, hv, ht2]

/-- Recording a VM as upgraded leaves every pending set as it was. -/
theorem pendingSetOf_addVMToFinishedSets (uc : UpgradeCluster) (t : ClusterTopology)
    (vm w : VirtualMachine) :
    (addVMToFinishedSets uc t vm).pendingSetOf w = t.pendingSetOf w := by
  cases hv : vm.pool with
  | none =>
      cases hw : w.pool with
      | none => simp [addVMToFinishedSets, ClusterTopology.pendingSetOf, hv, hw]
      | some q =>
          simp [addVMToFinishedSets, ClusterTopology.pendingSetOf, hv, hw,
            ClusterTopology.agentPool]
  | some p =>
      by_cases ht : uc.targets p = true
      · cases hw : w.pool with
        | none =>
            simp [addVMToFinishedSets, ClusterTopology.pendingSetOf, hv, hw,
              ht, addVMToAgentPool, ClusterTopology.setAgentPool]
        | some q =>
            by_cases hpq : q = p
            · subst hpq
              simp [addVMToFinishedSets, ClusterTopology.pendingSetOf, hv,
                hw, ht, addVMToAgentPool, agentPool_setAgentPool]
            · simp [addVMToFinishedSets, ClusterTopology.pendingSetOf, hv,
                hw, ht, addVMToAgentPool, agentPool_setAgentPool, hpq]
      · have ht2 : uc.targets p = false := by simpa using ht
        simp [addVMToFinishedSets, hv, ht2]

/-- When discovery runs through the whole list, each pending set grows by the VMs of
that role it queues and each upgraded set by the VMs of that role it does not. -/
theorem classifyVMs_sets (uc : UpgradeCluster) (supportedVersions : List (String × Bool))
    (vms : List VirtualMachine) (t : ClusterTopology)
    (h : (classifyVMs uc supportedVersions vms t).2 = none) (w : VirtualMachine) :
    (classifyVMs uc supportedVersions vms t).1.pendingSetOf w
        = t.pendingSetOf w
          ++ vms.filter (fun vm => decide (vm.pool = w.pool) && uc.files vm && uc.queues vm)
      ∧ (classifyVMs uc supportedVersions vms t).1.upgradedSetOf w
        = t.upgradedSetOf w
          ++ vms.filter (fun vm => decide (vm.pool = w.pool) && uc.files vm && !uc.queues vm) := by
  induction vms generalizing t with
  | nil => simp [classifyVMs]
  | cons vm rest ih =>
      by_cases hf : uc.Force = true
      · have hq : uc.queues vm = true := by simp [UpgradeCluster.queues, hf]
        simp only [classifyVMs, hf, if_true] at h ⊢
        obtain ⟨h1, h2⟩ := ih _ h
        rw [h1, h2, pendingSetOf_addVMToUpgradeSets, upgradedSetOf_addVMToUpgradeSets]
        by_cases hc : vm.pool = w.pool ∧ uc.files vm = true
        · simp [List.filter_cons, hc.1, hc.2, hq]
        · have hc2 : (decide (vm.pool = w.pool) && uc.files vm) = false := by
            simpa using hc
          simp [List.filter_cons, hc, hc2]
      · by_cases htag : (vm.tag == "Kubernetes:" ++ uc.OrchestratorVersion) = true
        · have hq : uc.queues vm = false := by simp [UpgradeCluster.queues, hf, htag]
          simp only [classifyVMs, hf, htag, if_true, if_false, Bool.false_eq_true] at h ⊢
          obtain ⟨h1, h2⟩ := ih _ h
          rw [h1, h2, pendingSetOf_addVMToFinishedSets, upgradedSetOf_addVMToFinishedSets]
          by_cases hc : vm.pool = w.pool ∧ uc.files vm = true
          · simp [List.filter_cons, hc.1, hc.2, hq]
          · have hc2 : (decide (vm.pool = w.pool) && uc.files vm) = false := by
              simpa using hc
            simp [List.filter_cons, hc, hc2]
        · have hq : uc.queues vm = true := by simp [UpgradeCluster.queues, htag]
          simp only [classifyVMs, hf, htag, if_false, Bool.false_eq_true] at h ⊢
          cases hup : upgradable supportedVersions vm.orchestratorVersion uc.OrchestratorVersion with
          | some err => simp [hup] at h
          | none =>
              simp only [hup] at h ⊢
              obtain ⟨h1, h2⟩ := ih _ h
              rw [h1, h2, pendingSetOf_addVMToUpgradeSets, upgradedSetOf_addVMToUpgradeSets]
              by_cases hc : vm.pool = w.pool ∧ uc.files vm = true
              · simp [List.filter_cons, hc.1, hc.2, hq]
              · have hc2 : (decide (vm.pool = w.pool) && uc.files vm) = false := by
                  simpa using hc
                simp [List.filter_cons, hc, hc2]

/-- After a discovery that ran through, a filed VM is pending exactly when discovery
queues it and upgraded exactly when it does not. -/
theorem getClusterNodeStatus_mem (uc : UpgradeCluster) (supportedVersions : List (String × Bool))
    (vms : List VirtualMachine)
    (h : (getClusterNodeStatus uc supportedVersions (Except.ok vms)).2 = none)
    (vm : VirtualMachine) (hvm : vm ∈ vms) (hfiles : uc.files vm = true) :
    (vm ∈ (getClusterNodeStatus uc supportedVersions (Except.ok vms)).1.pendingSetOf vm
        ↔ uc.queues vm = true)
      ∧ (vm ∈ (getClusterNodeStatus uc supportedVersions (Except.ok vms)).1.upgradedSetOf vm
        ↔ uc.queues vm = false) := by
  have hs := classifyVMs_sets uc supportedVersions vms {} h vm
  have hp0 : ({} : ClusterTopology).pendingSetOf vm = [] := by
    cases hv : vm.pool <;> simp [ClusterTopology.pendingSetOf, hv, ClusterTopology.agentPool]
  have hu0 : ({} : ClusterTopology).upgradedSetOf vm = [] := by
    cases hv : vm.pool <;> simp [ClusterTopology.upgradedSetOf, hv, ClusterTopology.agentPool]
  simp only [getClusterNodeStatus]
  rw [hs.1, hs.2, hp0, hu0]
  simp [List.mem_filter, hvm, hfiles]

/-- C4: when discovery runs through the VM list without the upgrade-path error,
every discovered control-plane VM is in exactly one of `MasterVMs` and
`UpgradedMasterVMs`, every discovered VM of a targeted agent pool is in exactly one
of that pool's `AgentVMs` and `UpgradedAgentVMs`, and a VM whose tag is
`Kubernetes:<desired version>` is, with `Force=false`, in the upgraded set and not
in the pending set and, with `Force=true`, in the pending set and not in the
upgraded set. -/
theorem c4_topology_classification (uc : UpgradeCluster)
    (supportedVersions : List (String × Bool)) (vms : List VirtualMachine)
    (h : (getClusterNodeStatus uc supportedVersions (Except.ok vms)).2 = none) :
    (∀ vm ∈ vms, vm.pool = none →
        (vm ∈ (getClusterNodeStatus uc supportedVersions (Except.ok vms)).1.MasterVMs
          ∧ vm ∉ (getClusterNodeStatus uc supportedVersions (Except.ok vms)).1.UpgradedMasterVMs)
        ∨ (vm ∉ (getClusterNodeStatus uc supportedVersions (Except.ok vms)).1.MasterVMs
          ∧ vm ∈ (getClusterNodeStatus uc supportedVersions (Except.ok vms)).1.UpgradedMasterVMs))
      ∧ (∀ vm ∈ vms, ∀ poolName, vm.pool = some poolName → uc.targets poolName = true →
        (vm ∈ ((getClusterNodeStatus uc supportedVersions (Except.ok vms)).1.agentPool
                poolName).AgentVMs
          ∧ vm ∉ ((getClusterNodeStatus uc supportedVersions (Except.ok vms)).1.agentPool
                poolName).UpgradedAgentVMs)
        ∨ (vm ∉ ((getClusterNodeStatus uc supportedVersions (Except.ok vms)).1.agentPool
                poolName).AgentVMs
          ∧ vm ∈ ((getClusterNodeStatus uc supportedVersions (Except.ok vms)).1.agentPool
                poolName).UpgradedAgentVMs))
      ∧ (∀ vm ∈ vms, uc.files vm = true → vm.tag = "Kubernetes:" ++ uc.OrchestratorVersion →
        (uc.Force = false →
          vm ∈ (getClusterNodeStatus uc supportedVersions (Except.ok vms)).1.upgradedSetOf vm
          ∧ vm ∉ (getClusterNodeStatus uc supportedVersions (Except.ok vms)).1.pendingSetOf vm)
        ∧ (uc.Force = true →
          vm ∈ (getClusterNodeStatus uc supportedVersions (Except.ok vms)).1.pendingSetOf vm
          ∧ vm ∉ (getClusterNodeStatus uc supportedVersions (Except.ok vms)).1.upgradedSetOf vm)) := by
  have key := getClusterNodeStatus_mem uc supportedVersions vms h
  have hxor : ∀ vm ∈ vms, uc.files vm = true →
      (vm ∈ (getClusterNodeStatus uc supportedVersions (Except.ok vms)).1.pendingSetOf vm
        ∧ vm ∉ (getClusterNodeStatus uc supportedVersions (Except.ok vms)).1.upgradedSetOf vm)
      ∨ (vm ∉ (getClusterNodeStatus uc supportedVersions (Except.ok vms)).1.pendingSetOf vm
        ∧ vm ∈ (getClusterNodeStatus uc supportedVersions (Except.ok vms)).1.upgradedSetOf vm) := by
    intro vm hvm hfiles
    obtain ⟨hp, hu⟩ := key vm hvm hfiles
    cases hq : uc.queues vm with
    | true => exact Or.inl ⟨hp.2 hq, fun hmem => by simpa [hq] using hu.1 hmem⟩
    | false => exact Or.inr ⟨fun hmem => by simpa [hq] using hp.1 hmem, hu.2 hq⟩
  refine ⟨?_, ?_, ?_⟩
  · intro vm hvm hpool
    have := hxor vm hvm (by simp [UpgradeCluster.files, hpool])
    simpa [ClusterTopology.pendingSetOf, ClusterTopology.upgradedSetOf, hpool] using this
  · intro vm hvm poolName hpool htargets
    have := hxor vm hvm (by simp [UpgradeCluster.files, hpool, htargets])
    simpa [ClusterTopology.pendingSetOf, ClusterTopology.upgradedSetOf, hpool] using this
  · intro vm hvm hfiles htag
    obtain ⟨hp, hu⟩ := key vm hvm hfiles
    constructor
    · intro hforce
      have hq : uc.queues vm = false := by simp [UpgradeCluster.queues, hforce, htag]
      exact ⟨hu.2 hq, fun hmem => by simpa [hq] using hp.1 hmem⟩
    · intro hforce
      have hq : uc.queues vm = true := by simp [UpgradeCluster.queues, hforce]
      exact ⟨hp.2 hq, fun hmem => by simpa [hq] using hu.1 hmem⟩

/-- A discovery at which C4 applies: the tests' run without `Force` over a
control-plane VM and an agent VM already at 1.9.10 and a second agent VM at 1.9.7,
with 1.9.10 supported. -/
theorem c4_topology_classification_witness :
    (getClusterNodeStatus (testUpgradeCluster false) [("1.9.7", true), ("1.9.10", true)]
        (Except.ok [testMasterVM "1.9.10", testAgentVM "1.9.10", testAgentVM "1.9.7"])).2 = none
      ∧ (getClusterNodeStatus (testUpgradeCluster false) [("1.9.7", true), ("1.9.10", true)]
          (Except.ok [testMasterVM "1.9.10", testAgentVM "1.9.10", testAgentVM "1.9.7"])).1
        = { AgentPools := [("agentpool1",
              { Name := "agentpool1", AgentVMs := [testAgentVM "1.9.7"],
                UpgradedAgentVMs := [testAgentVM "1.9.10"] })],
            MasterVMs := [], UpgradedMasterVMs := [testMasterVM "1.9.10"] }
      ∧ (testMasterVM "1.9.10"
            ∉ (getClusterNodeStatus (testUpgradeCluster false) [("1.9.7", true), ("1.9.10", true)]
              (Except.ok [testMasterVM "1.9.10", testAgentVM "1.9.10", testAgentVM "1.9.7"])).1.MasterVMs
          ∧ testMasterVM "1.9.10"
            ∈ (getClusterNodeStatus (testUpgradeCluster false) [("1.9.7", true), ("1.9.10", true)]
              (Except.ok [testMasterVM "1.9.10", testAgentVM "1.9.10",
                testAgentVM "1.9.7"])).1.UpgradedMasterVMs) := by
  have h := c4_topology_classification (testUpgradeCluster false)
    [("1.9.7", true), ("1.9.10", true)]
    [testMasterVM "1.9.10", testAgentVM "1.9.10", testAgentVM "1.9.7"] (by decide)
  refine ⟨by decide, by decide, ?_⟩
  have hm := h.1 (testMasterVM "1.9.10") (by simp) rfl
  rcases hm with hm | hm
  · exact absurd hm.1 (by decide)
  · exact hm

/-- Looking a key up after the copy: the new node's entry wins, the old node's entry
is used when the new node has none. -/
theorem copyCustomEntries_lookup (oldEntries newEntries : List (String × String))
    (k : String) :
    (copyCustomEntries oldEntries newEntries).lookup k
      = (newEntries.lookup k).or (oldEntries.lookup k) := by
  induction oldEntries generalizing newEntries with
  | nil => simp [copyCustomEntries]
  | cons kv rest ih =>
      have hstep : copyCustomEntries (kv :: rest) newEntries
          = copyCustomEntries rest
              (if (newEntries.lookup kv.1).isSome then newEntries else newEntries ++ [kv]) := by
        simp [copyCustomEntries]
      rw [hstep, ih]
      obtain ⟨key, value⟩ := kv
      by_cases hk : k = key
      · subst hk
        cases hnew : newEntries.lookup k with
        | none => simp [hnew, List.lookup_append]
        | some v => simp [hnew]
      · have hne : (k == key) = false := by simpa using hk
        cases hnew : newEntries.lookup key with
        | none => simp [hnew, List.lookup_append, List.lookup_cons, hne]
        | some v => simp [hnew, List.lookup_cons, hne]

/-- The copy only appends: the new node's own entries stay in place. -/
theorem copyCustomEntries_keeps (oldEntries newEntries : List (String × String)) :
    newEntries <+: copyCustomEntries oldEntries newEntries := by
  induction oldEntries generalizing newEntries with
  | nil => simp [copyCustomEntries]
  | cons kv rest ih =>
      have hstep : copyCustomEntries (kv :: rest) newEntries
          = copyCustomEntries rest
              (if (newEntries.lookup kv.1).isSome then newEntries else newEntries ++ [kv]) := by
        simp [copyCustomEntries]
      rw [hstep]
      by_cases h : (newEntries.lookup kv.1).isSome = true
      · simpa [h] using ih newEntries
      · simp only [h, Bool.false_eq_true, if_false]
        exact (List.prefix_append newEntries [kv]).trans (ih _)

/-- C5: `copyCustomNodeProperties`, for the labels map and for the annotations map:
every key the new node already had keeps the new node's value, every key the new
node lacked ends up with whatever the old node had under it (its value when the
old node has the key, nothing otherwise, so no other key is added); old
{a:1, custom:2} and new {a:9} give {a:9, custom:2}, and the test's 3 old and 2 new
entries give exactly 3 entries. -/
theorem c5_copyCustomNodeProperties_keeps_new_adds_old (updateNode : Node → Option String)
    (oldNode newNode : Node) :
    (∀ k v, newNode.labels.lookup k = some v →
        (copyCustomNodeProperties updateNode oldNode newNode).1.labels.lookup k = some v)
      ∧ (∀ k, newNode.labels.lookup k = none →
          (copyCustomNodeProperties updateNode oldNode newNode).1.labels.lookup k
            = oldNode.labels.lookup k)
      ∧ (∀ k v, newNode.annotations.lookup k = some v →
          (copyCustomNodeProperties updateNode oldNode newNode).1.annotations.lookup k = some v)
      ∧ (∀ k, newNode.annotations.lookup k = none →
          (copyCustomNodeProperties updateNode oldNode newNode).1.annotations.lookup k
            = oldNode.annotations.lookup k)
      ∧ (copyCustomNodeProperties (fun _ => none)
            { name := "oldnode", labels := [("a", "1"), ("custom", "2")] }
            { name := "newnode", labels := [("a", "9")] }).1.labels
          = [("a", "9"), ("custom", "2")]
      ∧ (copyCustomNodeProperties (fun _ => none)
            { name := "oldnode"
              annotations := [("ann1", "val1"), ("ann2", "val2"), ("customAnn", "customVal")] }
            { name := "newnode"
              annotations := [("ann1", "newval1"), ("ann2", "newval2")] }).1.annotations
          = [("ann1", "newval1"), ("ann2", "newval2"), ("customAnn", "customVal")] := by
  refine ⟨?_, ?_, ?_, ?_, by decide, by decide⟩
  · intro k v h
    simp [copyCustomNodeProperties, copyCustomEntries_lookup, h]
  · intro k h
    simp [copyCustomNodeProperties, copyCustomEntries_lookup, h]
  · intro k v h
    simp [copyCustomNodeProperties, copyCustomEntries_lookup, h]
  · intro k h
    simp [copyCustomNodeProperties, copyCustomEntries_lookup, h]

/-- Taking the message at position `k` out of the messages in flight rearranges them. -/
theorem getD_cons_eraseIdx_perm {α : Type} (l : List α) (k : Nat) (d : α)
    (hk : k < l.length) : (l.getD k d :: l.eraseIdx k).Perm l := by
  induction l generalizing k with
  | nil => simp at hk
  | cons a l ih =>
      cases k with
      | zero => simp
      | succ j =>
          have hj : j < l.length := by simpa using hk
          have h := ih j hj
          simp only [List.getD_cons_succ, List.eraseIdx_cons_succ]
          exact (List.Perm.swap a (l.getD j d) (l.eraseIdx j)).trans (h.cons a)

/-- As many receives as there are messages in flight collect every message exactly
once, whatever the scheduler does. -/
theorem fanIn_perm {α : Type} (receives : Nat) (schedule : List Nat) (inFlight : List α)
    (h : inFlight.length = receives) : (fanIn receives schedule inFlight).Perm inFlight := by
  induction receives generalizing schedule inFlight with
  | zero =>
      have : inFlight = [] := List.length_eq_zero.mp h
      subst this
      simp [fanIn]
  | succ n ih =>
      cases inFlight with
      | nil => simp at h
      | cons m rest =>
          have hk : schedule.headD 0 % (m :: rest).length < (m :: rest).length :=
            Nat.mod_lt _ (by simp)
          have hlen : ((m :: rest).eraseIdx (schedule.headD 0 % (m :: rest).length)).length = n := by
            rw [List.length_eraseIdx, if_pos hk]
            simpa using h
          simp only [fanIn]
          exact ((ih schedule.tail _ hlen).cons _).trans (getD_cons_eraseIdx_perm _ _ m hk)

/-- A filter-map that drops nothing keeps the length. -/
theorem filterMap_length_of_all_some {α β : Type} (f : α → Option β) (l : List α)
    (h : ∀ x ∈ l, f x ≠ none) : (l.filterMap f).length = l.length := by
  induction l with
  | nil => simp
  | cons a l ih =>
      have ha : f a ≠ none := h a (by simp)
      obtain ⟨b, hb⟩ := Option.ne_none_iff_exists'.mp ha
      have hl : ∀ x ∈ l, f x ≠ none := fun x hx => h x (by simp [hx])
      simp [List.filterMap_cons, hb, ih hl]

/-- The accumulator loop of `ScaleDownVMs` keeps exactly the non-nil messages. -/
theorem foldl_pushBackFailure (msgs : List (Option VMScalingErrorDetails))
    (acc : List VMScalingErrorDetails) :
    msgs.foldl pushBackFailure acc = acc ++ msgs.filterMap id := by
  induction msgs generalizing acc with
  | nil => simp
  | cons m msgs ih =>
      cases m with
      | none => simp [ih, pushBackFailure]
      | some d => simp [ih, pushBackFailure]

/-- The accumulator of `ScaleDownVMs` as a list, nil being the empty one. -/
theorem ScaleDownVMs_getD (cleanDelete : Nat → String → Option String) (schedule : List Nat)
    (vmNames : List String) :
    (ScaleDownVMs cleanDelete schedule vmNames).getD []
      = (fanIn vmNames.length schedule
          (vmNames.enum.map fun iv => scaleDownGoroutine cleanDelete iv.1 iv.2)).filterMap id := by
  simp only [ScaleDownVMs, foldl_pushBackFailure, List.nil_append]
  split
  · rfl
  · rename_i h
    simp only [gt_iff_lt, List.length_pos, ne_eq, not_not] at h
    simp [h]

/-- C6: for every list of VM names, every outcome of each deletion and every order
in which the goroutines report, `ScaleDownVMs` receives exactly one message per VM
(the messages are a rearrangement of one message per position), the error list it
returns holds exactly one entry, name and error, for each failing VM and none for a
succeeding one, it returns nil exactly when every deletion succeeded, and when all
deletions fail the list is as long as the list of names (4 for the test's 4 VMs). -/
theorem c6_ScaleDownVMs_one_entry_per_failure (cleanDelete : Nat → String → Option String)
    (schedule : List Nat) (vmNames : List String) :
    (fanIn vmNames.length schedule
        (vmNames.enum.map fun iv => scaleDownGoroutine cleanDelete iv.1 iv.2)).Perm
        (vmNames.enum.map fun iv => scaleDownGoroutine cleanDelete iv.1 iv.2)
      ∧ ((ScaleDownVMs cleanDelete schedule vmNames).getD []).Perm
          (vmNames.enum.filterMap fun iv =>
            (cleanDelete iv.1 iv.2).map fun err => { Name := iv.2, Error := err })
      ∧ (ScaleDownVMs cleanDelete schedule vmNames = none ↔
          ∀ iv ∈ vmNames.enum, cleanDelete iv.1 iv.2 = none)
      ∧ ((∀ iv ∈ vmNames.enum, cleanDelete iv.1 iv.2 ≠ none) →
          ((ScaleDownVMs cleanDelete schedule vmNames).getD []).length = vmNames.length)
      ∧ (ScaleDownVMs (fun _ _ => some "GetVirtualMachine failed") [2, 0, 1, 0]
            ["vm1", "vm2", "vm3", "vm5"]).map List.length = some 4 := by
  have hrecv := fanIn_perm vmNames.length schedule
    (vmNames.enum.map fun iv => scaleDownGoroutine cleanDelete iv.1 iv.2) (by simp)
  have hgo : (vmNames.enum.map fun iv => scaleDownGoroutine cleanDelete iv.1 iv.2).filterMap id
      = vmNames.enum.filterMap fun iv =>
          (cleanDelete iv.1 iv.2).map fun err => { Name := iv.2, Error := err } := by
    rw [List.filterMap_map]
    congr 1
    funext iv
    simp only [Function.comp, id, scaleDownGoroutine]
    cases cleanDelete iv.1 iv.2 <;> rfl
  have hperm : ((ScaleDownVMs cleanDelete schedule vmNames).getD []).Perm
      (vmNames.enum.filterMap fun iv =>
        (cleanDelete iv.1 iv.2).map fun err => { Name := iv.2, Error := err }) := by
    rw [ScaleDownVMs_getD, ← hgo]
    exact hrecv.filterMap id
  have hnone : ScaleDownVMs cleanDelete schedule vmNames = none ↔
      (ScaleDownVMs cleanDelete schedule vmNames).getD [] = [] := by
    constructor
    · intro h
      simp [h]
    · intro h
      simp only [ScaleDownVMs] at h ⊢
      split
      · rename_i hpos
        rw [if_pos hpos] at h
        simp only [Option.getD_some] at h
        simp [h] at hpos
      · rfl
  refine ⟨hrecv, hperm, ?_, ?_, by decide⟩
  · rw [hnone]
    constructor
    · intro h iv hiv
      rw [h] at hperm
      have hnil := List.nil_perm.mp hperm
      have hall := List.filterMap_eq_nil_iff.mp hnil iv hiv
      simpa using hall
    · intro h
      have hnil : (vmNames.enum.filterMap fun iv =>
          (cleanDelete iv.1 iv.2).map fun err => ({ Name := iv.2, Error := err } : VMScalingErrorDetails))
          = [] := by
        apply List.filterMap_eq_nil_iff.mpr
        intro iv hiv
        simp [h iv hiv]
      rw [hnil] at hperm
      exact List.perm_nil.mp hperm
  · intro hall
    rw [hperm.length_eq, filterMap_length_of_all_some _ _ (fun iv hiv => by simpa using hall iv hiv)]
    simp

/-- Under `Force` discovery never fails. -/
theorem classifyVMs_force (uc : UpgradeCluster) (supportedVersions : List (String × Bool))
    (vms : List VirtualMachine) (t : ClusterTopology) (hforce : uc.Force = true) :
    (classifyVMs uc supportedVersions vms t).2 = none := by
  induction vms generalizing t with
  | nil => rfl
  | cons vm rest ih => simpa [classifyVMs, hforce] using ih _

/-- Without `Force`, when the desired version is not marked supported, discovery
stops at the first VM whose tag is not the desired one, with the upgrade-path error
for that VM, and has queued nothing. -/
theorem classifyVMs_unsupported (uc : UpgradeCluster) (supportedVersions : List (String × Bool))
    (vms : List VirtualMachine) (t : ClusterTopology) (vm : VirtualMachine)
    (hforce : uc.Force = false)
    (hunsupported : supportedVersions.lookup uc.OrchestratorVersion = some false)
    (hfirst : vms.find? (fun v => !(v.tag == "Kubernetes:" ++ uc.OrchestratorVersion)) = some vm) :
    (classifyVMs uc supportedVersions vms t).2
        = some (vm.orchestratorVersion ++ " cannot be upgraded to " ++ uc.OrchestratorVersion)
      ∧ ∀ w, (classifyVMs uc supportedVersions vms t).1.pendingSetOf w = t.pendingSetOf w := by
  induction vms generalizing t with
  | nil => simp at hfirst
  | cons v rest ih =>
      by_cases htag : (v.tag == "Kubernetes:" ++ uc.OrchestratorVersion) = true
      · have hrest : rest.find? (fun v => !(v.tag == "Kubernetes:" ++ uc.OrchestratorVersion))
            = some vm := by
          simpa [List.find?_cons, htag] using hfirst
        obtain ⟨h1, h2⟩ := ih (addVMToFinishedSets uc t v) hrest
        simp only [classifyVMs, hforce, htag, if_true, Bool.false_eq_true, if_false]
        refine ⟨h1, fun w => ?_⟩
        rw [h2 w, pendingSetOf_addVMToFinishedSets]
      · have hv : v = vm := by
          simpa [List.find?_cons, htag] using hfirst
        subst hv
        simp [classifyVMs, hforce, htag, upgradable, hunsupported]

/-- C7: when the supported-versions table marks the desired version V2 unsupported
and the first discovered VM whose tag is not `Kubernetes:V2` runs version V1, then
with `Force=false` the upgrade fails with the error `V1 cannot be upgraded to V2`
(behind the prefix put on discovery errors), the workflow is not started and no VM
is in any pending set; with `Force=true` discovery returns no error, that VM is in
its pending set and not in its upgraded set (when it is a control-plane VM or a VM
of a targeted pool), and the run returns whatever the workflow returns, so no error
when the workflow raises none. -/
theorem c7_unsupported_upgrade_path (uc : UpgradeCluster)
    (supportedVersions : List (String × Bool)) (retries : Nat) (vms : List VirtualMachine)
    (kubeClient : Option MockKubernetesClient) (runUpgrade : ClusterTopology → Option String)
    (vm : VirtualMachine)
    (hunsupported : supportedVersions.lookup uc.OrchestratorVersion = some false)
    (hfirst : vms.find? (fun v => !(v.tag == "Kubernetes:" ++ uc.OrchestratorVersion)) = some vm) :
    (uc.Force = false →
        (uc.UpgradeCluster supportedVersions retries (Except.ok vms) kubeClient runUpgrade).err
            = some ("Error while querying ARM for resources: "
                ++ (vm.orchestratorVersion ++ " cannot be upgraded to " ++ uc.OrchestratorVersion))
          ∧ (uc.UpgradeCluster supportedVersions retries (Except.ok vms) kubeClient
              runUpgrade).upgradeRan = false
          ∧ ∀ w, (uc.UpgradeCluster supportedVersions retries (Except.ok vms) kubeClient
              runUpgrade).topology.pendingSetOf w = [])
      ∧ (uc.Force = true →
          (getClusterNodeStatus uc supportedVersions (Except.ok vms)).2 = none
          ∧ (uc.files vm = true →
              vm ∈ (uc.UpgradeCluster supportedVersions retries (Except.ok vms) kubeClient
                  runUpgrade).topology.pendingSetOf vm
              ∧ vm ∉ (uc.UpgradeCluster supportedVersions retries (Except.ok vms) kubeClient
                  runUpgrade).topology.upgradedSetOf vm)
          ∧ (uc.UpgradeCluster supportedVersions retries (Except.ok vms) kubeClient runUpgrade).err
              = runUpgrade (getClusterNodeStatus uc supportedVersions (Except.ok vms)).1) := by
  constructor
  · intro hforce
    obtain ⟨herr, hpending⟩ :=
      classifyVMs_unsupported uc supportedVersions vms {} vm hforce hunsupported hfirst
    have hp0 : ∀ w, ({} : ClusterTopology).pendingSetOf w = [] := by
      intro w
      cases hv : w.pool <;> simp [ClusterTopology.pendingSetOf, hv, ClusterTopology.agentPool]
    rcases hd : classifyVMs uc supportedVersions vms {} with ⟨topology, e⟩
    rw [hd] at herr hpending
    simp only at herr
    subst herr
    simp only [UpgradeCluster.UpgradeCluster, getClusterNodeStatus, hd]
    refine ⟨by trivial, by trivial, fun w => ?_⟩
    simpa [hp0 w] using hpending w
  · intro hforce
    have hok : (getClusterNodeStatus uc supportedVersions (Except.ok vms)).2 = none :=
      classifyVMs_force uc supportedVersions vms {} hforce
    have hmem : vm ∈ vms := List.mem_of_find?_eq_some hfirst
    have hq : uc.queues vm = true := by simp [UpgradeCluster.queues, hforce]
    have hrun : (uc.UpgradeCluster supportedVersions retries (Except.ok vms) kubeClient
          runUpgrade).topology = (getClusterNodeStatus uc supportedVersions (Except.ok vms)).1
        ∧ (uc.UpgradeCluster supportedVersions retries (Except.ok vms) kubeClient runUpgrade).err
          = runUpgrade (getClusterNodeStatus uc supportedVersions (Except.ok vms)).1 := by
      rcases hd : getClusterNodeStatus uc supportedVersions (Except.ok vms) with ⟨topology, e⟩
      rw [hd] at hok
      simp only at hok
      subst hok
      simp only [UpgradeCluster.UpgradeCluster, hd, hforce]
      split
      · split
        · simp
        · split <;> simp
      · simp
    refine ⟨hok, fun hfiles => ?_, hrun.2⟩
    obtain ⟨hp, hu⟩ := getClusterNodeStatus_mem uc supportedVersions vms hok vm hmem hfiles
    rw [hrun.1]
    exact ⟨hp.2 hq, fun hin => by simpa [hq] using hu.1 hin⟩

/-- The two tests of C7: version table 1.9.7 supported and 1.9.10 unsupported, one
agent VM at 1.9.7, desired version 1.9.10. Without `Force` the run fails naming
both versions; with `Force` it returns no error and the VM is queued. -/
theorem c7_unsupported_upgrade_path_witness :
    ((testUpgradeCluster false).UpgradeCluster [("1.9.7", true), ("1.9.10", false)] 10
          (Except.ok [testAgentVM "1.9.7"]) none (fun _ => none)).err
        = some "Error while querying ARM for resources: 1.9.7 cannot be upgraded to 1.9.10"
      ∧ ((testUpgradeCluster true).UpgradeCluster [("1.9.7", true), ("1.9.10", false)] 10
          (Except.ok [testAgentVM "1.9.7"]) none (fun _ => none)).err = none
      ∧ (((testUpgradeCluster true).UpgradeCluster [("1.9.7", true), ("1.9.10", false)] 10
          (Except.ok [testAgentVM "1.9.7"]) none (fun _ => none)).topology.agentPool
            "agentpool1").AgentVMs.length = 1 := by
  have hf := (c7_unsupported_upgrade_path (testUpgradeCluster false)
    [("1.9.7", true), ("1.9.10", false)] 10 [testAgentVM "1.9.7"] none (fun _ => none)
    (testAgentVM "1.9.7") (by decide) (by decide)).1 rfl
  have ht := (c7_unsupported_upgrade_path (testUpgradeCluster true)
    [("1.9.7", true), ("1.9.10", false)] 10 [testAgentVM "1.9.7"] none (fun _ => none)
    (testAgentVM "1.9.7") (by decide) (by decide)).2 rfl
  refine ⟨?_, ht.2.2, by decide⟩
  rw [hf.1]
  decide

/-- A text contains itself. -/
theorem containsSubstr_self (s : List Char) : containsSubstr s s = true := by
  have hp : s.isPrefixOf s = true := List.isPrefixOf_iff_prefix.mpr (List.prefix_refl s)
  cases s with
  | nil => simp [containsSubstr]
  | cons c cs => simp [containsSubstr, List.tails, hp]

/-- The cordon loop gets through a run of conflicts shorter than the attempts left. -/
theorem cordonNode_failFirst (cfg : DrainSettings) (client : MockKubernetesClient) (k : Nat)
    (hget : client.FailGetNode = false)
    (hupd : client.UpdateNodeFunc = some (failFirst k cfg.kubernetesOptimisticLockErrorMsg))
    (attempts calls : Nat) (lastErr : Option String) (hcalls : calls ≤ k)
    (h : k < calls + attempts) :
    cordonNode cfg client attempts calls lastErr = none := by
  induction attempts generalizing calls lastErr with
  | zero =>
      exfalso
      omega
  | succ n ih =>
      have hconf : cfg.isConflict cfg.kubernetesOptimisticLockErrorMsg = true :=
        containsSubstr_self _
      by_cases hc : calls < k
      · simp only [cordonNode, MockKubernetesClient.GetNode, hget, MockKubernetesClient.UpdateNode,
          hupd, failFirst, hc, if_true, hconf, Bool.false_eq_true, if_false]
        exact ih (calls + 1) _ (by omega) (by omega)
      · simp [cordonNode, MockKubernetesClient.GetNode, hget, MockKubernetesClient.UpdateNode,
          hupd, failFirst, hc]

/-- With no failing pod call, every pod is removed. -/
theorem deleteOrEvictPods_ok (client : MockKubernetesClient) (supportsEviction : Bool)
    (pods : List Pod) (hevict : client.FailEvictPod = false)
    (hdelete : client.FailDeletePod = false) (hwait : client.FailWaitForDelete = false) :
    deleteOrEvictPods client supportsEviction pods = none := by
  induction pods with
  | nil => rfl
  | cons pod rest ih =>
      cases supportsEviction <;>
        simp [deleteOrEvictPods, MockKubernetesClient.EvictPod, MockKubernetesClient.DeletePod,
          MockKubernetesClient.WaitForDelete, hevict, hdelete, hwait, ih]

/-- C8: when every other step of the drain succeeds and the node update fails with
the optimistic-lock conflict exactly `k` times, `k` below the bound on cordon
attempts, and then succeeds, `SafelyDrainNode` returns no error; when the client can
be built, the node fetched, at least one attempt is allowed and the first node
update fails with an error that is not a conflict, `SafelyDrainNode` returns that
error, whatever later updates would have answered. -/
theorem c8_SafelyDrainNode_cordon_retry (cfg : DrainSettings) (az : MockAKSEngineClient)
    (k : Nat) (err : String) :
    (k < cfg.cordonMaxRetries → az.FailGetKubernetesClient = false →
        az.MockKubernetesClient.otherDrainStepsSucceed = true →
        az.MockKubernetesClient.UpdateNodeFunc
          = some (failFirst k cfg.kubernetesOptimisticLockErrorMsg) →
        SafelyDrainNode cfg az = none)
      ∧ (0 < cfg.cordonMaxRetries → az.FailGetKubernetesClient = false →
          az.MockKubernetesClient.FailGetNode = false →
          az.MockKubernetesClient.UpdateNode 0 = some err → cfg.isConflict err = false →
          SafelyDrainNode cfg az = some err) := by
  constructor
  · intro hk hclient hsteps hupd
    simp only [MockKubernetesClient.otherDrainStepsSucceed, Bool.and_eq_true,
      Bool.not_eq_true'] at hsteps
    obtain ⟨⟨⟨⟨⟨hget, hlist⟩, hsup⟩, hevict⟩, hdelete⟩, hwait⟩ := hsteps
    have hcordon := cordonNode_failFirst cfg az.MockKubernetesClient k hget hupd
      cfg.cordonMaxRetries 0 none (by omega) (by omega)
    simp only [SafelyDrainNode, hclient, Bool.false_eq_true, if_false, hcordon,
      MockKubernetesClient.ListPods, hlist, getPodsForDeletion,
      MockKubernetesClient.SupportEviction, hsup]
    exact deleteOrEvictPods_ok _ _ _ hevict hdelete hwait
  · intro hpos hclient hget hupd hconf
    obtain ⟨n, hn⟩ : ∃ n, cfg.cordonMaxRetries = n + 1 := ⟨cfg.cordonMaxRetries - 1, by omega⟩
    simp [SafelyDrainNode, hclient, hn, cordonNode, MockKubernetesClient.GetNode, hget, hupd,
      hconf]

/-- The two drain tests of C8: three conflicts, then success, within five attempts
and with one pod to evict, give no error; a node update that fails with another
error gives that error. -/
theorem c8_SafelyDrainNode_cordon_retry_witness :
    SafelyDrainNode testDrainSettings
        { MockKubernetesClient :=
            { UpdateNodeFunc :=
                some (failFirst 3 testDrainSettings.kubernetesOptimisticLockErrorMsg)
              PodsList := [{}], ShouldSupportEviction := true } }
        = none
      ∧ SafelyDrainNode testDrainSettings { MockKubernetesClient := { FailUpdateNode := true } }
        = some "UpdateNode failed" :=
  ⟨(c8_SafelyDrainNode_cordon_retry testDrainSettings
      { MockKubernetesClient :=
          { UpdateNodeFunc :=
              some (failFirst 3 testDrainSettings.kubernetesOptimisticLockErrorMsg)
            PodsList := [{}], ShouldSupportEviction := true } }
      3 "").1 (by decide) rfl rfl rfl,
    (c8_SafelyDrainNode_cordon_retry testDrainSettings
      { MockKubernetesClient := { FailUpdateNode := true } } 0 "UpdateNode failed").2
      (by decide) rfl rfl rfl (by decide)⟩

/-- The retry loop of `SetClusterAutoscalerReplicaCount` with fewer scripted failures
than attempts ends with the replica count the deployment had, no error, and the
desired count stored. -/
theorem setReplicaCountLoop_succeeds (replicaCount : Int) (attempts : Nat)
    (client : MockKubernetesClient) (count : Int) (err : Option String)
    (h : client.FailGetDeploymentCount + client.FailUpdateDeploymentCount < attempts) :
    (setReplicaCountLoop replicaCount attempts client count err).2 = (client.Replicas, none)
      ∧ (setReplicaCountLoop replicaCount attempts client count err).1.Replicas
          = replicaCount := by
  induction attempts generalizing client count err with
  | zero => omega
  | succ n ih =>
      by_cases hg : client.FailGetDeploymentCount > 0
      · have hstep : setReplicaCountLoop replicaCount (n + 1) client count err
            = setReplicaCountLoop replicaCount n
                { client with FailGetDeploymentCount := client.FailGetDeploymentCount - 1 }
                count (some "GetDeployment failed") := by
          simp [setReplicaCountLoop, MockKubernetesClient.GetDeployment, hg]
        rw [hstep]
        exact ih _ _ _ (by simp only; omega)
      · have hg0 : client.FailGetDeploymentCount = 0 := by omega
        by_cases hu : client.FailUpdateDeploymentCount > 0
        · have hstep : setReplicaCountLoop replicaCount (n + 1) client count err
              = setReplicaCountLoop replicaCount n
                  { client with FailUpdateDeploymentCount := client.FailUpdateDeploymentCount - 1 }
                  client.Replicas (some "UpdateDeployment failed") := by
            simp [setReplicaCountLoop, MockKubernetesClient.GetDeployment,
              MockKubernetesClient.UpdateDeployment, hg0, hu]
          rw [hstep]
          exact ih _ _ _ (by simp only; omega)
        · have hu0 : client.FailUpdateDeploymentCount = 0 := by omega
          simp [setReplicaCountLoop, MockKubernetesClient.GetDeployment,
            MockKubernetesClient.UpdateDeployment, hg0, hu0]

/-- C9: `SetClusterAutoscalerReplicaCount` on a client whose scripted get and update
failures number fewer than the retry bound (so the update eventually succeeds)
returns the replica count the deployment had before the update, not the desired
one, and no error, and leaves the desired count stored; with 1 get failure and 3
update failures it returns 1 when setting 10; with a nil client it returns count 0
and the error `no kubernetes client`. -/
theorem c9_SetClusterAutoscalerReplicaCount_previous_count (retries : Nat)
    (client : MockKubernetesClient) (replicaCount : Int) :
    (client.FailGetDeploymentCount + client.FailUpdateDeploymentCount < retries →
        (SetClusterAutoscalerReplicaCount retries (some client) replicaCount).2
            = (client.Replicas, none)
          ∧ (SetClusterAutoscalerReplicaCount retries (some client) replicaCount).1.map
              (fun c => c.Replicas) = some replicaCount)
      ∧ (SetClusterAutoscalerReplicaCount retries none replicaCount).2
          = (0, some "no kubernetes client")
      ∧ (retries ≥ 5 →
          (SetClusterAutoscalerReplicaCount retries
            (some { FailGetDeploymentCount := 1, FailUpdateDeploymentCount := 3 }) 10).2
            = (1, none)) := by
  have main : ∀ (c : MockKubernetesClient),
      c.FailGetDeploymentCount + c.FailUpdateDeploymentCount < retries →
        (SetClusterAutoscalerReplicaCount retries (some c) replicaCount).2 = (c.Replicas, none)
          ∧ (SetClusterAutoscalerReplicaCount retries (some c) replicaCount).1.map
              (fun c => c.Replicas) = some replicaCount := by
    intro c h
    obtain ⟨h2, h1⟩ := setReplicaCountLoop_succeeds replicaCount retries c 0 none h
    simp only [SetClusterAutoscalerReplicaCount]
    rcases hl : setReplicaCountLoop replicaCount retries c 0 none with ⟨c2, cnt, e⟩
    rw [hl] at h1 h2
    simp only [Prod.mk.injEq] at h2
    obtain ⟨hc, he⟩ := h2
    subst he hc
    simp only at h1
    simp [h1]
  refine ⟨main client, rfl, ?_⟩
  intro h5
  obtain ⟨h2, _⟩ := setReplicaCountLoop_succeeds 10 retries
    { FailGetDeploymentCount := 1, FailUpdateDeploymentCount := 3 } 0 none (by simp only; omega)
  simp only [SetClusterAutoscalerReplicaCount]
  rcases hl : setReplicaCountLoop 10 retries
    { FailGetDeploymentCount := 1, FailUpdateDeploymentCount := 3 } 0 none with ⟨c2, cnt, e⟩
  rw [hl] at h2
  simp only [Prod.mk.injEq] at h2
  obtain ⟨hc, he⟩ := h2
  subst he hc
  rfl

/-- The test of C9: with the bound at 10 attempts, 1 failing get and 3 failing
updates, setting 10 replicas returns the previous count 1 and no error. -/
theorem c9_SetClusterAutoscalerReplicaCount_witness :
    1 + 3 < 10
      ∧ (SetClusterAutoscalerReplicaCount 10
          (some { FailGetDeploymentCount := 1, FailUpdateDeploymentCount := 3 }) 10).2
        = (1, none) :=
  ⟨by decide,
    ((c9_SetClusterAutoscalerReplicaCount_previous_count 10
      { FailGetDeploymentCount := 1, FailUpdateDeploymentCount := 3 } 10).1 (by decide)).1⟩

/-- C10: when discovery succeeds, the run is not control-plane-only, the
cluster-autoscaler addon is enabled and pausing it fails with an error, then with
`Force` unset `UpgradeCluster` returns that pause error and does not start the
upgrade workflow, and with `Force` set it starts the workflow and returns the
workflow result, so no error when the workflow raises none. -/
theorem c10_autoscaler_pause_failure_gated_by_force (uc : UpgradeCluster)
    (supportedVersions : List (String × Bool)) (retries : Nat)
    (listVMs : Except String (List VirtualMachine)) (kubeClient : Option MockKubernetesClient)
    (runUpgrade : ClusterTopology → Option String) (pauseErr : String)
    (hdiscovery : (getClusterNodeStatus uc supportedVersions listVMs).2 = none)
    (hall : uc.ControlPlaneOnly = false) (haddon : uc.ClusterAutoscalerEnabled = true)
    (hpause : (SetClusterAutoscalerReplicaCount retries kubeClient 0).2.2 = some pauseErr) :
    (uc.Force = false →
        (uc.UpgradeCluster supportedVersions retries listVMs kubeClient runUpgrade).err
            = some pauseErr
          ∧ (uc.UpgradeCluster supportedVersions retries listVMs kubeClient runUpgrade).upgradeRan
            = false)
      ∧ (uc.Force = true →
          (uc.UpgradeCluster supportedVersions retries listVMs kubeClient runUpgrade).upgradeRan
            = true
          ∧ (uc.UpgradeCluster supportedVersions retries listVMs kubeClient runUpgrade).err
            = runUpgrade (getClusterNodeStatus uc supportedVersions listVMs).1
          ∧ (runUpgrade (getClusterNodeStatus uc supportedVersions listVMs).1 = none →
              (uc.UpgradeCluster supportedVersions retries listVMs kubeClient runUpgrade).err
                = none)) := by
  rcases hd : getClusterNodeStatus uc supportedVersions listVMs with ⟨topology, e⟩
  rw [hd] at hdiscovery
  simp only at hdiscovery
  subst hdiscovery
  rcases hp : SetClusterAutoscalerReplicaCount retries kubeClient 0 with ⟨kc, count, perr⟩
  rw [hp] at hpause
  simp only at hpause
  subst hpause
  constructor
  · intro hforce
    simp [UpgradeCluster.UpgradeCluster, hd, hall, haddon, hp, hforce]
  · intro hforce
    simp [UpgradeCluster.UpgradeCluster, hd, hall, haddon, hp, hforce]

/-- The test of C10: the addon enabled and ten failing `GetDeployment` calls against
ten attempts. Without `Force` the run returns `GetDeployment failed`; with `Force`
it returns no error. -/
theorem c10_autoscaler_pause_failure_witness :
    ({ OrchestratorVersion := "1.9.10", ClusterAutoscalerEnabled := true
        : UpgradeCluster }.UpgradeCluster [] 10 (Except.ok [])
          (some { FailGetDeploymentCount := 10 }) (fun _ => none)).err
        = some "GetDeployment failed"
      ∧ ({ OrchestratorVersion := "1.9.10", ClusterAutoscalerEnabled := true, Force := true
        : UpgradeCluster }.UpgradeCluster [] 10 (Except.ok [])
          (some { FailUpdateDeploymentCount := 10 }) (fun _ => none)).err
        = none :=
  ⟨((c10_autoscaler_pause_failure_gated_by_force
      { OrchestratorVersion := "1.9.10", ClusterAutoscalerEnabled := true } [] 10 (Except.ok [])
      (some { FailGetDeploymentCount := 10 }) (fun _ => none) "GetDeployment failed"
      rfl rfl rfl (by decide)).1 rfl).1,
    ((c10_autoscaler_pause_failure_gated_by_force
      { OrchestratorVersion := "1.9.10", ClusterAutoscalerEnabled := true, Force := true } []
      10 (Except.ok []) (some { FailUpdateDeploymentCount := 10 }) (fun _ => none)
      "UpdateDeployment failed" rfl rfl rfl (by decide)).2 rfl).2.2 rfl⟩

/-- When every node update fails, the cordon loop ends with an error, provided it
makes at least one attempt. -/
theorem cordonNode_update_fails (cfg : DrainSettings) (client : MockKubernetesClient)
    (hupd : ∀ calls, (client.UpdateNode calls).isSome = true)
    (attempts calls : Nat) (lastErr : Option String)
    (h : attempts = 0 → lastErr.isSome = true) :
    (cordonNode cfg client attempts calls lastErr).isSome = true := by
  induction attempts generalizing calls lastErr with
  | zero => simpa [cordonNode] using h rfl
  | succ n ih =>
      simp only [cordonNode]
      cases hg : client.GetNode with
      | some err => rfl
      | none =>
          obtain ⟨err, herr⟩ := Option.isSome_iff_exists.mp (hupd calls)
          simp only [herr]
          by_cases hc : cfg.isConflict err = true
          · simp only [hc, if_true]
            exact ih _ _ (fun _ => rfl)
          · simp [hc]

/-- A failing node fetch fails the cordon loop, provided it makes an attempt. -/
theorem cordonNode_get_fails (cfg : DrainSettings) (client : MockKubernetesClient)
    (hget : client.FailGetNode = true) (attempts calls : Nat) (lastErr : Option String) :
    (cordonNode cfg client (attempts + 1) calls lastErr).isSome = true := by
  simp [cordonNode, MockKubernetesClient.GetNode, hget]

/-- With a pod to remove and a failing removal call on the path taken, or a failing
wait, the per-pod part of the drain fails. -/
theorem deleteOrEvictPods_fails (client : MockKubernetesClient) (supportsEviction : Bool)
    (pods : List Pod) (hpods : pods ≠ [])
    (hfail : (supportsEviction = true ∧ client.FailEvictPod = true)
      ∨ (supportsEviction = false ∧ client.FailDeletePod = true)
      ∨ client.FailWaitForDelete = true) :
    (deleteOrEvictPods client supportsEviction pods).isSome = true := by
  cases pods with
  | nil => exact absurd rfl hpods
  | cons pod rest =>
      rcases hfail with ⟨hs, hf⟩ | ⟨hs, hf⟩ | hf
      · simp [deleteOrEvictPods, hs, MockKubernetesClient.EvictPod, hf]
      · simp [deleteOrEvictPods, hs, MockKubernetesClient.DeletePod, hf]
      · simp only [deleteOrEvictPods, MockKubernetesClient.WaitForDelete, hf, if_true]
        cases (if supportsEviction = true then client.EvictPod pod else client.DeletePod pod) <;>
          rfl

/-- The pods the drain resolves when listing succeeds are the listed pods that no
daemonset owns. -/
theorem getPodsForDeletion_ok (items : List Pod) :
    getPodsForDeletion (Except.ok items) = (items.filter fun pod => !isDaemonSetOwned pod, none) := by
  simp only [getPodsForDeletion]
  have h := foldl_append_filter_map (fun pod => !isDaemonSetOwned pod) id items []
  simp only [List.nil_append, List.map_id_fun, id_eq] at h
  rw [← h]
  congr 1
  congr 1
  funext pods pod
  cases isDaemonSetOwned pod <;> simp

/-- After a successful cordon the drain fails as soon as listing pods or the
eviction-support check fails, or a pod is to be removed and its removal or the wait
fails. -/
theorem drainAfterCordon_fails (cfg : DrainSettings) (az : MockAKSEngineClient)
    (hfail : az.MockKubernetesClient.FailListPods = true
      ∨ az.MockKubernetesClient.FailSupportEviction = true
      ∨ ((∃ pod ∈ az.MockKubernetesClient.PodsList, isDaemonSetOwned pod = false)
          ∧ ((az.MockKubernetesClient.ShouldSupportEviction = true
                ∧ az.MockKubernetesClient.FailEvictPod = true)
              ∨ (az.MockKubernetesClient.ShouldSupportEviction = false
                ∧ az.MockKubernetesClient.FailDeletePod = true)
              ∨ az.MockKubernetesClient.FailWaitForDelete = true))) :
    (SafelyDrainNode cfg az).isSome = true := by
  simp only [SafelyDrainNode]
  split
  · rfl
  · cases hc : cordonNode cfg az.MockKubernetesClient cfg.cordonMaxRetries 0 none with
    | some err => rfl
    | none =>
        simp only
        by_cases hl : az.MockKubernetesClient.FailListPods = true
        · simp [MockKubernetesClient.ListPods, hl, getPodsForDeletion]
        · have hl2 : az.MockKubernetesClient.FailListPods = false := by simpa using hl
          simp only [MockKubernetesClient.ListPods, hl2, Bool.false_eq_true, if_false,
            getPodsForDeletion_ok]
          by_cases hs : az.MockKubernetesClient.FailSupportEviction = true
          · simp [MockKubernetesClient.SupportEviction, hs]
          · have hs2 : az.MockKubernetesClient.FailSupportEviction = false := by simpa using hs
            simp only [MockKubernetesClient.SupportEviction, hs2, Bool.false_eq_true, if_false]
            rcases hfail with h | h | ⟨⟨pod, hpod, hds⟩, h⟩
            · exact absurd h hl
            · exact absurd h hs
            · apply deleteOrEvictPods_fails _ _ _ _ h
              intro hnil
              have : pod ∈ az.MockKubernetesClient.PodsList.filter
                  fun pod => !isDaemonSetOwned pod := by
                simp [List.mem_filter, hpod, hds]
              rw [hnil] at this
              simp at this

/-- C11: with at least one cordon attempt allowed, `SafelyDrainNode` returns an
error whenever a step fails: building the Kubernetes client, fetching the node,
updating the node (every attempt failing), listing the pods, the eviction-support
check, and, when there is a pod to remove, evicting it when eviction is supported,
deleting it when it is not, or waiting for it to disappear; and it returns nil when
every step succeeds, whether or not eviction is supported. -/
theorem c11_SafelyDrainNode_fails_iff_a_step_fails (cfg : DrainSettings)
    (az : MockAKSEngineClient) (hpos : 0 < cfg.cordonMaxRetries) :
    (az.FailGetKubernetesClient = true → (SafelyDrainNode cfg az).isSome = true)
      ∧ (az.MockKubernetesClient.FailGetNode = true → (SafelyDrainNode cfg az).isSome = true)
      ∧ ((∀ calls, (az.MockKubernetesClient.UpdateNode calls).isSome = true) →
          (SafelyDrainNode cfg az).isSome = true)
      ∧ (az.MockKubernetesClient.FailListPods = true → (SafelyDrainNode cfg az).isSome = true)
      ∧ (az.MockKubernetesClient.FailSupportEviction = true →
          (SafelyDrainNode cfg az).isSome = true)
      ∧ ((∃ pod ∈ az.MockKubernetesClient.PodsList, isDaemonSetOwned pod = false) →
          az.MockKubernetesClient.ShouldSupportEviction = true →
          az.MockKubernetesClient.FailEvictPod = true → (SafelyDrainNode cfg az).isSome = true)
      ∧ ((∃ pod ∈ az.MockKubernetesClient.PodsList, isDaemonSetOwned pod = false) →
          az.MockKubernetesClient.ShouldSupportEviction = false →
          az.MockKubernetesClient.FailDeletePod = true → (SafelyDrainNode cfg az).isSome = true)
      ∧ ((∃ pod ∈ az.MockKubernetesClient.PodsList, isDaemonSetOwned pod = false) →
          az.MockKubernetesClient.FailWaitForDelete = true →
          (SafelyDrainNode cfg az).isSome = true)
      ∧ (az.FailGetKubernetesClient = false →
          az.MockKubernetesClient.otherDrainStepsSucceed = true →
          az.MockKubernetesClient.UpdateNode 0 = none → SafelyDrainNode cfg az = none) := by
  obtain ⟨n, hn⟩ : ∃ n, cfg.cordonMaxRetries = n + 1 := ⟨cfg.cordonMaxRetries - 1, by omega⟩
  refine ⟨?_, ?_, ?_, ?_, ?_, ?_, ?_, ?_, ?_⟩
  · intro h
    simp [SafelyDrainNode, h]
  · intro h
    have hc := cordonNode_get_fails cfg az.MockKubernetesClient h n 0 none
    obtain ⟨err, herr⟩ := Option.isSome_iff_exists.mp hc
    simp only [SafelyDrainNode, hn, herr]
    split <;> rfl
  · intro h
    have hc := cordonNode_update_fails cfg az.MockKubernetesClient h (n + 1) 0 none (by simp)
    obtain ⟨err, herr⟩ := Option.isSome_iff_exists.mp hc
    simp only [SafelyDrainNode, hn, herr]
    split <;> rfl
  · intro h
    exact drainAfterCordon_fails cfg az (Or.inl h)
  · intro h
    exact drainAfterCordon_fails cfg az (Or.inr (Or.inl h))
  · intro hpod hs hf
    exact drainAfterCordon_fails cfg az (Or.inr (Or.inr ⟨hpod, Or.inl ⟨hs, hf⟩⟩))
  · intro hpod hs hf
    exact drainAfterCordon_fails cfg az (Or.inr (Or.inr ⟨hpod, Or.inr (Or.inl ⟨hs, hf⟩)⟩))
  · intro hpod hf
    exact drainAfterCordon_fails cfg az (Or.inr (Or.inr ⟨hpod, Or.inr (Or.inr hf)⟩))
  · intro hclient hsteps hupd
    simp only [MockKubernetesClient.otherDrainStepsSucceed, Bool.and_eq_true,
      Bool.not_eq_true'] at hsteps
    obtain ⟨⟨⟨⟨⟨hget, hlist⟩, hsup⟩, hevict⟩, hdelete⟩, hwait⟩ := hsteps
    simp only [SafelyDrainNode, hclient, Bool.false_eq_true, if_false, hn, cordonNode,
      MockKubernetesClient.GetNode, hget, hupd, MockKubernetesClient.ListPods, hlist,
      getPodsForDeletion_ok, MockKubernetesClient.SupportEviction, hsup]
    exact deleteOrEvictPods_ok _ _ _ hevict hdelete hwait

/-- The drain tests of C11 with the settings of the examples: each failing step
gives an error, and both the eviction path and the deletion path succeed when
nothing fails. -/
theorem c11_SafelyDrainNode_witness :
    0 < testDrainSettings.cordonMaxRetries
      ∧ (SafelyDrainNode testDrainSettings { FailGetKubernetesClient := true }).isSome = true
      ∧ (SafelyDrainNode testDrainSettings
          { MockKubernetesClient :=
              { PodsList := [{}], ShouldSupportEviction := true,
                FailWaitForDelete := true } }).isSome = true
      ∧ SafelyDrainNode testDrainSettings
          { MockKubernetesClient := { PodsList := [{}], ShouldSupportEviction := true } } = none
      ∧ SafelyDrainNode testDrainSettings
          { MockKubernetesClient := { PodsList := [{}], ShouldSupportEviction := false } }
        = none :=
  ⟨by decide,
    (c11_SafelyDrainNode_fails_iff_a_step_fails testDrainSettings
      { FailGetKubernetesClient := true } (by decide)).1 rfl,
    (c11_SafelyDrainNode_fails_iff_a_step_fails testDrainSettings
      { MockKubernetesClient :=
          { PodsList := [{}], ShouldSupportEviction := true, FailWaitForDelete := true } }
      (by decide)).2.2.2.2.2.2.2.1 ⟨{}, by simp, by decide⟩ rfl,
    (c11_SafelyDrainNode_fails_iff_a_step_fails testDrainSettings
      { MockKubernetesClient := { PodsList := [{}], ShouldSupportEviction := true } }
      (by decide)).2.2.2.2.2.2.2.2 rfl rfl rfl,
    (c11_SafelyDrainNode_fails_iff_a_step_fails testDrainSettings
      { MockKubernetesClient := { PodsList := [{}], ShouldSupportEviction := false } }
      (by decide)).2.2.2.2.2.2.2.2 rfl rfl rfl⟩

/-- Splitting always yields at least one piece. -/
theorem splitOn_ne_nil (sep : Char) (s : List Char) : splitOn sep s ≠ [] := by
  cases s with
  | nil => simp [splitOn]
  | cons c cs =>
      simp only [splitOn]
      split <;> simp

/-- A text without the separator is a single piece. -/
theorem splitOn_of_not_mem (sep : Char) (a : List Char) (h : sep ∉ a) :
    splitOn sep a = [a] := by
  induction a with
  | nil => rfl
  | cons c cs ih =>
      have hc : c ≠ sep := fun hcs => h (by simp [hcs])
      have hcs : sep ∉ cs := fun hm => h (by simp [hm])
      simp [splitOn, hc, ih hcs]

/-- The first piece ends at the first separator. -/
theorem splitOn_append (sep : Char) (a b : List Char) (h : sep ∉ a) :
    splitOn sep (a ++ sep :: b) = a :: splitOn sep b := by
  induction a with
  | nil => simp [splitOn]
  | cons c cs ih =>
      have hc : c ≠ sep := fun hcs => h (by simp [hcs])
      have hcs : sep ∉ cs := fun hm => h (by simp [hm])
      simp [splitOn, hc, ih hcs]

/-- Joining the pieces of a split with the separator gives the text back. -/
theorem joinWith_splitOn (sep : Char) (s : List Char) : joinWith sep (splitOn sep s) = s := by
  induction s with
  | nil => rfl
  | cons c cs ih =>
      by_cases hc : c = sep
      · subst hc
        obtain ⟨p, ps, hp⟩ := List.exists_cons_of_ne_nil (splitOn_ne_nil c cs)
        simp only [splitOn, if_true, hp, joinWith]
        rw [hp] at ih
        simp [ih]
      · obtain ⟨p, ps, hp⟩ := List.exists_cons_of_ne_nil (splitOn_ne_nil sep cs)
        rw [hp] at ih
        simp only [splitOn, hc, if_false, hp, List.headD_cons, List.tail_cons]
        cases ps with
        | nil =>
            simp only [joinWith] at ih ⊢
            rw [ih]
        | cons q qs =>
            simp only [joinWith] at ih ⊢
            rw [← ih]
            simp

/-- The last piece of a split is what follows the last separator: the text is some
`pre` followed by that piece, the piece has no separator, and `pre` is empty or ends
with the separator. -/
theorem splitOn_getLast (sep : Char) (s : List Char) :
    ∃ pre, s = pre ++ (splitOn sep s).getLast?.getD []
      ∧ sep ∉ (splitOn sep s).getLast?.getD []
      ∧ (pre = [] ∨ pre.getLast? = some sep) := by
  induction s with
  | nil => exact ⟨[], by simp [splitOn]⟩
  | cons c cs ih =>
      obtain ⟨pre, hcs, hsep, hpre⟩ := ih
      obtain ⟨p, ps, hp⟩ := List.exists_cons_of_ne_nil (splitOn_ne_nil sep cs)
      by_cases hc : c = sep
      · subst hc
        refine ⟨c :: pre, ?_, ?_, ?_⟩
        · simp only [splitOn, if_true, hp, List.getLast?_cons_cons, List.cons_append]
          rw [hp] at hcs
          rw [← hcs]
        · simpa [splitOn, hp, List.getLast?_cons_cons] using (hp ▸ hsep)
        · right
          rcases hpre with hnil | hlast
          · simp [hnil]
          · cases pre with
            | nil => simp at hlast
            | cons x xs => simpa [List.getLast?_cons_cons] using hlast
      · by_cases hmem : sep ∈ cs
        · have hps : ps ≠ [] := by
            intro hnil
            have hp1 : (splitOn sep cs).getLast?.getD [] = p := by simp [hp, hnil]
            rw [hp1] at hcs hsep
            rcases hpre with hpre | hpre
            · rw [hpre] at hcs
              simp only [List.nil_append] at hcs
              exact hsep (hcs ▸ hmem)
            · have hj := joinWith_splitOn sep cs
              rw [hp, hnil] at hj
              simp only [joinWith] at hj
              exact hsep (hj ▸ hmem)
          obtain ⟨q, qs, hq⟩ := List.exists_cons_of_ne_nil hps
          have hlast : (splitOn sep (c :: cs)).getLast?.getD []
              = (splitOn sep cs).getLast?.getD [] := by
            simp [splitOn, hc, hp, hq, List.getLast?_cons_cons]
          have hpre2 : pre ≠ [] := by
            intro hnil
            rw [hnil] at hcs
            simp only [List.nil_append] at hcs
            exact hsep (hcs ▸ hmem)
          refine ⟨c :: pre, ?_, ?_, ?_⟩
          · rw [hlast, List.cons_append, ← hcs]
          · rw [hlast]
            exact hsep
          · right
            rcases hpre with hnil | hl
            · exact absurd hnil hpre2
            · cases pre with
              | nil => exact absurd rfl hpre2
              | cons x xs => simpa [List.getLast?_cons_cons] using hl
        · refine ⟨[], ?_, ?_, Or.inl rfl⟩
          · have hfull : sep ∉ c :: cs := by
              simp only [List.mem_cons, not_or]
              exact ⟨fun h => hc h.symm, hmem⟩
            simp [splitOn_of_not_mem sep (c :: cs) hfull]
          · have hfull : sep ∉ c :: cs := by
              simp only [List.mem_cons, not_or]
              exact ⟨fun h => hc h.symm, hmem⟩
            simpa [splitOn_of_not_mem sep (c :: cs) hfull] using hfull

/-- C12: for every identifier, `ResourceName` returns the empty name and the error
`resource name was missing from identifier` when the identifier is empty or ends
with `/`; otherwise it returns, with no error, a non-empty name without `/` that is
the end of the identifier, what comes before it being empty (no `/` at all, the
name is the whole identifier) or ending with `/` (the name is what follows the
last `/`). -/
theorem c12_ResourceName_last_segment (id : String) :
    ((id.data = [] ∨ id.data.getLast? = some '/') →
        ResourceName id = ("", some "resource name was missing from identifier"))
      ∧ (¬ (id.data = [] ∨ id.data.getLast? = some '/') →
          ∃ pre name, id.data = pre ++ name ∧ (pre = [] ∨ pre.getLast? = some '/')
            ∧ name ≠ [] ∧ '/' ∉ name ∧ ResourceName id = (String.mk name, none)) := by
  obtain ⟨pre, hid, hsep, hpre⟩ := splitOn_getLast '/' id.data
  have hname : (stringsSplit id '/').getLast?.getD ""
      = String.mk ((splitOn '/' id.data).getLast?.getD []) := by
    simp only [stringsSplit, List.getLast?_map]
    cases (splitOn '/' id.data).getLast? <;> rfl
  have hres : ResourceName id
      = if (splitOn '/' id.data).getLast?.getD [] = [] then
          ("", some "resource name was missing from identifier")
        else (String.mk ((splitOn '/' id.data).getLast?.getD []), none) := by
    simp only [ResourceName, hname, String.length, List.length_eq_zero]
  constructor
  · intro h
    have hlast : (splitOn '/' id.data).getLast?.getD [] = [] := by
      by_contra hne
      rcases h with h | h
      · apply hne
        rw [h]
        rfl
      · rw [hid, List.getLast?_append_of_ne_nil _ hne] at h
        have hmem := List.mem_of_getLast?_eq_some h
        exact hsep hmem
    rw [hres, if_pos hlast]
  · intro h
    have hlast : (splitOn '/' id.data).getLast?.getD [] ≠ [] := by
      intro hnil
      rw [hnil, List.append_nil] at hid
      apply h
      rcases hpre with hpre | hpre
      · left
        rw [hid, hpre]
      · right
        rw [hid]
        exact hpre
    exact ⟨pre, _, hid, hpre, hlast, hsep, by rw [hres, if_neg hlast]⟩

/-- A run of class characters in front adds its length to the run. -/
theorem runLength_append_of_all (cls : Char → Bool) (w rest : List Char)
    (h : ∀ c ∈ w, cls c = true) : runLength cls (w ++ rest) = w.length + runLength cls rest := by
  induction w with
  | nil => simp
  | cons c cs ih =>
      have hc : cls c = true := h c (by simp)
      have hcs : ∀ x ∈ cs, cls x = true := fun x hx => h x (by simp [hx])
      simp [runLength, hc, ih hcs]
      omega

/-- The run is never longer than the text. -/
theorem runLength_le_length (cls : Char → Bool) (s : List Char) :
    runLength cls s ≤ s.length := by
  induction s with
  | nil => simp [runLength]
  | cons c cs ih =>
      simp only [runLength]
      split
      · simp only [List.length_cons]
        omega
      · simp

/-- The characters of the run are in the class. -/
theorem runLength_take_all (cls : Char → Bool) (s : List Char) (n : Nat)
    (h : n ≤ runLength cls s) : ∀ c ∈ s.take n, cls c = true := by
  induction s generalizing n with
  | nil => simp
  | cons x xs ih =>
      cases n with
      | zero => simp
      | succ m =>
          by_cases hx : cls x = true
          · simp only [runLength, hx, if_true] at h
            intro c hc
            simp only [List.take_succ_cons, List.mem_cons] at hc
            rcases hc with rfl | hc
            · exact hx
            · exact ih m (by omega) c hc
          · simp [runLength, hx] at h

/-- The counts are tried from the largest down: the largest count after which the
rest of the pattern matches is the one taken. -/
theorem tryCounts_of_first (k : List Char → Option (List (List Char))) (capture : Bool)
    (s : List Char) (lo d n : Nat) (caps : List (List Char)) (hlo : lo ≤ n) (hn : n ≤ lo + d)
    (hnone : ∀ m, n < m → m ≤ lo + d → k (s.drop m) = none)
    (hsome : k (s.drop n) = some caps) :
    tryCounts k capture s lo d = some (if capture then s.take n :: caps else caps) := by
  induction d with
  | zero =>
      have : n = lo := by omega
      subst this
      simp [tryCounts, hsome]
  | succ e ih =>
      by_cases hne : n = lo + (e + 1)
      · subst hne
        simp [tryCounts, hsome]
      · have hk : k (s.drop (lo + (e + 1))) = none := hnone _ (by omega) (by omega)
        simp only [tryCounts, hk]
        exact ih (by omega) (fun m h1 h2 => hnone m h1 (by omega))

/-- When the rest of the pattern matches after no count, the element fails. -/
theorem tryCounts_none (k : List Char → Option (List (List Char))) (capture : Bool)
    (s : List Char) (lo d : Nat)
    (hnone : ∀ m, lo ≤ m → m ≤ lo + d → k (s.drop m) = none) :
    tryCounts k capture s lo d = none := by
  induction d with
  | zero => simp [tryCounts, hnone lo (by omega) (by omega)]
  | succ e ih =>
      have hk : k (s.drop (lo + (e + 1))) = none := hnone _ (by omega) (by omega)
      simp only [tryCounts, hk]
      exact ih (fun m h1 h2 => hnone m h1 (by omega))

/-- A greedy element takes the largest admissible count after which the rest of the
pattern matches. -/
theorem matchItems_cons_of_first (item : RegexItem) (items : List RegexItem) (s : List Char)
    (n : Nat) (caps : List (List Char)) (hlo : item.min ≤ n) (hrun : n ≤ runLength item.cls s)
    (hmax : ∀ mx, item.max = some mx → n ≤ mx)
    (hnone : ∀ m, n < m → m ≤ runLength item.cls s → (∀ mx, item.max = some mx → m ≤ mx) →
      matchItems items (s.drop m) = none)
    (hsome : matchItems items (s.drop n) = some caps) :
    matchItems (item :: items) s = some (if item.capture then s.take n :: caps else caps) := by
  have hhi : n ≤ Nat.min (runLength item.cls s) (item.max.getD (runLength item.cls s)) := by
    cases hm : item.max with
    | none => simpa [Nat.min_def] using hrun
    | some mx =>
        have := hmax mx hm
        simp only [Option.getD_some, Nat.min_def]
        split <;> omega
  simp only [matchItems]
  rw [if_neg (by omega)]
  apply tryCounts_of_first _ _ _ _ _ n caps hlo (by omega) _ hsome
  intro m h1 h2
  have h3 : m ≤ Nat.min (runLength item.cls s) (item.max.getD (runLength item.cls s)) := by
    omega
  apply hnone m h1
  · exact Nat.le_trans h3 (Nat.min_le_left _ _)
  · intro mx hm
    have := Nat.le_trans h3 (Nat.min_le_right _ _)
    simpa [hm] using this

/-- An element fails when the rest of the pattern matches after none of its
admissible counts. -/
theorem matchItems_cons_none (item : RegexItem) (items : List RegexItem) (s : List Char)
    (hnone : ∀ m, item.min ≤ m → m ≤ runLength item.cls s →
      (∀ mx, item.max = some mx → m ≤ mx) → matchItems items (s.drop m) = none) :
    matchItems (item :: items) s = none := by
  simp only [matchItems]
  split
  · rfl
  · rename_i hlt
    apply tryCounts_none
    intro m h1 h2
    have h3 : m ≤ Nat.min (runLength item.cls s) (item.max.getD (runLength item.cls s)) := by
      omega
    apply hnone m h1
    · exact Nat.le_trans h3 (Nat.min_le_left _ _)
    · intro mx hm
      have := Nat.le_trans h3 (Nat.min_le_right _ _)
      simpa [hm] using this

/-- An element repeated exactly `n` times takes the next `n` characters when they
are in its class. -/
theorem matchItems_fixed (cls : Char → Bool) (n : Nat) (capture : Bool)
    (items : List RegexItem) (w rest : List Char) (hlen : w.length = n)
    (hall : ∀ c ∈ w, cls c = true) :
    matchItems ({ cls := cls, min := n, max := some n, capture := capture } :: items) (w ++ rest)
      = (matchItems items rest).map fun caps => if capture then w :: caps else caps := by
  have hdrop : (w ++ rest).drop n = rest := by
    rw [← hlen]
    exact List.drop_left' rfl
  have htake : (w ++ rest).take n = w := by
    rw [← hlen]
    exact List.take_left' rfl
  have hrun : n ≤ runLength cls (w ++ rest) := by
    rw [runLength_append_of_all cls w rest hall]
    omega
  cases hk : matchItems items rest with
  | some caps =>
      have h := matchItems_cons_of_first { cls := cls, min := n, max := some n, capture := capture }
        items (w ++ rest) n caps (Nat.le_refl _) hrun
        (fun mx hm => by simp only [Option.some.injEq] at hm; omega)
        (fun m h1 _ h3 => by
          have := h3 n rfl
          omega)
        (by rw [hdrop]; exact hk)
      rw [h, htake]
      rfl
  | none =>
      have h := matchItems_cons_none { cls := cls, min := n, max := some n, capture := capture }
        items (w ++ rest)
        (fun m h1 _ h3 => by
          have h4 := h3 n rfl
          have : m = n := Nat.le_antisymm h4 h1
          subst this
          rw [hdrop]
          exact hk)
      rw [h]
      rfl

/-- An element fails when the run of its class is shorter than its minimum. -/
theorem matchItems_short_run (item : RegexItem) (items : List RegexItem) (s : List Char)
    (h : runLength item.cls s < item.min) : matchItems (item :: items) s = none := by
  apply matchItems_cons_none
  intro m h1 h2 _
  omega

/-- A literal character matches itself and nothing more. -/
theorem matchItems_lit_cons (c : Char) (items : List RegexItem) (rest : List Char) :
    matchItems (RegexItem.lit c :: items) (c :: rest) = matchItems items rest := by
  have h := matchItems_fixed (fun x => x == c) 1 false items [c] rest rfl (by simp)
  simp only [List.singleton_append, Bool.false_eq_true, if_false] at h
  rw [show RegexItem.lit c = { cls := fun x => x == c, min := 1, max := some 1, capture := false }
    from rfl, h]
  cases matchItems items rest <;> rfl

/-- A literal character does not match another character. -/
theorem matchItems_lit_ne (c x : Char) (items : List RegexItem) (rest : List Char)
    (h : x ≠ c) : matchItems (RegexItem.lit c :: items) (x :: rest) = none := by
  apply matchItems_short_run
  simp [RegexItem.lit, runLength, h]

/-- A literal character does not match the empty text. -/
theorem matchItems_lit_nil (c : Char) (items : List RegexItem) :
    matchItems (RegexItem.lit c :: items) [] = none := by
  apply matchItems_short_run
  simp [RegexItem.lit, runLength]

/-- A match needs at least as many characters as the minimum counts add up to. -/
theorem matchItems_length (items : List RegexItem) (s : List Char) (caps : List (List Char))
    (h : matchItems items s = some caps) : (items.map RegexItem.min).sum ≤ s.length := by
  induction items generalizing s caps with
  | nil => simp
  | cons item items ih =>
      by_contra hlt
      have hnone : matchItems (item :: items) s = none := by
        apply matchItems_cons_none
        intro m h1 h2 _
        cases hk : matchItems items (s.drop m) with
        | none => rfl
        | some caps2 =>
            have := ih _ _ hk
            simp only [List.length_drop, List.map_cons, List.sum_cons] at this hlt
            have := runLength_le_length item.cls s
            omega
      rw [hnone] at h
      exact absurd h (by simp)

/-- The character printed for a digit is a decimal digit with that value. -/
theorem digitChar_spec (n : Nat) (h : n < 10) :
    isDigit (Char.ofNat (n + 48)) = true ∧ (Char.ofNat (n + 48)).toNat - 48 = n := by
  interval_cases n <;> exact ⟨by decide, by decide⟩

/-- The code of the character `0`. -/
theorem zero_toNat : '0'.toNat = 48 := rfl

/-- Reading digits distributes over concatenation. -/
theorem parseDigits_append (xs ys : List Char) (acc : Nat) :
    parseDigits (xs ++ ys) acc = (parseDigits xs acc).bind (parseDigits ys) := by
  induction xs generalizing acc with
  | nil => rfl
  | cons c cs ih =>
      simp only [List.cons_append, parseDigits]
      split
      · exact ih _
      · rfl

/-- Printing a number gives decimal digits, at least one, that read back as the
number. -/
theorem decimalDigits_spec (fuel n : Nat) (h : n < fuel) :
    (∀ c ∈ decimalDigits fuel n, isDigit c = true) ∧ decimalDigits fuel n ≠ []
      ∧ ∀ acc, parseDigits (decimalDigits fuel n) acc
          = some (acc * 10 ^ (decimalDigits fuel n).length + n) := by
  induction fuel generalizing n with
  | zero => omega
  | succ f ih =>
      by_cases hn : n < 10
      · obtain ⟨hd, hv⟩ := digitChar_spec n hn
        simp only [decimalDigits, hn, if_true, zero_toNat]
        refine ⟨by simpa using hd, by simp, fun acc => ?_⟩
        simp [parseDigits, hd, hv]
      · have hdiv : n / 10 < f := by omega
        obtain ⟨hall, hne, hparse⟩ := ih (n / 10) hdiv
        obtain ⟨hd, hv⟩ := digitChar_spec (n % 10) (Nat.mod_lt _ (by decide))
        simp only [decimalDigits, hn, if_false, zero_toNat]
        refine ⟨?_, by simp, fun acc => ?_⟩
        · intro c hc
          simp only [List.mem_append, List.mem_singleton] at hc
          rcases hc with hc | rfl
          · exact hall c hc
          · exact hd
        · rw [parseDigits_append, hparse]
          simp only [Option.bind_some, parseDigits, hd, if_true, hv, zero_toNat,
            List.length_append, List.length_singleton, Option.some.injEq]
          have e : acc * 10 ^ ((decimalDigits f (n / 10)).length + 1)
              = acc * 10 ^ (decimalDigits f (n / 10)).length * 10 := by ring
          rw [e]
          generalize acc * 10 ^ (decimalDigits f (n / 10)).length = X
          simp only [Option.some_bind, Option.some.injEq]
          omega

/-- A number below `10 ^ k` prints with at most `k` digits. -/
theorem decimalDigits_length (fuel n k : Nat) (hk : 0 < k) (h : n < 10 ^ k) :
    (decimalDigits fuel n).length ≤ k := by
  induction fuel generalizing n k with
  | zero => simp [decimalDigits]
  | succ f ih =>
      by_cases hn : n < 10
      · simp only [decimalDigits, hn, if_true, List.length_singleton]
        omega
      · simp only [decimalDigits, hn, if_false, List.length_append, List.length_singleton]
        obtain ⟨j, rfl⟩ : ∃ j, k = j + 1 := ⟨k - 1, by omega⟩
        have hj : 0 < j := by
          by_contra h0
          have : j = 0 := by omega
          subst this
          simp at h
          omega
        have hdiv : n / 10 < 10 ^ j := by
          rw [Nat.pow_succ] at h
          exact Nat.div_lt_of_lt_mul (by rw [Nat.mul_comm]; exact h)
        have := ih (n / 10) j hj hdiv
        omega

/-- A decimal digit is neither a sign nor a hyphen. -/
theorem isDigit_ne_sign (c : Char) (h : isDigit c = true) : c ≠ '-' ∧ c ≠ '+' := by
  constructor
  · rintro rfl
    exact absurd h (by decide)
  · rintro rfl
    exact absurd h (by decide)

/-- `Atoi` on a non-empty run of digits whose value fits an `int`. -/
theorem Atoi_digits (ds : List Char) (v : Nat) (hne : ds ≠ [])
    (hall : ∀ c ∈ ds, isDigit c = true) (hv : parseDigits ds 0 = some v) (hr : v < 2 ^ 63) :
    Atoi (String.mk ds) = Except.ok (v : Int) := by
  cases ds with
  | nil => exact absurd rfl hne
  | cons c cs =>
      obtain ⟨h1, h2⟩ := isDigit_ne_sign c (hall c (by simp))
      have hr2 : v < 9223372036854775808 := by simpa using hr
      simp [Atoi, h1, h2, hv, hr2]

/-- `Atoi` reads back what `Itoa` prints, within the `int` range. -/
theorem Atoi_Itoa (n : Nat) (h : n < 2 ^ 63) : Atoi (Itoa n) = Except.ok (n : Int) := by
  obtain ⟨hall, hne, hparse⟩ := decimalDigits_spec (n + 1) n (by omega)
  exact Atoi_digits _ n hne hall (by simpa using hparse 0) h

/-- A last, unbounded element takes the whole rest when it is in its class. -/
theorem matchItems_last_greedy (cls : Char → Bool) (lo : Nat) (ds : List Char)
    (hlo : lo ≤ ds.length) (hall : ∀ c ∈ ds, cls c = true) :
    matchItems [{ cls := cls, min := lo, max := none, capture := true }] ds = some [ds] := by
  have hrun : runLength cls ds = ds.length := by
    have := runLength_append_of_all cls ds [] hall
    simpa [runLength] using this
  have h := matchItems_cons_of_first { cls := cls, min := lo, max := none, capture := true } []
    ds ds.length [] hlo (by rw [hrun]) (fun mx hm => by simp at hm)
    (fun m h1 h2 _ => by rw [hrun] at h2; omega) (by simp [matchItems])
  simpa using h

/-- A hexadecimal digit is not a hyphen, and no character of the naming schemes is
a line feed. -/
theorem isHex_ne_hyphen (c : Char) (h : isHex c = true) : c ≠ '-' ∧ isDot c = true := by
  constructor
  · rintro rfl
    exact absurd h (by decide)
  · simp only [isDot, bne_iff_ne, ne_eq]
    rintro rfl
    exact absurd h (by decide)

/-- A decimal digit is not a line feed. -/
theorem isDigit_isDot (c : Char) (h : isDigit c = true) : isDot c = true := by
  simp only [isDot, bne_iff_ne, ne_eq]
  rintro rfl
  exact absurd h (by decide)

/-- The end of the Linux VM pattern, `-([0-9a-fA-F]{8})-{0,2}([0-9]+)$`, on a
hyphen, eight hexadecimal digits, a hyphen and digits. -/
theorem linuxTail_match (suffix digits : List Char) (hlen : suffix.length = 8)
    (hhex : ∀ c ∈ suffix, isHex c = true) (hne : digits ≠ [])
    (hdig : ∀ c ∈ digits, isDigit c = true) :
    matchItems
        [RegexItem.lit '-',
         { cls := isHex, min := 8, max := some 8, capture := true },
         { cls := fun x => x == '-', min := 0, max := some 2, capture := false },
         { cls := isDigit, min := 1, max := none, capture := true }]
        ('-' :: (suffix ++ '-' :: digits))
      = some [suffix, digits] := by
  rw [matchItems_lit_cons, matchItems_fixed isHex 8 true _ suffix _ hlen hhex]
  obtain ⟨d, ds, rfl⟩ := List.exists_cons_of_ne_nil hne
  have hd : d ≠ '-' := (isDigit_ne_sign d (hdig d (by simp))).1
  have hlast := matchItems_last_greedy isDigit 1 (d :: ds) (by simp) hdig
  have h := matchItems_cons_of_first
    { cls := fun x => x == '-', min := 0, max := some 2, capture := false }
    [{ cls := isDigit, min := 1, max := none, capture := true }] ('-' :: d :: ds) 1
    [d :: ds] (by simp) (by simp [runLength]) (fun mx hm => by simp at hm; omega)
    (fun m h1 h2 _ => by simp [runLength, hd] at h2; omega) (by simpa using hlast)
  rw [h]
  rfl

/-- The end of the Linux VM pattern does not match what is left of a hyphen, eight
hexadecimal digits, a hyphen and at most eight digits once some characters have
been dropped from the front. -/
theorem linuxTail_drop_none (suffix digits : List Char) (j : Nat) (hj : 1 ≤ j)
    (hlen : suffix.length = 8) (hhex : ∀ c ∈ suffix, isHex c = true)
    (hshort : digits.length ≤ 8) :
    matchItems
        [RegexItem.lit '-',
         { cls := isHex, min := 8, max := some 8, capture := true },
         { cls := fun x => x == '-', min := 0, max := some 2, capture := false },
         { cls := isDigit, min := 1, max := none, capture := true }]
        (('-' :: (suffix ++ '-' :: digits)).drop j)
      = none := by
  obtain ⟨i, rfl⟩ : ∃ i, j = i + 1 := ⟨j - 1, by omega⟩
  simp only [List.drop_succ_cons]
  by_cases hi : i < suffix.length
  · rw [List.drop_append_of_le_length (by omega), List.drop_eq_getElem_cons hi,
      List.cons_append]
    exact matchItems_lit_ne _ _ _ _ (isHex_ne_hyphen _ (hhex _ (List.getElem_mem _))).1
  · cases hm : matchItems
        [RegexItem.lit '-',
         { cls := isHex, min := 8, max := some 8, capture := true },
         { cls := fun x => x == '-', min := 0, max := some 2, capture := false },
         { cls := isDigit, min := 1, max := none, capture := true }]
        ((suffix ++ '-' :: digits).drop i) with
    | none => rfl
    | some caps =>
        have := matchItems_length _ _ _ hm
        simp [RegexItem.lit] at this
        omega

/-- The Linux VM pattern on a name built by the naming scheme, for a pool without
line feed and an index of at most eight digits. -/
theorem linuxVMName_match (pool suffix digits : List Char) (hpool : pool ≠ [])
    (hnl : ∀ c ∈ pool, isDot c = true) (hlen : suffix.length = 8)
    (hhex : ∀ c ∈ suffix, isHex c = true) (hne : digits ≠ [])
    (hdig : ∀ c ∈ digits, isDigit c = true) (hshort : digits.length ≤ 8) :
    matchItems k8sLinuxVMNamingFormat.items
        ('k' :: '8' :: 's' :: '-' :: (pool ++ '-' :: (suffix ++ '-' :: digits)))
      = some [pool, suffix, digits] := by
  have hfix := matchItems_fixed isAlnum 3 false
    (RegexItem.lit '-' ::
      { cls := isDot, min := 1, max := none, capture := true } ::
      [RegexItem.lit '-',
       { cls := isHex, min := 8, max := some 8, capture := true },
       { cls := fun x => x == '-', min := 0, max := some 2, capture := false },
       { cls := isDigit, min := 1, max := none, capture := true }])
    ['k', '8', 's'] ('-' :: (pool ++ '-' :: (suffix ++ '-' :: digits))) rfl (by decide)
  simp only [k8sLinuxVMNamingFormat]
  simp only [List.cons_append, List.nil_append] at hfix
  rw [hfix, matchItems_lit_cons]
  have hall : ∀ c ∈ pool ++ '-' :: (suffix ++ '-' :: digits), isDot c = true := by
    intro c hc
    simp only [List.mem_append, List.mem_cons] at hc
    rcases hc with hc | rfl | hc | rfl | hc
    · exact hnl c hc
    · decide
    · exact (isHex_ne_hyphen c (hhex c hc)).2
    · decide
    · exact isDigit_isDot c (hdig c hc)
  have hrun : runLength isDot (pool ++ '-' :: (suffix ++ '-' :: digits))
      = (pool ++ '-' :: (suffix ++ '-' :: digits)).length := by
    have := runLength_append_of_all isDot _ [] hall
    simpa [runLength] using this
  have h := matchItems_cons_of_first { cls := isDot, min := 1, max := none, capture := true }
    [RegexItem.lit '-',
     { cls := isHex, min := 8, max := some 8, capture := true },
     { cls := fun x => x == '-', min := 0, max := some 2, capture := false },
     { cls := isDigit, min := 1, max := none, capture := true }]
    (pool ++ '-' :: (suffix ++ '-' :: digits)) pool.length [suffix, digits]
    (by
      cases pool with
      | nil => exact absurd rfl hpool
      | cons x xs => simp)
    (by rw [hrun]; simp)
    (fun mx hm => by simp at hm)
    (fun m h1 _ _ => by
      obtain ⟨j, rfl⟩ : ∃ j, m = pool.length + j := ⟨m - pool.length, by omega⟩
      rw [List.drop_append]
      exact linuxTail_drop_none suffix digits j (by omega) hlen hhex hshort)
    (by
      rw [List.drop_left' rfl]
      exact linuxTail_match suffix digits hlen hhex hne hdig)
  rw [h]
  simp [List.take_left' rfl]

/-- On the claim as stated, C13 fails: with the nine-digit index 100000000 the
greedy pool group swallows the cluster suffix, so the name built from pool `p`,
suffix `38988164` and that index parses as pool `p-38988164`, suffix `10000000`
and index 0; and a pool identifier holding a line feed is not matched at all. -/
theorem c13_K8sLinuxVMNameParts_counterexample :
    K8sLinuxVMNameParts ("k8s-" ++ "p" ++ "-" ++ "38988164" ++ "-" ++ Itoa 100000000)
        = ("p-38988164", "10000000", 0, none)
      ∧ K8sLinuxVMNameParts ("k8s-" ++ "p" ++ "-" ++ "38988164" ++ "-" ++ Itoa 100000000)
        ≠ ("p", "38988164", 100000000, none)
      ∧ K8sLinuxVMNameParts ("k8s-" ++ "a\nb" ++ "-" ++ "38988164" ++ "-" ++ Itoa 0)
        = ("", "", -1, some "resource name was missing from identifier") := by
  decide

/-- C13 (amended): for every non-empty pool identifier without a line feed (it may
contain `-`), every cluster suffix of 8 hexadecimal digits and every agent index
below 100000000, `K8sLinuxVMNameParts` on the name `k8s-<pool>-<suffix>-<index>`,
the index printed in decimal, returns exactly the pool, the suffix and the index,
and no error. -/
theorem c13_K8sLinuxVMNameParts_inverts_naming (pool suffix : String) (index : Nat)
    (hpool : pool.data ≠ []) (hnl : '\n' ∉ pool.data) (hlen : suffix.data.length = 8)
    (hhex : ∀ c ∈ suffix.data, isHex c = true) (hindex : index < 100000000) :
    K8sLinuxVMNameParts ("k8s-" ++ pool ++ "-" ++ suffix ++ "-" ++ Itoa index)
      = (pool, suffix, (index : Int), none) := by
  obtain ⟨hdig, hne, hparse⟩ := decimalDigits_spec (index + 1) index (by omega)
  have hshort := decimalDigits_length (index + 1) index 8 (by decide) (by simpa using hindex)
  have hdot : ∀ c ∈ pool.data, isDot c = true := by
    intro c hc
    simp only [isDot, bne_iff_ne, ne_eq]
    rintro rfl
    exact hnl hc
  have hm := linuxVMName_match pool.data suffix.data (decimalDigits (index + 1) index) hpool
    hdot hlen hhex hne hdig hshort
  have hdata : ("k8s-" ++ pool ++ "-" ++ suffix ++ "-" ++ Itoa index).data
      = 'k' :: '8' :: 's' :: '-' ::
          (pool.data ++ '-' :: (suffix.data ++ '-' :: decimalDigits (index + 1) index)) := by
    simp [Itoa, String.data_append]
  have hatoi : Atoi (String.mk (decimalDigits (index + 1) index)) = Except.ok (index : Int) :=
    Atoi_Itoa index (by omega)
  simp only [K8sLinuxVMNameParts, Regex.FindStringSubmatch, k8sLinuxVMNamingFormat] at hm ⊢
  simp only [if_true, hdata, hm, List.map_cons, List.map_nil, hatoi]

/-- The three names of `Test_LinuxVMNameParts` and the name of
`Test_GetVMNameIndexLinux`, through the amended C13. -/
theorem c13_K8sLinuxVMNameParts_witness :
    K8sLinuxVMNameParts ("k8s-" ++ "agent-pool1" ++ "-" ++ "38988164" ++ "-" ++ Itoa 8)
        = ("agent-pool1", "38988164", 8, none)
      ∧ K8sLinuxVMNameParts "k8s-agent-pool-1-38988164-0" = ("agent-pool-1", "38988164", 0, none)
      ∧ K8sLinuxVMNameParts "k8s-agentpool1-38988164-10" = ("agentpool1", "38988164", 10, none) :=
  ⟨c13_K8sLinuxVMNameParts_inverts_naming "agent-pool1" "38988164" 8 (by decide) (by decide)
      (by decide) (by decide) (by decide),
    by decide, by decide⟩

/-- The end of the VMSS pattern, `-([0-9a-fA-F]{8})-vmss$`, on a hyphen, eight
hexadecimal digits and `-vmss`. -/
theorem vmssTail_match (suffix : List Char) (hlen : suffix.length = 8)
    (hhex : ∀ c ∈ suffix, isHex c = true) :
    matchItems
        [RegexItem.lit '-',
         { cls := isHex, min := 8, max := some 8, capture := true },
         RegexItem.lit '-', RegexItem.lit 'v', RegexItem.lit 'm', RegexItem.lit 's',
         RegexItem.lit 's']
        ('-' :: (suffix ++ ['-', 'v', 'm', 's', 's']))
      = some [suffix] := by
  rw [matchItems_lit_cons, matchItems_fixed isHex 8 true _ suffix _ hlen hhex,
    matchItems_lit_cons, matchItems_lit_cons, matchItems_lit_cons, matchItems_lit_cons,
    matchItems_lit_cons]
  rfl

/-- The VMSS pattern on a name built by the naming scheme, for a pool without line
feed. -/
theorem vmssName_match (pre pool suffix : List Char) (hpre : pre ≠ [])
    (halnum : ∀ c ∈ pre, isAlnum c = true) (hpool : pool ≠ [])
    (hnl : ∀ c ∈ pool, isDot c = true) (hlen : suffix.length = 8)
    (hhex : ∀ c ∈ suffix, isHex c = true) :
    matchItems vmssNamingFormat.items
        (pre ++ '-' :: (pool ++ '-' :: (suffix ++ ['-', 'v', 'm', 's', 's'])))
      = some [pool, suffix] := by
  have hall : ∀ c ∈ pool ++ '-' :: (suffix ++ ['-', 'v', 'm', 's', 's']), isDot c = true := by
    intro c hc
    simp only [List.mem_append, List.mem_cons, List.mem_singleton] at hc
    rcases hc with hc | rfl | hc | rfl | rfl | rfl | rfl | hc
    · exact hnl c hc
    · decide
    · exact (isHex_ne_hyphen c (hhex c hc)).2
    · decide
    · decide
    · decide
    · decide
    · rcases hc with rfl | hc
      · decide
      · simp at hc
  have hrun : runLength isDot (pool ++ '-' :: (suffix ++ ['-', 'v', 'm', 's', 's']))
      = (pool ++ '-' :: (suffix ++ ['-', 'v', 'm', 's', 's'])).length := by
    have := runLength_append_of_all isDot _ [] hall
    simpa [runLength] using this
  have hpoolItem := matchItems_cons_of_first
    { cls := isDot, min := 1, max := none, capture := true }
    [RegexItem.lit '-',
     { cls := isHex, min := 8, max := some 8, capture := true },
     RegexItem.lit '-', RegexItem.lit 'v', RegexItem.lit 'm', RegexItem.lit 's',
     RegexItem.lit 's']
    (pool ++ '-' :: (suffix ++ ['-', 'v', 'm', 's', 's'])) pool.length [suffix]
    (by
      cases pool with
      | nil => exact absurd rfl hpool
      | cons x xs => simp)
    (by rw [hrun]; simp)
    (fun mx hm => by simp at hm)
    (fun m h1 _ _ => by
      cases hm : matchItems
          [RegexItem.lit '-',
           { cls := isHex, min := 8, max := some 8, capture := true },
           RegexItem.lit '-', RegexItem.lit 'v', RegexItem.lit 'm', RegexItem.lit 's',
           RegexItem.lit 's']
          ((pool ++ '-' :: (suffix ++ ['-', 'v', 'm', 's', 's'])).drop m) with
      | none => rfl
      | some caps =>
          have := matchItems_length _ _ _ hm
          simp [RegexItem.lit] at this
          omega)
    (by
      rw [List.drop_left' rfl]
      exact vmssTail_match suffix hlen hhex)
  simp only [Bool.true_eq_false, if_true, List.take_left' rfl] at hpoolItem
  have hrunPre : runLength isAlnum
      (pre ++ '-' :: (pool ++ '-' :: (suffix ++ ['-', 'v', 'm', 's', 's']))) = pre.length := by
    rw [runLength_append_of_all isAlnum pre _ halnum]
    simp [runLength, show isAlnum '-' = false by decide]
  have h := matchItems_cons_of_first { cls := isAlnum, min := 1, max := none, capture := false }
    (RegexItem.lit '-' ::
      { cls := isDot, min := 1, max := none, capture := true } ::
      [RegexItem.lit '-',
       { cls := isHex, min := 8, max := some 8, capture := true },
       RegexItem.lit '-', RegexItem.lit 'v', RegexItem.lit 'm', RegexItem.lit 's',
       RegexItem.lit 's'])
    (pre ++ '-' :: (pool ++ '-' :: (suffix ++ ['-', 'v', 'm', 's', 's']))) pre.length
    [pool, suffix]
    (by
      cases pre with
      | nil => exact absurd rfl hpre
      | cons x xs => simp)
    (by rw [hrunPre])
    (fun mx hm => by simp at hm)
    (fun m h1 h2 _ => by rw [hrunPre] at h2; omega)
    (by
      rw [List.drop_left' rfl, matchItems_lit_cons]
      exact hpoolItem)
  simpa [vmssNamingFormat] using h

/-- On the claim as stated, C14 fails: a pool identifier holding a line feed is not
matched, so the name built from prefix `swarmm`, that pool and suffix `38988164`
gives the error instead of the pool and the suffix. -/
theorem c14_VmssNameParts_counterexample :
    VmssNameParts ("swarmm" ++ "-" ++ "a\nb" ++ "-" ++ "38988164" ++ "-vmss")
      = ("", "", some "resource name was missing from identifier") := by
  decide

/-- C14 (amended): for every non-empty alphanumeric prefix, every non-empty pool
identifier without a line feed (it may contain `-`) and every cluster suffix of 8
hexadecimal digits, `VmssNameParts` on `<prefix>-<pool>-<suffix>-vmss` returns
exactly the pool and the suffix, and no error; and a name the pattern does not
match returns two empty strings and an error. -/
theorem c14_VmssNameParts_inverts_naming (pre pool suffix : String)
    (hpre : pre.data ≠ []) (halnum : ∀ c ∈ pre.data, isAlnum c = true)
    (hpool : pool.data ≠ []) (hnl : '\n' ∉ pool.data) (hlen : suffix.data.length = 8)
    (hhex : ∀ c ∈ suffix.data, isHex c = true) :
    VmssNameParts (pre ++ "-" ++ pool ++ "-" ++ suffix ++ "-vmss") = (pool, suffix, none)
      ∧ ∀ name : String, matchItems vmssNamingFormat.items name.data = none →
          VmssNameParts name = ("", "", some "resource name was missing from identifier") := by
  constructor
  · have hdot : ∀ c ∈ pool.data, isDot c = true := by
      intro c hc
      simp only [isDot, bne_iff_ne, ne_eq]
      rintro rfl
      exact hnl hc
    have hm := vmssName_match pre.data pool.data suffix.data hpre halnum hpool hdot hlen hhex
    have hdata : (pre ++ "-" ++ pool ++ "-" ++ suffix ++ "-vmss").data
        = pre.data ++ '-' :: (pool.data ++ '-' :: (suffix.data ++ ['-', 'v', 'm', 's', 's'])) := by
      simp [String.data_append]
    simp only [VmssNameParts, Regex.FindStringSubmatch, vmssNamingFormat] at hm ⊢
    simp only [if_true, hdata, hm, List.map_cons, List.map_nil]
  · intro name hname
    simp only [VmssNameParts, Regex.FindStringSubmatch, vmssNamingFormat] at hname ⊢
    simp only [if_true, hname]

/-- The names of `Test_VMSSNameParts`, the second one through the amended C14. -/
theorem c14_VmssNameParts_witness :
    VmssNameParts ("swarmm" ++ "-" ++ "agent-pool1" ++ "-" ++ "38988164" ++ "-vmss")
        = ("agent-pool1", "38988164", none)
      ∧ VmssNameParts "swarmm-agentpool1-38988164-vmss" = ("agentpool1", "38988164", none)
      ∧ VmssNameParts "swarmm-agent-pool-1-38988164-vmss"
        = ("agent-pool-1", "38988164", none) :=
  ⟨(c14_VmssNameParts_inverts_naming "swarmm" "agent-pool1" "38988164" (by decide) (by decide)
      (by decide) (by decide) (by decide) (by decide)).1,
    by decide, by decide⟩

/-- C15: for every non-empty alphanumeric agent pool name `p`,
`WindowsVmssNameParts` on `aks` followed by `p` returns `p` and no error: the
leftmost match starts at the first character, also when `p` itself contains
`aks`. -/
theorem c15_WindowsVmssNameParts_inverts_naming (p : String) (hne : p.data ≠ [])
    (halnum : ∀ c ∈ p.data, isAlnum c = true) :
    WindowsVmssNameParts ("aks" ++ p) = (p, none) := by
  have hm : matchItems windowsVmssNamingFormatV2.items ('a' :: 'k' :: 's' :: p.data)
      = some [p.data] := by
    simp only [windowsVmssNamingFormatV2]
    rw [matchItems_lit_cons, matchItems_lit_cons, matchItems_lit_cons]
    exact matchItems_last_greedy isAlnum 1 p.data
      (by
        cases hp : p.data with
        | nil => exact absurd hp hne
        | cons x xs => simp)
      halnum
  have hdata : ("aks" ++ p).data = 'a' :: 'k' :: 's' :: p.data := by
    simp [String.data_append]
  have hsub : windowsVmssNamingFormatV2.FindStringSubmatch ("aks" ++ p)
      = [String.mk ('a' :: 'k' :: 's' :: p.data), p] := by
    rw [Regex.FindStringSubmatch, hdata, if_neg (by decide)]
    simp only [findFrom, hm, List.map_cons, List.map_nil]
  rw [WindowsVmssNameParts, hsub]

/-- The names of `Test_WindowsVMSSNameParts` and a pool name that itself contains
`aks`, through C15. -/
theorem c15_WindowsVmssNameParts_witness :
    WindowsVmssNameParts ("aks" ++ "winpo1") = ("winpo1", none)
      ∧ WindowsVmssNameParts ("aks" ++ "win2po") = ("win2po", none)
      ∧ WindowsVmssNameParts ("aks" ++ "xaksy") = ("xaksy", none) :=
  ⟨c15_WindowsVmssNameParts_inverts_naming "winpo1" (by decide) (by decide),
    c15_WindowsVmssNameParts_inverts_naming "win2po" (by decide) (by decide),
    c15_WindowsVmssNameParts_inverts_naming "xaksy" (by decide) (by decide)⟩

/-- Reading a run of digits gives the number it denotes. -/
theorem parseDigits_eq_foldl (ds : List Char) (acc : Nat) (hall : ∀ c ∈ ds, isDigit c = true) :
    parseDigits ds acc = some (ds.foldl (fun acc c => acc * 10 + (c.toNat - 48)) acc) := by
  induction ds generalizing acc with
  | nil => rfl
  | cons c cs ih =>
      have hc : isDigit c = true := hall c (by simp)
      simp only [parseDigits, hc, if_true, List.foldl_cons, zero_toNat]
      exact ih _ (fun x hx => hall x (by simp [hx]))

/-- A run of `n` digits read after `acc` stays below `(acc + 1) * 10 ^ n`. -/
theorem foldl_digits_lt (ds : List Char) (acc : Nat) (hall : ∀ c ∈ ds, isDigit c = true) :
    ds.foldl (fun acc c => acc * 10 + (c.toNat - 48)) acc < (acc + 1) * 10 ^ ds.length := by
  induction ds generalizing acc with
  | nil => simp
  | cons c cs ih =>
      have hc : isDigit c = true := hall c (by simp)
      have hval : c.toNat - 48 ≤ 9 := by
        simp only [isDigit, Bool.and_eq_true, decide_eq_true_eq] at hc
        have h2 : c.toNat ≤ '9'.toNat := hc.2
        have h3 : '9'.toNat = 57 := rfl
        omega
      have h := ih (acc * 10 + (c.toNat - 48)) (fun x hx => hall x (by simp [hx]))
      simp only [List.foldl_cons, List.length_cons]
      calc List.foldl (fun acc c => acc * 10 + (c.toNat - 48)) (acc * 10 + (c.toNat - 48)) cs
          < (acc * 10 + (c.toNat - 48) + 1) * 10 ^ cs.length := h
        _ ≤ ((acc + 1) * 10) * 10 ^ cs.length := Nat.mul_le_mul_right _ (by omega)
        _ = (acc + 1) * 10 ^ (cs.length + 1) := by ring

/-- `Atoi` on a run of 1 to 18 digits gives the number it denotes. -/
theorem Atoi_decimalValue (ds : List Char) (hne : ds ≠ []) (hlen : ds.length ≤ 18)
    (hall : ∀ c ∈ ds, isDigit c = true) :
    Atoi (String.mk ds) = Except.ok (decimalValue ds : Int) := by
  apply Atoi_digits ds (decimalValue ds) hne hall (parseDigits_eq_foldl ds 0 hall)
  have h := foldl_digits_lt ds 0 hall
  have hpow : 10 ^ ds.length ≤ 10 ^ 18 := Nat.pow_le_pow_right (by decide) hlen
  have h18 : (10 : Nat) ^ 18 < 2 ^ 63 := by norm_num
  simp only [decimalValue]
  omega

/-- A last element with a bounded count takes the whole rest when it is in its
class and of an admissible length. -/
theorem matchItems_last_bounded (cls : Char → Bool) (lo hi : Nat) (ds : List Char)
    (hlo : lo ≤ ds.length) (hhi : ds.length ≤ hi) (hall : ∀ c ∈ ds, cls c = true) :
    matchItems [{ cls := cls, min := lo, max := some hi, capture := true }] ds = some [ds] := by
  have hrun : runLength cls ds = ds.length := by
    have := runLength_append_of_all cls ds [] hall
    simpa [runLength] using this
  have h := matchItems_cons_of_first { cls := cls, min := lo, max := some hi, capture := true } []
    ds ds.length [] hlo (by rw [hrun]) (fun mx hm => by simp at hm; omega)
    (fun m h1 h2 _ => by rw [hrun] at h2; omega) (by simp [matchItems])
  simpa using h

/-- A last element fails when the rest is longer than its largest count. -/
theorem matchItems_last_too_long (cls : Char → Bool) (lo hi : Nat) (ds : List Char)
    (hlong : hi < ds.length) :
    matchItems [{ cls := cls, min := lo, max := some hi, capture := true }] ds = none := by
  apply matchItems_cons_none
  intro m _ _ hmax
  have hm : m ≤ hi := hmax hi rfl
  have hne : ds.drop m ≠ [] := by
    intro hnil
    have := congrArg List.length hnil
    simp only [List.length_drop, List.length_nil] at this
    omega
  cases hd : ds.drop m with
  | nil => exact absurd hd hne
  | cons x xs => simp [matchItems]

/-- The current Windows VM pattern on four hexadecimal digits, three alphanumerics
and three to eight digits. -/
theorem windowsVMName_match (p t info : List Char) (hp : p.length = 4)
    (hphex : ∀ c ∈ p, isHex c = true) (ht : t.length = 3)
    (htal : ∀ c ∈ t, isAlnum c = true) (hlo : 3 ≤ info.length) (hhi : info.length ≤ 8)
    (hdig : ∀ c ∈ info, isDigit c = true) :
    matchItems k8sWindowsVMNamingFormat.items (p ++ (t ++ info)) = some [p, t, info] := by
  simp only [k8sWindowsVMNamingFormat]
  rw [matchItems_fixed isHex 4 true _ p _ hp hphex, matchItems_fixed isAlnum 3 true _ t _ ht htal,
    matchItems_last_bounded isDigit 3 8 info hlo hhi hdig]
  rfl

/-- The old Windows VM pattern does not match four hexadecimal digits, three
alphanumerics, two characters and a rest, unless the first alphanumeric is a
hexadecimal digit, the second of the two characters is `9` and the rest has 3 to 5
characters. -/
theorem windowsOldVMName_none (p : List Char) (t1 t2 t3 i1 i2 : Char) (a : List Char)
    (hp : p.length = 4) (hphex : ∀ c ∈ p, isHex c = true)
    (hal : isAlnum t2 = true ∧ isAlnum t3 = true ∧ isAlnum i1 = true)
    (hnot : ¬ (isHex t1 = true ∧ i2 = '9' ∧ 3 ≤ a.length ∧ a.length ≤ 5)) :
    matchItems k8sWindowsOldVMNamingFormat.items (p ++ ([t1, t2, t3] ++ ([i1, i2] ++ a)))
      = none := by
  simp only [k8sWindowsOldVMNamingFormat]
  by_cases h1 : isHex t1 = true
  · have hw : ∀ c ∈ p ++ [t1], isHex c = true := by
      intro c hc
      simp only [List.mem_append, List.mem_singleton] at hc
      rcases hc with hc | rfl
      · exact hphex c hc
      · exact h1
    have e : p ++ ([t1, t2, t3] ++ ([i1, i2] ++ a))
        = (p ++ [t1]) ++ ([t2, t3, i1] ++ (i2 :: a)) := by simp
    rw [e, matchItems_fixed isHex 5 true _ (p ++ [t1]) _ (by simp [hp]) hw,
      matchItems_fixed isAlnum 3 true _ [t2, t3, i1] _ rfl
        (by
          intro c hc
          simp only [List.mem_cons, List.mem_singleton, List.not_mem_nil, or_false] at hc
          rcases hc with rfl | rfl | rfl
          · exact hal.1
          · exact hal.2.1
          · exact hal.2.2)]
    by_cases h9 : i2 = '9'
    · subst h9
      have hfix := matchItems_fixed (fun x => x == '9') 1 true
        [{ cls := isAlnum, min := 3, max := some 5, capture := true }] ['9'] a rfl (by simp)
      simp only [List.singleton_append] at hfix
      rw [hfix]
      have hlen : a.length < 3 ∨ 5 < a.length := by
        by_contra hc
        exact hnot ⟨h1, rfl, by omega, by omega⟩
      rcases hlen with hlen | hlen
      · rw [matchItems_short_run _ _ _ (by
          have := runLength_le_length isAlnum a
          show runLength isAlnum a < 3
          omega)]
        rfl
      · rw [matchItems_last_too_long isAlnum 3 5 a hlen]
        rfl
    · rw [matchItems_short_run _ _ _ (by simp [runLength, h9])]
      rfl
  · apply matchItems_short_run
    have hrun := runLength_append_of_all isHex p ([t1, t2, t3] ++ ([i1, i2] ++ a)) hphex
    simp only [List.cons_append, runLength, h1, Bool.false_eq_true, if_false] at hrun
    show runLength isHex (p ++ ([t1, t2, t3] ++ ([i1, i2] ++ a))) < 5
    simp only [List.cons_append]
    omega

/-- On the claim as stated, C16 fails: the name made of prefix `2314`, tag `acs`,
pool index `09` and agent index `123` is also matched by the old naming format,
which is tried first, so it decodes as prefix `2314a`, tag `cs0`, pool index 12
and agent index 3. -/
theorem c16_WindowsVMNameParts_counterexample :
    WindowsVMNameParts ("2314" ++ "acs" ++ "09" ++ "123") = ("2314a", "cs0", 12, 3, none)
      ∧ WindowsVMNameParts ("2314" ++ "acs" ++ "09" ++ "123") ≠ ("2314", "acs", 9, 123, none) := by
  decide

/-- C16 (amended): for every name made of a pool prefix of 4 hexadecimal digits, an
orchestrator tag of 3 alphanumerics, a pool index of 2 digits and an agent index of
1 to 6 digits, unless the tag starts with a hexadecimal digit, the pool index ends
in 9 and the agent index has 3 to 5 digits (the names the old format matches),
`WindowsVMNameParts` returns exactly that prefix, that tag, and the numbers the
pool index and the agent index denote, with no error. -/
theorem c16_WindowsVMNameParts_decodes_current_format (poolPrefix orch poolIndex agentIndex : String)
    (hp : poolPrefix.data.length = 4) (hphex : ∀ c ∈ poolPrefix.data, isHex c = true)
    (ht : orch.data.length = 3) (htal : ∀ c ∈ orch.data, isAlnum c = true)
    (hi : poolIndex.data.length = 2) (hidig : ∀ c ∈ poolIndex.data, isDigit c = true)
    (ha1 : 1 ≤ agentIndex.data.length) (ha6 : agentIndex.data.length ≤ 6)
    (hadig : ∀ c ∈ agentIndex.data, isDigit c = true)
    (hnotOld : ¬ (orch.data.head?.map isHex = some true ∧ poolIndex.data.getLast? = some '9'
      ∧ 3 ≤ agentIndex.data.length ∧ agentIndex.data.length ≤ 5)) :
    WindowsVMNameParts (poolPrefix ++ orch ++ poolIndex ++ agentIndex)
      = (poolPrefix, orch, (decimalValue poolIndex.data : Int),
          (decimalValue agentIndex.data : Int), none) := by
  obtain ⟨p⟩ := poolPrefix
  obtain ⟨t⟩ := orch
  obtain ⟨i⟩ := poolIndex
  obtain ⟨a⟩ := agentIndex
  simp only at hp hphex ht htal hi hidig ha1 ha6 hadig hnotOld
  obtain ⟨t1, t2, t3, rfl⟩ : ∃ t1 t2 t3, t = [t1, t2, t3] := by
    rcases t with _ | ⟨t1, _ | ⟨t2, _ | ⟨t3, _ | ⟨t4, r⟩⟩⟩⟩ <;> simp at ht
    exact ⟨t1, t2, t3, rfl⟩
  obtain ⟨i1, i2, rfl⟩ : ∃ i1 i2, i = [i1, i2] := by
    rcases i with _ | ⟨i1, _ | ⟨i2, _ | ⟨i3, r⟩⟩⟩ <;> simp at hi
    exact ⟨i1, i2, rfl⟩
  have hal : isAlnum t2 = true ∧ isAlnum t3 = true ∧ isAlnum i1 = true := by
    refine ⟨htal t2 (by simp), htal t3 (by simp), ?_⟩
    have hd := hidig i1 (by simp)
    simp only [isDigit, isAlnum] at hd ⊢
    simp [hd]
  have hold := windowsOldVMName_none p t1 t2 t3 i1 i2 a hp hphex hal
    (by simpa [List.getLast?_cons_cons] using hnotOld)
  have hinfo : ∀ c ∈ [i1, i2] ++ a, isDigit c = true := by
    intro c hc
    simp only [List.mem_append] at hc
    rcases hc with hc | hc
    · exact hidig c hc
    · exact hadig c hc
  have hnew := windowsVMName_match p [t1, t2, t3] ([i1, i2] ++ a) hp hphex rfl htal
    (by simp; omega) (by simp; omega) hinfo
  have hdata : ((⟨p⟩ : String) ++ ⟨[t1, t2, t3]⟩ ++ ⟨[i1, i2]⟩ ++ ⟨a⟩).data
      = p ++ ([t1, t2, t3] ++ ([i1, i2] ++ a)) := by
    simp [String.data_append]
  have hane : a ≠ [] := by
    intro hnil
    rw [hnil] at ha1
    simp at ha1
  have hpi := Atoi_decimalValue [i1, i2] (by simp) (by simp) hidig
  have hai := Atoi_decimalValue a hane (by omega) hadig
  simp only [WindowsVMNameParts, Regex.FindStringSubmatch, k8sWindowsOldVMNamingFormat,
    k8sWindowsVMNamingFormat] at hold hnew ⊢
  simp only [if_true, hdata, hold, hnew, List.map_cons, List.map_nil, windowsPoolInfo]
  have htake : (([i1, i2] ++ a)).take 2 = [i1, i2] := rfl
  have hdrop : (([i1, i2] ++ a)).drop 2 = a := rfl
  rw [htake, hdrop, hpi, hai]

/-- The name of the claim and the other current-format names of
`Test_WindowsVMNameParts`, the first through the amended C16. -/
theorem c16_WindowsVMNameParts_witness :
    WindowsVMNameParts ("2314" ++ "k8s" ++ "03" ++ "000001")
        = ("2314", "k8s", (decimalValue "03".data : Int), (decimalValue "000001".data : Int), none)
      ∧ WindowsVMNameParts "2314k8s03000001" = ("2314", "k8s", 3, 1, none)
      ∧ WindowsVMNameParts "4506k8s010" = ("4506", "k8s", 1, 0, none)
      ∧ WindowsVMNameParts "2314k8s0310" = ("2314", "k8s", 3, 10, none) :=
  ⟨c16_WindowsVMNameParts_decodes_current_format "2314" "k8s" "03" "000001" (by decide)
      (by decide) (by decide) (by decide) (by decide) (by decide) (by decide) (by decide)
      (by decide) (by decide),
    by decide, by decide, by decide⟩

/-- C17: `GetVMNameIndex` returns, for the Linux OS type, the agent index parsed by
`K8sLinuxVMNameParts` (its error with index 0 when parsing fails), for the Windows
OS type the agent index parsed by `WindowsVMNameParts` (likewise), and for every
other OS type, the empty one included, an error for every VM name; whenever it
returns an error the index is 0. The three tests evaluate as they expect. -/
theorem c17_GetVMNameIndex_by_os_type (osType vmName : String) :
    ((K8sLinuxVMNameParts vmName).2.2.2 = none →
        GetVMNameIndex OperatingSystemTypesLinux vmName
          = ((K8sLinuxVMNameParts vmName).2.2.1, none))
      ∧ (∀ err, (K8sLinuxVMNameParts vmName).2.2.2 = some err →
          GetVMNameIndex OperatingSystemTypesLinux vmName = (0, some err))
      ∧ ((WindowsVMNameParts vmName).2.2.2.2 = none →
          GetVMNameIndex OperatingSystemTypesWindows vmName
            = ((WindowsVMNameParts vmName).2.2.2.1, none))
      ∧ (∀ err, (WindowsVMNameParts vmName).2.2.2.2 = some err →
          GetVMNameIndex OperatingSystemTypesWindows vmName = (0, some err))
      ∧ (osType ≠ OperatingSystemTypesLinux → osType ≠ OperatingSystemTypesWindows →
          GetVMNameIndex osType vmName = (0, some "Unknown os type. Can't determine vm index"))
      ∧ ((GetVMNameIndex osType vmName).2 ≠ none → (GetVMNameIndex osType vmName).1 = 0)
      ∧ (GetVMNameIndex "" "k8s-agentpool1-38988164-65").2 ≠ none
      ∧ GetVMNameIndex OperatingSystemTypesLinux "k8s-agentpool1-38988164-65" = (65, none)
      ∧ GetVMNameIndex OperatingSystemTypesWindows "38988k8s90320" = (20, none) := by
  refine ⟨?_, ?_, ?_, ?_, ?_, ?_, by decide, by decide, by decide⟩
  · intro h
    rcases hk : K8sLinuxVMNameParts vmName with ⟨a, b, idx, e⟩
    rw [hk] at h
    simp only at h
    subst h
    simp [GetVMNameIndex, hk]
  · intro err h
    rcases hk : K8sLinuxVMNameParts vmName with ⟨a, b, idx, e⟩
    rw [hk] at h
    simp only at h
    subst h
    simp [GetVMNameIndex, hk]
  · intro h
    rcases hk : WindowsVMNameParts vmName with ⟨a, b, pi, idx, e⟩
    rw [hk] at h
    simp only at h
    subst h
    have hne : OperatingSystemTypesWindows ≠ OperatingSystemTypesLinux := by decide
    simp [GetVMNameIndex, hk, hne]
  · intro err h
    rcases hk : WindowsVMNameParts vmName with ⟨a, b, pi, idx, e⟩
    rw [hk] at h
    simp only at h
    subst h
    have hne : OperatingSystemTypesWindows ≠ OperatingSystemTypesLinux := by decide
    simp [GetVMNameIndex, hk, hne]
  · intro h1 h2
    simp [GetVMNameIndex, h1, h2]
  · intro herr
    simp only [GetVMNameIndex] at herr ⊢
    split
    · rcases hk : K8sLinuxVMNameParts vmName with ⟨a, b, idx, e⟩
      cases e with
      | none =>
          rename_i hos
          simp [hos, hk] at herr
      | some err => rfl
    · split
      · rcases hk : WindowsVMNameParts vmName with ⟨a, b, pi, idx, e⟩
        cases e with
        | none =>
            rename_i hos1 hos2
            have hne : OperatingSystemTypesWindows ≠ OperatingSystemTypesLinux := by decide
            simp [hos1, hos2, hk, hne] at herr
        | some err => rfl
      · rfl

/-- C18: for every URI whose parsed host is an account name without `.` followed by
`.` and a rest, and whose parsed path is `/`, a container name without `/`, `/` and
a blob path (which may contain `/`), `SplitBlobURI` returns the account, the
container and the blob path with no error, so the container, `/` and the blob path
make up the path without its leading `/`. -/
theorem c18_SplitBlobURI_decomposes (urlParse : String → Except String URL)
    (uri account rest container blobPath : String)
    (hparse : urlParse uri
      = Except.ok { Host := account ++ "." ++ rest, Path := "/" ++ container ++ "/" ++ blobPath })
    (haccount : '.' ∉ account.data) (hcontainer : '/' ∉ container.data) :
    SplitBlobURI urlParse uri = some (account, container, blobPath, none)
      ∧ (container ++ "/" ++ blobPath).data = ("/" ++ container ++ "/" ++ blobPath).data.drop 1 := by
  have hhost : splitOn '.' (account ++ "." ++ rest).data
      = account.data :: splitOn '.' rest.data := by
    have := splitOn_append '.' account.data rest.data haccount
    simpa [String.data_append] using this
  have hpath : splitOn '/' ("/" ++ container ++ "/" ++ blobPath).data
      = [] :: container.data :: splitOn '/' blobPath.data := by
    have h1 := splitOn_append '/' [] (container.data ++ '/' :: blobPath.data) (by simp)
    have h2 := splitOn_append '/' container.data blobPath.data hcontainer
    rw [h2] at h1
    simpa [String.data_append] using h1
  constructor
  · simp only [SplitBlobURI, hparse, stringsSplit, hhost, hpath, stringsJoin, List.map_cons,
      List.getElem?_cons_zero, List.getElem?_cons_succ, List.drop_succ_cons, List.drop_zero,
      List.map_map]
    have hid : (String.data ∘ String.mk) = id := by
      funext x
      rfl
    simp [hid, joinWith_splitOn]
  · simp [String.data_append]

/-- The URI of `Test_SplitBlobURI`: account `vhdstorage8h8pjybi9hbsl6`, container
`vhds`, blob path `osdisks/disk1234.vhd`. -/
theorem c18_SplitBlobURI_witness :
    SplitBlobURI testUrlParse
        "https://vhdstorage8h8pjybi9hbsl6.blob.core.windows.net/vhds/osdisks/disk1234.vhd"
      = some ("vhdstorage8h8pjybi9hbsl6", "vhds", "osdisks/disk1234.vhd", none) :=
  (c18_SplitBlobURI_decomposes testUrlParse
    "https://vhdstorage8h8pjybi9hbsl6.blob.core.windows.net/vhds/osdisks/disk1234.vhd"
    "vhdstorage8h8pjybi9hbsl6" "blob.core.windows.net" "vhds" "osdisks/disk1234.vhd"
    (by simp only [testUrlParse, Except.ok.injEq, URL.mk.injEq]; decide) (by decide)
    (by decide)).1

/-- C19 (the code departs from the claim and from its own comment): a malformed
subnet id in the `MasterProfile` always gives false, and so does a malformed id in
the first agent pool; but with no master subnet, a
first agent pool in a well-formed subnet and a second agent pool with the malformed
id `malformed`, the early return on the first pool gives true, while the same two
pools in the other order give false. -/
theorem c19_hasDistinctControlPlaneVNET_overlooks_later_malformed_pool :
    (∀ cs : ContainerService,
        malformedVnetSubnetID cs.Properties.MasterProfile.VnetSubnetID = true →
          hasDistinctControlPlaneVNET cs = false)
      ∧ (∀ (cs : ContainerService) (agentPool : AgentPoolProfile) (rest : List AgentPoolProfile),
          cs.Properties.AgentPoolProfiles = agentPool :: rest →
          malformedVnetSubnetID agentPool.VnetSubnetID = true →
            hasDistinctControlPlaneVNET cs = false)
      ∧ malformedVnetSubnetID "malformed" = true
      ∧ malformedVnetSubnetID testSubnetID = false
      ∧ hasDistinctControlPlaneVNET
          { Properties :=
              { AgentPoolProfiles :=
                  [{ VnetSubnetID := testSubnetID }, { VnetSubnetID := "malformed" }] } }
        = true
      ∧ hasDistinctControlPlaneVNET
          { Properties :=
              { AgentPoolProfiles :=
                  [{ VnetSubnetID := "malformed" }, { VnetSubnetID := testSubnetID }] } }
        = false := by
  refine ⟨?_, ?_, by decide, by decide, by decide, by decide⟩
  · intro cs h
    simp only [malformedVnetSubnetID, Bool.and_eq_true, decide_eq_true_eq] at h
    simp only [hasDistinctControlPlaneVNET, h.1, ne_eq, not_false_eq_true, if_true, ge_iff_le]
    rw [if_neg (by omega)]
  · intro cs agentPool rest hpools h
    simp only [malformedVnetSubnetID, Bool.and_eq_true, decide_eq_true_eq] at h
    have hloop : ∀ a b, agentPoolsHaveDistinctVNET a b (agentPool :: rest) = false := by
      intro a b
      simp only [agentPoolsHaveDistinctVNET, h.1, ne_eq, not_false_eq_true, if_true, h.2]
    simp only [hasDistinctControlPlaneVNET, hpools, hloop]
    split
    · split <;> rfl
    · rfl

/-- The keys of a map after an assignment: the old keys and the assigned one. -/
theorem mapSet_keys (m : List (String × Bool)) (k : String) (v : Bool) (x : String) :
    x ∈ (mapSet m k v).map Prod.fst ↔ x ∈ m.map Prod.fst ∨ x = k := by
  simp only [mapSet]
  split
  · rename_i hsome
    have hk : k ∈ m.map Prod.fst := by
      obtain ⟨b, hb⟩ := Option.isSome_iff_exists.mp hsome
      have := List.lookup_eq_some_iff.mp hb
      obtain ⟨l1, l2, rfl, _⟩ := this
      simp
    have hmap : (m.map fun e => if e.1 == k then (e.1, v) else e).map Prod.fst
        = m.map Prod.fst := by
      rw [List.map_map]
      apply List.map_congr_left
      intro e _
      simp only [Function.comp]
      split <;> rfl
    rw [hmap]
    constructor
    · exact Or.inl
    · rintro (h | rfl)
      · exact h
      · exact hk
  · simp

/-- The entries of a map after an assignment: the assigned key with the assigned
value, or an old entry under another key. -/
theorem mapSet_mem (m : List (String × Bool)) (k : String) (v : Bool) (e : String × Bool)
    (h : e ∈ mapSet m k v) : (e.1 = k ∧ e.2 = v) ∨ (e ∈ m ∧ e.1 ≠ k) := by
  simp only [mapSet] at h
  split at h
  · simp only [List.mem_map] at h
    obtain ⟨e0, he0, rfl⟩ := h
    by_cases hk : e0.1 = k
    · left
      simp [hk]
    · right
      simp [hk, he0]
  · simp only [List.mem_append, List.mem_singleton] at h
    rcases h with h | rfl
    · right
      refine ⟨h, ?_⟩
      rename_i hnone
      intro hk
      apply hnone
      have hmem : e.1 ∈ m.map Prod.fst := List.mem_map_of_mem Prod.fst h
      rw [hk] at hmem
      cases hl : m.lookup k with
      | some b => rfl
      | none =>
          rw [List.lookup_eq_none_iff] at hl
          obtain ⟨e1, he1, hk1⟩ := List.mem_map.mp hmem
          have := hl e1 he1
          simp [hk1] at this
    · left
      exact ⟨rfl, rfl⟩

/-- A key has an entry exactly when looking it up finds something. -/
theorem lookup_isSome_iff_mem_keys (m : List (String × Bool)) (k : String) :
    (m.lookup k).isSome = true ↔ k ∈ m.map Prod.fst := by
  constructor
  · intro h
    obtain ⟨b, hb⟩ := Option.isSome_iff_exists.mp h
    obtain ⟨l1, l2, rfl, _⟩ := List.lookup_eq_some_iff.mp hb
    simp
  · intro h
    cases hl : m.lookup k with
    | some b => rfl
    | none =>
        rw [List.lookup_eq_none_iff] at hl
        obtain ⟨e1, he1, hk1⟩ := List.mem_map.mp h
        have := hl e1 he1
        simp [hk1] at this

/-- The map `allNodesReadyCondition` starts from: the required names, all false. -/
theorem requiredReady_init (requiredNodes : List String) (m : List (String × Bool))
    (hfalse : ∀ e ∈ m, e.2 = false) :
    (∀ x, x ∈ (requiredNodes.foldl (fun m name => mapSet m name false) m).map Prod.fst
        ↔ x ∈ m.map Prod.fst ∨ x ∈ requiredNodes)
      ∧ ∀ e ∈ requiredNodes.foldl (fun m name => mapSet m name false) m, e.2 = false := by
  induction requiredNodes generalizing m with
  | nil => simpa using hfalse
  | cons name rest ih =>
      have hfalse2 : ∀ e ∈ mapSet m name false, e.2 = false := by
        intro e he
        rcases mapSet_mem m name false e he with h | h
        · exact h.2
        · exact hfalse e h.1
      obtain ⟨h1, h2⟩ := ih (mapSet m name false) hfalse2
      refine ⟨fun x => ?_, h2⟩
      rw [List.foldl_cons, h1 x, mapSet_keys]
      simp only [List.mem_cons]
      tauto

/-- The loop over the listed nodes: it stops with `false` exactly when a listed node
with a required name is not Ready; otherwise the map keeps its keys and an entry is
true exactly when it was true before or a listed node bears its name. -/
theorem recordReadyNodes_spec (isReady : Node → Bool) (nl : List Node)
    (m : List (String × Bool)) :
    match recordReadyNodes isReady m nl with
    | none => ∃ n ∈ nl, n.name ∈ m.map Prod.fst ∧ isReady n = false
    | some m2 =>
        (∀ n ∈ nl, n.name ∈ m.map Prod.fst → isReady n = true)
          ∧ (∀ x, x ∈ m2.map Prod.fst ↔ x ∈ m.map Prod.fst)
          ∧ (∀ e ∈ m2, e.2 = true →
              (∃ e0 ∈ m, e0.1 = e.1 ∧ e0.2 = true) ∨ ∃ n ∈ nl, n.name = e.1)
          ∧ (∀ e ∈ m2, (∃ n ∈ nl, n.name = e.1) → e.2 = true)
          ∧ (∀ e ∈ m2, (∀ e0 ∈ m, e0.1 = e.1 → e0.2 = true) → e.2 = true) := by
  induction nl generalizing m with
  | nil =>
      simp only [recordReadyNodes]
      refine ⟨by simp, by simp, ?_, by simp, ?_⟩
      · intro e he ht
        exact Or.inl ⟨e, he, rfl, ht⟩
      · intro e he h
        exact h e he rfl
  | cons nli rest ih =>
      simp only [recordReadyNodes]
      cases hl : m.lookup nli.name with
      | none =>
          have hnot : nli.name ∉ m.map Prod.fst := by
            intro hmem
            have := (lookup_isSome_iff_mem_keys m nli.name).mpr hmem
            simp [hl] at this
          have := ih m
          simp only
          cases hr : recordReadyNodes isReady m rest with
          | none =>
              rw [hr] at this
              obtain ⟨n, hn, hk, hready⟩ := this
              exact ⟨n, by simp [hn], hk, hready⟩
          | some m2 =>
              rw [hr] at this
              obtain ⟨h1, h2, h3, h4, h5⟩ := this
              refine ⟨?_, h2, ?_, ?_, h5⟩
              · intro n hn hk
                simp only [List.mem_cons] at hn
                rcases hn with rfl | hn
                · exact absurd hk hnot
                · exact h1 n hn hk
              · intro e he ht
                rcases h3 e he ht with h | ⟨n, hn, hname⟩
                · exact Or.inl h
                · exact Or.inr ⟨n, by simp [hn], hname⟩
              · intro e he hex
                obtain ⟨n, hn, hname⟩ := hex
                simp only [List.mem_cons] at hn
                rcases hn with rfl | hn
                · have hmem : e.1 ∈ m2.map Prod.fst := List.mem_map_of_mem Prod.fst he
                  rw [h2, ← hname] at hmem
                  exact absurd hmem hnot
                · exact h4 e he ⟨n, hn, hname⟩
      | some b =>
          have hkey : nli.name ∈ m.map Prod.fst :=
            (lookup_isSome_iff_mem_keys m nli.name).mp (by simp [hl])
          simp only
          by_cases hready : isReady nli = true
          · simp only [hready, Bool.not_true, Bool.false_eq_true, if_false]
            have hkeys : ∀ x, x ∈ (mapSet m nli.name true).map Prod.fst ↔ x ∈ m.map Prod.fst := by
              intro x
              rw [mapSet_keys]
              constructor
              · rintro (h | rfl)
                · exact h
                · exact hkey
              · exact Or.inl
            have := ih (mapSet m nli.name true)
            cases hr : recordReadyNodes isReady (mapSet m nli.name true) rest with
            | none =>
                rw [hr] at this
                obtain ⟨n, hn, hk, hnr⟩ := this
                exact ⟨n, by simp [hn], (hkeys _).mp hk, hnr⟩
            | some m2 =>
                rw [hr] at this
                obtain ⟨h1, h2, h3, h4, h5⟩ := this
                refine ⟨?_, fun x => (h2 x).trans (hkeys x), ?_, ?_, ?_⟩
                · intro n hn hk
                  simp only [List.mem_cons] at hn
                  rcases hn with rfl | hn
                  · exact hready
                  · exact h1 n hn ((hkeys _).mpr hk)
                · intro e he ht
                  rcases h3 e he ht with ⟨e0, he0, hname, hv⟩ | ⟨n, hn, hname⟩
                  · rcases mapSet_mem m nli.name true e0 he0 with hset | hold
                    · exact Or.inr ⟨nli, by simp, hset.1.symm.trans hname⟩
                    · exact Or.inl ⟨e0, hold.1, hname, hv⟩
                  · exact Or.inr ⟨n, by simp [hn], hname⟩
                · intro e he hex
                  obtain ⟨n, hn, hname⟩ := hex
                  simp only [List.mem_cons] at hn
                  rcases hn with rfl | hn
                  · apply h5 e he
                    intro e0 he0 hname0
                    rcases mapSet_mem m n.name true e0 he0 with hset | hold
                    · exact hset.2
                    · exact absurd (hname0.trans hname.symm) hold.2
                  · exact h4 e he ⟨n, hn, hname⟩
                · intro e he hall
                  apply h5 e he
                  intro e0 he0 hname0
                  rcases mapSet_mem m nli.name true e0 he0 with hset | hold
                  · exact hset.2
                  · exact hall e0 hold.1 hname0
          · have hready2 : isReady nli = false := by simpa using hready
            simp only [hready2, Bool.not_false, if_true]
            exact ⟨nli, by simp, hkey, hready2⟩

/-- The condition of `allNodesReadyCondition` holds exactly when every required name occurs in the
node list and every listed node with a required name is Ready. -/
theorem allNodesReadyCondition_iff (isReady : Node → Bool) (requiredNodes : List String)
    (nl : List Node) :
    allNodesReadyCondition isReady requiredNodes nl = true
      ↔ (∀ name ∈ requiredNodes, ∃ n ∈ nl, n.name = name)
        ∧ ∀ n ∈ nl, n.name ∈ requiredNodes → isReady n = true := by
  obtain ⟨hkeys, hfalse⟩ := requiredReady_init requiredNodes [] (by simp)
  have hkeys2 : ∀ x, x ∈ (requiredNodes.foldl (fun m name => mapSet m name false) []).map Prod.fst
      ↔ x ∈ requiredNodes := by
    intro x
    rw [hkeys x]
    simp
  have hspec := recordReadyNodes_spec isReady nl
    (requiredNodes.foldl (fun m name => mapSet m name false) [])
  simp only [allNodesReadyCondition]
  cases hr : recordReadyNodes isReady
      (requiredNodes.foldl (fun m name => mapSet m name false) []) nl with
  | none =>
      rw [hr] at hspec
      obtain ⟨n, hn, hk, hnr⟩ := hspec
      simp only [Bool.false_eq_true, false_iff, not_and]
      intro _ hall
      have := hall n hn ((hkeys2 _).mp hk)
      rw [hnr] at this
      exact absurd this (by simp)
  | some m2 =>
      rw [hr] at hspec
      obtain ⟨h1, h2, h3, h4, _⟩ := hspec
      simp only [List.all_eq_true]
      constructor
      · intro hall
        refine ⟨fun name hname => ?_, fun n hn hk => h1 n hn ((hkeys2 _).mpr hk)⟩
        have hmem : name ∈ m2.map Prod.fst := (h2 name).mpr ((hkeys2 name).mpr hname)
        obtain ⟨e, he, hname2⟩ := List.mem_map.mp hmem
        rcases h3 e he (hall e he) with ⟨e0, he0, _, hv⟩ | ⟨n, hn, hnm⟩
        · rw [hfalse e0 he0] at hv
          exact absurd hv (by simp)
        · exact ⟨n, hn, hnm.trans hname2⟩
      · rintro ⟨hocc, _⟩ e he
        have hmem : e.1 ∈ requiredNodes :=
          (hkeys2 _).mp ((h2 _).mp (List.mem_map_of_mem Prod.fst he))
        exact h4 e he (hocc e.1 hmem)

/-- C20: for every list of required node names and every node list,
`allNodesReadyCondition` is true exactly when every required name occurs in the
node list and every listed node whose name is required is Ready; the listed nodes
whose names are not required never change the result (dropping them from the list
gives the same answer); and an empty required list gives true. -/
theorem c20_allNodesReadyCondition_iff_required_ready (isReady : Node → Bool)
    (requiredNodes : List String) (nl : List Node) :
    (allNodesReadyCondition isReady requiredNodes nl = true
        ↔ (∀ name ∈ requiredNodes, ∃ n ∈ nl, n.name = name)
          ∧ ∀ n ∈ nl, n.name ∈ requiredNodes → isReady n = true)
      ∧ allNodesReadyCondition isReady requiredNodes nl
          = allNodesReadyCondition isReady requiredNodes
              (nl.filter fun n => requiredNodes.contains n.name)
      ∧ allNodesReadyCondition isReady [] nl = true := by
  refine ⟨allNodesReadyCondition_iff isReady requiredNodes nl, ?_, ?_⟩
  · have h1 := allNodesReadyCondition_iff isReady requiredNodes nl
    have h2 := allNodesReadyCondition_iff isReady requiredNodes
      (nl.filter fun n => requiredNodes.contains n.name)
    have hiff : allNodesReadyCondition isReady requiredNodes nl = true
        ↔ allNodesReadyCondition isReady requiredNodes
            (nl.filter fun n => requiredNodes.contains n.name) = true := by
      rw [h1, h2]
      simp only [List.mem_filter, List.contains_eq_any_beq, List.any_eq_true, beq_iff_eq]
      constructor
      · rintro ⟨ha, hb⟩
        refine ⟨fun name hname => ?_, fun n hn hk => hb n hn.1 hk⟩
        obtain ⟨n, hn, hnm⟩ := ha name hname
        exact ⟨n, ⟨hn, name, hname, hnm⟩, hnm⟩
      · rintro ⟨ha, hb⟩
        refine ⟨fun name hname => ?_, fun n hn hk => hb n ⟨hn, n.name, hk, rfl⟩ hk⟩
        obtain ⟨n, hn, hnm⟩ := ha name hname
        exact ⟨n, hn.1, hnm⟩
    exact Bool.eq_iff_iff.mpr hiff
  · rw [allNodesReadyCondition_iff]
    simp

/-- Looking a key up in a map whose entries under `k` were overwritten with `v`. -/
theorem lookup_map_overwrite (m : List (String × Bool)) (k : String) (v : Bool) (x : String) :
    (m.map fun e => if e.1 == k then (e.1, v) else e).lookup x
      = (m.lookup x).map fun b => if x = k then v else b := by
  induction m with
  | nil => rfl
  | cons e rest ih =>
      obtain ⟨a, b⟩ := e
      by_cases hak : a = k
      · by_cases hx : x = a
        · subst hak
          subst hx
          simp [List.lookup_cons]
        · have hxa : (x == a) = false := by simpa using hx
          subst hak
          simp only [List.map_cons, beq_self_eq_true, if_true, List.lookup_cons, hxa, ih]
      · have hak2 : (a == k) = false := by simpa using hak
        by_cases hx : x = a
        · subst hx
          simp [List.lookup_cons, hak2, hak]
        · have hxa : (x == a) = false := by simpa using hx
          simp only [List.map_cons, hak2, Bool.false_eq_true, if_false, List.lookup_cons, hxa, ih]

/-- Looking a key up after an assignment: the assigned value under the assigned key,
the old value under every other key. -/
theorem mapSet_lookup (m : List (String × Bool)) (k : String) (v : Bool) (x : String) :
    (mapSet m k v).lookup x = if x = k then some v else m.lookup x := by
  simp only [mapSet]
  split
  · rename_i hsome
    rw [lookup_map_overwrite]
    by_cases hx : x = k
    · subst hx
      obtain ⟨b, hb⟩ := Option.isSome_iff_exists.mp hsome
      simp [hb]
    · simp [hx]
  · rename_i hnone
    rw [List.lookup_append]
    by_cases hx : x = k
    · subst hx
      have : m.lookup x = none := by
        cases h : m.lookup x with
        | none => rfl
        | some b => simp [h] at hnone
      simp [this, List.lookup_cons]
    · have hxk : (x == k) = false := by simpa using hx
      cases h : m.lookup x <;> simp [List.lookup_cons, hxk, hx, List.lookup_nil]

/-- An assignment keeps the keys of a map distinct. -/
theorem mapSet_keys_nodup (m : List (String × Bool)) (k : String) (v : Bool)
    (h : (m.map Prod.fst).Nodup) : ((mapSet m k v).map Prod.fst).Nodup := by
  simp only [mapSet]
  split
  · have hmap : (m.map fun e => if e.1 == k then (e.1, v) else e).map Prod.fst
        = m.map Prod.fst := by
      rw [List.map_map]
      apply List.map_congr_left
      intro e _
      simp only [Function.comp]
      split <;> rfl
    rw [hmap]
    exact h
  · rename_i hnone
    rw [List.map_append, List.nodup_append]
    refine ⟨h, by simp, ?_⟩
    intro a ha hb
    simp only [List.map_cons, List.map_nil, List.mem_singleton] at hb
    subst hb
    exact hnone ((lookup_isSome_iff_mem_keys m a).mpr ha)

/-- In a map with distinct keys every entry is the one a lookup of its key finds. -/
theorem lookup_of_mem_nodup {α β : Type} [DecidableEq α] (m : List (α × β))
    (h : (m.map Prod.fst).Nodup) (e : α × β) (he : e ∈ m) : m.lookup e.1 = some e.2 := by
  induction m with
  | nil => simp at he
  | cons e0 rest ih =>
      obtain ⟨a, b⟩ := e0
      rw [List.map_cons, List.nodup_cons] at h
      rcases List.mem_cons.mp he with rfl | hrest
      · simp [List.lookup_cons]
      · have hne : e.1 ≠ a := by
          intro heq
          apply h.1
          rw [← heq]
          exact List.mem_map.mpr ⟨e, hrest, rfl⟩
        have hb : (e.1 == a) = false := by simpa using hne
        rw [List.lookup_cons]
        simp only [hb]
        exact ih h.2 hrest

/-- What a lookup finds is an entry of the map. -/
theorem mem_of_lookup (m : List (String × Bool)) (k : String) (v : Bool)
    (h : m.lookup k = some v) : (k, v) ∈ m := by
  obtain ⟨l1, l2, rfl, _⟩ := List.lookup_eq_some_iff.mp h
  simp
/-- The readiness of a listed pod: phase Running and every container status running
and ready. -/
theorem podItemReady_iff (p : v1.Pod) :
    podItemReady p = true ↔
      p.Status.Phase = v1.PodRunning
        ∧ ∀ c ∈ p.Status.ContainerStatuses, c.State.Running ≠ none ∧ c.Ready = true := by
  have hfold : ∀ (cs : List v1.ContainerStatus) (init : Bool),
      cs.foldl (fun ready c => ready && c.State.Running.isSome && c.Ready) init = true
        ↔ init = true ∧ ∀ c ∈ cs, c.State.Running ≠ none ∧ c.Ready = true := by
    intro cs
    induction cs with
    | nil => simp
    | cons c rest ih =>
        intro init
        rw [List.foldl_cons, ih]
        simp only [Bool.and_eq_true, List.mem_cons, forall_eq_or_imp, Option.isSome_iff_ne_none]
        tauto
  rw [podItemReady, hfold]
  simp

/-- The loop over the listed pods neither adds nor removes a key. -/
theorem recordPodReady_isSome (items : List v1.Pod) (m : List (String × Bool)) (x : String) :
    ((recordPodReady m items).lookup x).isSome = (m.lookup x).isSome := by
  induction items generalizing m with
  | nil => rfl
  | cons p rest ih =>
      simp only [recordPodReady]
      cases hl : m.lookup p.ObjectMeta.Name with
      | none => exact ih m
      | some b =>
          simp only
          rw [ih, mapSet_lookup]
          by_cases hx : x = p.ObjectMeta.Name
          · simp [hx, hl]
          · simp [hx]

/-- The loop over the listed pods keeps the keys of the map distinct. -/
theorem recordPodReady_keys_nodup (items : List v1.Pod) (m : List (String × Bool))
    (h : (m.map Prod.fst).Nodup) : ((recordPodReady m items).map Prod.fst).Nodup := by
  induction items generalizing m with
  | nil => exact h
  | cons p rest ih =>
      simp only [recordPodReady]
      cases hl : m.lookup p.ObjectMeta.Name with
      | none => exact ih m h
      | some b => exact ih _ (mapSet_keys_nodup m _ _ h)

/-- The map after the loop over pods with distinct names: a key with a listed pod of
that name holds the readiness of that pod, every other key its old value. -/
theorem recordPodReady_lookup (items : List v1.Pod)
    (hd : (items.map fun p => p.ObjectMeta.Name).Nodup) (m : List (String × Bool))
    (x : String) :
    (recordPodReady m items).lookup x =
      match items.find? (fun p => p.ObjectMeta.Name == x) with
      | some p => if (m.lookup x).isSome then some (podItemReady p) else none
      | none => m.lookup x := by
  induction items generalizing m with
  | nil => rfl
  | cons p rest ih =>
      rw [List.map_cons, List.nodup_cons] at hd
      have hrest : p.ObjectMeta.Name = x →
          rest.find? (fun q => q.ObjectMeta.Name == x) = none := by
        intro hpx
        rw [List.find?_eq_none]
        intro q hq hqx
        apply hd.1
        have hqx2 : q.ObjectMeta.Name = x := by simpa using hqx
        rw [hpx, ← hqx2]
        exact List.mem_map.mpr ⟨q, hq, rfl⟩
      simp only [recordPodReady]
      cases hl : m.lookup p.ObjectMeta.Name with
      | none =>
          simp only
          rw [ih hd.2 m]
          by_cases hpx : p.ObjectMeta.Name = x
          · subst hpx
            rw [hrest rfl]
            simp [List.find?_cons, hl]
          · have hb : (p.ObjectMeta.Name == x) = false := by simpa using hpx
            simp [List.find?_cons, hb]
      | some b =>
          simp only
          rw [ih hd.2 _]
          by_cases hpx : p.ObjectMeta.Name = x
          · subst hpx
            rw [hrest rfl, mapSet_lookup]
            simp [List.find?_cons, hl]
          · have hb : (p.ObjectMeta.Name == x) = false := by simpa using hpx
            have hxp : x ≠ p.ObjectMeta.Name := fun h => hpx h.symm
            simp [List.find?_cons, hb, mapSet_lookup, hxp]

/-- Dropping the listed pods whose names are not keys of the map leaves the loop
unchanged. -/
theorem recordPodReady_filter (expectedPods : List String) (items : List v1.Pod)
    (m : List (String × Bool))
    (hm : ∀ x, (m.lookup x).isSome = expectedPods.contains x) :
    recordPodReady m (items.filter fun p => expectedPods.contains p.ObjectMeta.Name)
      = recordPodReady m items := by
  induction items generalizing m with
  | nil => rfl
  | cons p rest ih =>
      cases hl : m.lookup p.ObjectMeta.Name with
      | none =>
          have hc : expectedPods.contains p.ObjectMeta.Name = false := by
            rw [← hm, hl]
            rfl
          rw [List.filter_cons, hc]
          simp only [Bool.false_eq_true, if_false, recordPodReady, hl]
          exact ih m hm
      | some b =>
          have hc : expectedPods.contains p.ObjectMeta.Name = true := by
            rw [← hm, hl]
            rfl
          rw [List.filter_cons, hc]
          simp only [if_true, recordPodReady, hl]
          apply ih
          intro x
          rw [mapSet_lookup, ← hm]
          by_cases hx : x = p.ObjectMeta.Name
          · simp [hx, hl]
          · simp [hx]

/-- The map `allExpectedPodsReadyCondition` starts from has distinct keys. -/
theorem podReady_init_nodup (expectedPods : List String) (m : List (String × Bool))
    (h : (m.map Prod.fst).Nodup) :
    ((expectedPods.foldl (fun m n => mapSet m n false) m).map Prod.fst).Nodup := by
  induction expectedPods generalizing m with
  | nil => exact h
  | cons n rest ih => exact ih _ (mapSet_keys_nodup m n false h)
/-- The value `allExpectedPodsReadyCondition` holds for an expected name after its
loop over pods with distinct names: the readiness of the listed pod of that name,
and false when no such pod is listed. -/
theorem podReady_final_lookup (expectedPods : List String) (items : List v1.Pod)
    (hd : (items.map fun p => p.ObjectMeta.Name).Nodup) (n : String)
    (hn : n ∈ expectedPods) :
    (recordPodReady (expectedPods.foldl (fun m n => mapSet m n false) []) items).lookup n
      = some (match items.find? (fun p => p.ObjectMeta.Name == n) with
          | some p => podItemReady p
          | none => false) := by
  obtain ⟨hkeys, hfalse⟩ := requiredReady_init expectedPods [] (by simp)
  have hnodup := podReady_init_nodup expectedPods [] (by simp)
  have hmem : n ∈ (expectedPods.foldl (fun m n => mapSet m n false) []).map Prod.fst :=
    (hkeys n).mpr (Or.inr hn)
  obtain ⟨e, he, hen⟩ := List.mem_map.mp hmem
  have hl := lookup_of_mem_nodup _ hnodup e he
  rw [hen, hfalse e he] at hl
  rw [recordPodReady_lookup items hd, hl]
  cases items.find? (fun p => p.ObjectMeta.Name == n) <;> simp

/-- The condition returns nil exactly when the map holds true under every expected
name after the loop. -/
theorem allExpectedPodsReadyCondition_nil_iff (expectedPods : List String) (pl : v1.PodList) :
    allExpectedPodsReadyCondition expectedPods pl = none ↔
      ∀ n ∈ expectedPods,
        (recordPodReady (expectedPods.foldl (fun m n => mapSet m n false) []) pl.Items).lookup n
          = some true := by
  obtain ⟨hkeys, -⟩ := requiredReady_init expectedPods [] (by simp)
  have hnodup := recordPodReady_keys_nodup pl.Items _
    (podReady_init_nodup expectedPods [] (by simp))
  have hall : allExpectedPodsReadyCondition expectedPods pl = none ↔
      ∀ e ∈ recordPodReady (expectedPods.foldl (fun m n => mapSet m n false) []) pl.Items,
        e.2 = true := by
    simp only [allExpectedPodsReadyCondition, List.length_map, ne_eq, List.length_eq_zero,
      ite_eq_right_iff, imp_false, not_not, List.filter_eq_nil_iff, Bool.not_eq_true,
      Bool.not_eq_false']
    simp
  rw [hall]
  constructor
  · intro h n hn
    have hsome : ((recordPodReady (expectedPods.foldl (fun m n => mapSet m n false) [])
        pl.Items).lookup n).isSome = true := by
      rw [recordPodReady_isSome, lookup_isSome_iff_mem_keys]
      exact (hkeys n).mpr (Or.inr hn)
    obtain ⟨v, hv⟩ := Option.isSome_iff_exists.mp hsome
    have := h _ (mem_of_lookup _ n v hv)
    simp only at this
    rw [hv, this]
  · intro h e he
    have hl := lookup_of_mem_nodup _ hnodup e he
    have hmem : e.1 ∈ expectedPods := by
      have h1 : ((recordPodReady (expectedPods.foldl (fun m n => mapSet m n false) [])
          pl.Items).lookup e.1).isSome = true := by
        rw [hl]
        rfl
      rw [recordPodReady_isSome, lookup_isSome_iff_mem_keys, hkeys] at h1
      simpa using h1
    rw [h e.1 hmem] at hl
    exact (Option.some.inj hl).symm

/-- C21: `allExpectedPodsReadyCondition`, on a pod list with distinct names, returns
nil exactly when every expected name is the name of a listed pod with phase Running
whose container statuses are all running and ready; an expected name with no listed
pod makes it return an error; and, for every pod list, dropping the pods whose names
are not expected leaves the result unchanged. -/
theorem c21_allExpectedPodsReadyCondition_iff_expected_ready (expectedPods : List String)
    (pl : v1.PodList) (hd : (pl.Items.map fun p => p.ObjectMeta.Name).Nodup) :
    (allExpectedPodsReadyCondition expectedPods pl = none ↔
        ∀ n ∈ expectedPods, ∃ p ∈ pl.Items,
          p.ObjectMeta.Name = n ∧ p.Status.Phase = v1.PodRunning
            ∧ ∀ c ∈ p.Status.ContainerStatuses, c.State.Running ≠ none ∧ c.Ready = true)
      ∧ (∀ n ∈ expectedPods, (∀ p ∈ pl.Items, p.ObjectMeta.Name ≠ n) →
          allExpectedPodsReadyCondition expectedPods pl ≠ none)
      ∧ ∀ pods : List v1.Pod,
          allExpectedPodsReadyCondition expectedPods
              { Items := pods.filter fun p => expectedPods.contains p.ObjectMeta.Name }
            = allExpectedPodsReadyCondition expectedPods { Items := pods } := by
  have hiff : allExpectedPodsReadyCondition expectedPods pl = none ↔
      ∀ n ∈ expectedPods, ∃ p ∈ pl.Items,
        p.ObjectMeta.Name = n ∧ p.Status.Phase = v1.PodRunning
          ∧ ∀ c ∈ p.Status.ContainerStatuses, c.State.Running ≠ none ∧ c.Ready = true := by
    rw [allExpectedPodsReadyCondition_nil_iff]
    apply forall_congr'
    intro n
    apply imp_congr_right
    intro hn
    rw [podReady_final_lookup expectedPods pl.Items hd n hn]
    cases hf : pl.Items.find? (fun p => p.ObjectMeta.Name == n) with
    | none =>
        rw [List.find?_eq_none] at hf
        simp only [Option.some.injEq, Bool.false_eq_true, false_iff, not_exists, not_and]
        intro p hp hpn
        have := hf p hp
        simp [hpn] at this
    | some q =>
        have hq := List.mem_of_find?_eq_some hf
        have hqn : q.ObjectMeta.Name = n := by simpa using List.find?_some hf
        simp only [Option.some.injEq]
        rw [podItemReady_iff]
        constructor
        · intro h
          exact ⟨q, hq, hqn, h⟩
        · rintro ⟨p, hp, hpn, h⟩
          have hpq : p = q := List.inj_on_of_nodup_map hd hp hq (by rw [hpn, hqn])
          rw [← hpq]
          exact h
  refine ⟨hiff, ?_, ?_⟩
  · intro n hn hmissing hnil
    obtain ⟨p, hp, hpn, -⟩ := hiff.mp hnil n hn
    exact hmissing p hp hpn
  · intro pods
    simp only [allExpectedPodsReadyCondition]
    rw [recordPodReady_filter]
    intro x
    obtain ⟨hkeys, -⟩ := requiredReady_init expectedPods [] (by simp)
    rw [Bool.eq_iff_iff, lookup_isSome_iff_mem_keys, hkeys]
    simp

/-- C21 at a pod list with two expected pods, both ready, and one other pod. -/
theorem c21_allExpectedPodsReadyCondition_witness :
    allExpectedPodsReadyCondition ["a", "b"]
        { Items := [testPod "a" "Running" true true, testPod "c" "Pending" false false,
            testPod "b" "Running" true true] } = none
      ∧ allExpectedPodsReadyCondition ["a", "b"]
          { Items := [testPod "a" "Running" true true, testPod "c" "Running" true true] }
        = some "at least one pod did not reach the Ready state: [b]" := by
  have h := c21_allExpectedPodsReadyCondition_iff_expected_ready ["a", "b"]
    { Items := [testPod "a" "Running" true true, testPod "c" "Pending" false false,
        testPod "b" "Running" true true] } (by decide)
  exact ⟨h.1.mpr (by decide), by decide⟩

/-- An append loop over `0 .. n`: the loop over `0 .. n-1`, then the last batch. -/
theorem foldl_append_range_succ {α : Type} (f : Nat → List α) (n : Nat) :
    (List.range (n + 1)).foldl (fun acc i => acc ++ f i) []
      = (List.range n).foldl (fun acc i => acc ++ f i) [] ++ f n := by
  rw [List.range_succ, List.foldl_append]
  rfl

/-- An append loop over `0 .. n-1` with batches of `k` elements collects `k * n`
elements. -/
theorem foldl_append_range_length {α : Type} (f : Nat → List α) (k : Nat)
    (hk : ∀ i, (f i).length = k) (n : Nat) :
    ((List.range n).foldl (fun acc i => acc ++ f i) []).length = k * n := by
  induction n with
  | zero => rfl
  | succ n ih => rw [foldl_append_range_succ, List.length_append, ih, hk, Nat.mul_succ]

/-- An append loop over `0 .. n-1` with batches of `k` elements: element `j` of
batch `i` sits at position `k * i + j`. -/
theorem foldl_append_range_get {α : Type} (f : Nat → List α) (k : Nat)
    (hk : ∀ i, (f i).length = k) (n i j : Nat) (hi : i < n) (hj : j < k) :
    ((List.range n).foldl (fun acc i => acc ++ f i) [])[k * i + j]? = (f i)[j]? := by
  induction n with
  | zero => omega
  | succ n ih =>
      rw [foldl_append_range_succ]
      have hlen := foldl_append_range_length f k hk n
      by_cases hin : i < n
      · have hle : k * (i + 1) ≤ k * n := Nat.mul_le_mul_left k hin
        rw [Nat.mul_succ] at hle
        rw [List.getElem?_append_left (by omega)]
        exact ih hin
      · have hi2 : i = n := by omega
        subst hi2
        rw [List.getElem?_append_right (by omega), hlen]
        congr 1
        omega

/-- C22: the access policies and dependencies of `CreateKeyVaultVMAS`. Without
managed identity the resource has no `dependsOn` and exactly one access policy, for
the service principal object id. With managed identity and no user-assigned identity,
for master count `n`, it has exactly `n` access policies, the `i`-th referencing the
identity of master VM `i`, and `2 * n` dependencies, the VM of master `i` and its role
assignment at positions `2 * i` and `2 * i + 1`. With a user-assigned identity it has
exactly one access policy, referencing that identity. The three cases of
`TestCreateKeyVault` give these results. -/
theorem c22_CreateKeyVaultVMAS_access_policies :
    (∀ (toBool : Option Bool → Bool)
        (UserAssignedIDEnabled ShouldCreateNewUserAssignedIdentity : KubernetesConfig → Bool)
        (cs : ContainerService),
        (toBool cs.Properties.OrchestratorProfile.KubernetesConfig.UseManagedIdentity = false →
          (CreateKeyVaultVMAS toBool UserAssignedIDEnabled ShouldCreateNewUserAssignedIdentity
              cs).dependsOn = none
            ∧ (CreateKeyVaultVMAS toBool UserAssignedIDEnabled
                ShouldCreateNewUserAssignedIdentity cs).properties.accessPolicies
              = [{ tenantId := "[variables('tenantID')]"
                   objectId := "[parameters('servicePrincipalObjectId')]"
                   permissions := { keys := ["create", "encrypt", "decrypt", "get", "list"] } }])
        ∧ (toBool cs.Properties.OrchestratorProfile.KubernetesConfig.UseManagedIdentity = true →
            UserAssignedIDEnabled cs.Properties.OrchestratorProfile.KubernetesConfig = false →
            ∀ n : Nat, cs.Properties.MasterProfile.Count = (n : Int) →
              (CreateKeyVaultVMAS toBool UserAssignedIDEnabled
                  ShouldCreateNewUserAssignedIdentity cs).properties.accessPolicies.length = n
                ∧ (∀ i, i < n →
                    ((CreateKeyVaultVMAS toBool UserAssignedIDEnabled
                        ShouldCreateNewUserAssignedIdentity cs).properties.accessPolicies[i]?).map
                        (fun policy => policy.objectId)
                      = some ("[reference(concat('Microsoft.Compute/virtualMachines/', variables('masterVMNamePrefix'), '"
                          ++ Itoa i ++ "'), '2017-03-30', 'Full').identity.principalId]"))
                ∧ ∃ dependencies,
                    (CreateKeyVaultVMAS toBool UserAssignedIDEnabled
                        ShouldCreateNewUserAssignedIdentity cs).dependsOn = some dependencies
                      ∧ dependencies.length = 2 * n
                      ∧ ∀ i, i < n →
                          dependencies[2 * i]?
                              = some ("[concat('Microsoft.Compute/virtualMachines/', variables('masterVMNamePrefix'), '"
                                  ++ Itoa i ++ "')]")
                            ∧ dependencies[2 * i + 1]?
                              = some ("[concat('Microsoft.Authorization/roleAssignments/', guid(concat('Microsoft.Compute/virtualMachines/', variables('masterVMNamePrefix'), '"
                                  ++ Itoa i ++ "', 'vmidentity')))]"))
        ∧ (toBool cs.Properties.OrchestratorProfile.KubernetesConfig.UseManagedIdentity = true →
            UserAssignedIDEnabled cs.Properties.OrchestratorProfile.KubernetesConfig = true →
            (CreateKeyVaultVMAS toBool UserAssignedIDEnabled
                ShouldCreateNewUserAssignedIdentity cs).properties.accessPolicies
              = [{ tenantId := "[variables('tenantID')]"
                   objectId :=
                     "[reference(variables('userAssignedIDReference'), variables('apiVersionManagedIdentity')).principalId]"
                   permissions :=
                     { keys := ["create", "encrypt", "decrypt", "get", "list"] } }]))
      ∧ (CreateKeyVaultVMAS testToBool testUserAssignedIDEnabled (fun _ => true)
            (testKeyVaultCS none "")).dependsOn = none
      ∧ (CreateKeyVaultVMAS testToBool testUserAssignedIDEnabled (fun _ => true)
            (testKeyVaultCS (some true) "")).dependsOn
          = some
              ["[concat('Microsoft.Compute/virtualMachines/', variables('masterVMNamePrefix'), '0')]",
               "[concat('Microsoft.Authorization/roleAssignments/', guid(concat('Microsoft.Compute/virtualMachines/', variables('masterVMNamePrefix'), '0', 'vmidentity')))]"]
      ∧ ((CreateKeyVaultVMAS testToBool testUserAssignedIDEnabled (fun _ => true)
            (testKeyVaultCS (some true) "")).properties.accessPolicies.map
              fun policy => policy.objectId)
          = ["[reference(concat('Microsoft.Compute/virtualMachines/', variables('masterVMNamePrefix'), '0'), '2017-03-30', 'Full').identity.principalId]"]
      ∧ (CreateKeyVaultVMAS testToBool testUserAssignedIDEnabled (fun _ => true)
            (testKeyVaultCS (some true) "fooID")).dependsOn
          = some ["[variables('userAssignedIDReference')]"]
      ∧ ((CreateKeyVaultVMAS testToBool testUserAssignedIDEnabled (fun _ => true)
            (testKeyVaultCS (some true) "fooID")).properties.accessPolicies.map
              fun policy => policy.objectId)
          = ["[reference(variables('userAssignedIDReference'), variables('apiVersionManagedIdentity')).principalId]"] := by
  refine ⟨?_, by decide, by decide, by decide, by decide, by decide⟩
  intro toBool UserAssignedIDEnabled ShouldCreateNewUserAssignedIdentity cs
  refine ⟨?_, ?_, ?_⟩
  · intro h
    simp [CreateKeyVaultVMAS, h]
  · intro h hua n hn
    have hpol : (CreateKeyVaultVMAS toBool UserAssignedIDEnabled
        ShouldCreateNewUserAssignedIdentity cs).properties.accessPolicies
          = (List.range n).foldl (fun acc i => acc ++ [masterVMAccessPolicy i]) [] := by
      simp [CreateKeyVaultVMAS, h, hua, hn]
    have hdep : (CreateKeyVaultVMAS toBool UserAssignedIDEnabled
        ShouldCreateNewUserAssignedIdentity cs).dependsOn
          = some ((List.range n).foldl (fun acc i => acc ++ masterVMDependencies i) []) := by
      simp [CreateKeyVaultVMAS, h, hua, hn]
    refine ⟨?_, ?_, _, hdep, ?_, ?_⟩
    · rw [hpol, foldl_append_range_length (fun i => [masterVMAccessPolicy i]) 1 (fun _ => rfl)]
      omega
    · intro i hi
      rw [hpol]
      have := foldl_append_range_get (fun i => [masterVMAccessPolicy i]) 1 (fun _ => rfl)
        n i 0 hi (by omega)
      simp only [Nat.one_mul, Nat.add_zero] at this
      rw [this]
      rfl
    · exact foldl_append_range_length masterVMDependencies 2 (fun _ => rfl) n
    · intro i hi
      constructor
      · have := foldl_append_range_get masterVMDependencies 2 (fun _ => rfl) n i 0 hi
          (by omega)
        rw [Nat.add_zero] at this
        rw [this]
        rfl
      · rw [foldl_append_range_get masterVMDependencies 2 (fun _ => rfl) n i 1 hi (by omega)]
        rfl
  · intro h hua
    simp [CreateKeyVaultVMAS, h, hua]

/-- Sorting rearranges the indexes. -/
theorem sortIndexes_perm (indexes : List Int) : (sortIndexes indexes).Perm indexes :=
  List.perm_insertionSort _ indexes

/-- Sorting puts the indexes in increasing order. -/
theorem sortIndexes_sorted (indexes : List Int) :
    (sortIndexes indexes).Sorted (fun a b => a ≤ b) :=
  List.sorted_insertionSort _ indexes

/-- Sorting keeps the number of indexes. -/
theorem sortIndexes_length (indexes : List Int) :
    (sortIndexes indexes).length = indexes.length :=
  (sortIndexes_perm indexes).length_eq

/-- The last position of the sorted indexes holds the highest index. -/
theorem sortIndexes_highest (indexes : List Int) (h : Int) (hmem : h ∈ indexes)
    (hmax : ∀ i ∈ indexes, i ≤ h) :
    (sortIndexes indexes)[indexes.length - 1]? = some h := by
  have hperm := sortIndexes_perm indexes
  have hsorted := sortIndexes_sorted indexes
  have hne : sortIndexes indexes ≠ [] := by
    intro hnil
    have := hperm.mem_iff.mpr hmem
    rw [hnil] at this
    simp at this
  rw [← sortIndexes_length, ← List.getLast?_eq_getElem?, List.getLast?_eq_getLast _ hne]
  congr 1
  apply le_antisymm
  · exact hmax _ (hperm.mem_iff.mp (List.getLast_mem hne))
  · have hsplit := List.dropLast_append_getLast hne
    rw [← hsplit] at hsorted
    have hmem2 : h ∈ (sortIndexes indexes).dropLast ++ [(sortIndexes indexes).getLast hne] := by
      rw [hsplit]
      exact hperm.mem_iff.mpr hmem
    rcases List.mem_append.mp hmem2 with hin | hlast
    · exact (List.pairwise_append.mp hsorted).2.2 h hin _ (List.mem_singleton_self _)
    · rw [List.mem_singleton.mp hlast]

/-- Pairwise distinct non-negative indexes up to `h` are at most `h + 1` many. -/
theorem length_le_of_nodup_bounded (indexes : List Int) (h : Int) (hnodup : indexes.Nodup)
    (hnonneg : ∀ i ∈ indexes, 0 ≤ i) (hmem : h ∈ indexes) (hmax : ∀ i ∈ indexes, i ≤ h) :
    (indexes.length : Int) ≤ h + 1 := by
  have hinj : ∀ x ∈ indexes, ∀ y ∈ indexes, x.toNat = y.toNat → x = y := by
    intro x hx y hy hxy
    have := hnonneg x hx
    have := hnonneg y hy
    omega
  have hnd : (indexes.map Int.toNat).Nodup := List.Nodup.map_on hinj hnodup
  have hcard : (indexes.map Int.toNat).toFinset.card = indexes.length := by
    rw [List.toFinset_card_of_nodup hnd, List.length_map]
  have hsub : (indexes.map Int.toNat).toFinset ⊆ Finset.range (h.toNat + 1) := by
    intro x hx
    rw [List.mem_toFinset, List.mem_map] at hx
    obtain ⟨i, hi, rfl⟩ := hx
    rw [Finset.mem_range]
    have := hmax i hi
    have := hnonneg i hi
    omega
  have hle := Finset.card_le_card hsub
  rw [hcard, Finset.card_range] at hle
  have := hnonneg h hmem
  omega

/-- A Go `int` operation whose exact result fits in 64 bits gives that result. -/
theorem wrapInt_of_fits (x : Int) (hlow : -9223372036854775808 ≤ x)
    (hhigh : x ≤ 9223372036854775807) : wrapInt x = x := by
  simp only [wrapInt]
  omega

/-- On the claim as stated, C23 fails: for a pool whose only VM has index 5 and the
desired count `2^63 - 1`, the largest Go `int`, the sum for `countForTemplate` wraps
around to `-9223372036854775804`, which is below the desired count and does not
leave `d - c` VMs above the offset 6. -/
theorem c23_scale_up_template_range_counterexample :
    scaleParameters [5] 9223372036854775807
        = some { Count := -9223372036854775804, Offset := 6 }
      ∧ ¬ ((9223372036854775807 : Int) ≤ -9223372036854775804)
      ∧ ¬ ((-9223372036854775804 : Int) - (5 + 1)
          = 9223372036854775807 - (([5] : List Int).length : Int)) := by
  decide

/-- C23 (amended): scale-up range arithmetic of `scaleCmd.run`. For an
availability-set pool whose existing VMs have pairwise distinct non-negative indexes
with highest index `h`, and a desired count `d` greater than their number `c` such
that `d + (h + 1 - c)` is at most `2^63 - 1`, the largest Go `int`, the parameters are
`Offset = h + 1` and `Count = countForTemplate` with
`countForTemplate - (h + 1) = d - c`, `countForTemplate ≥ d`, and
`countForTemplate = d` exactly when `h = c - 1`. -/
theorem c23_scale_up_template_range (indexes : List Int) (h d : Int)
    (hnodup : indexes.Nodup) (hnonneg : ∀ i ∈ indexes, 0 ≤ i) (hmem : h ∈ indexes)
    (hmax : ∀ i ∈ indexes, i ≤ h) (hd : (indexes.length : Int) < d)
    (hfit : d + (h + 1 - indexes.length) ≤ 9223372036854775807) :
    ∃ countForTemplate : Int,
      scaleParameters indexes d = some { Count := countForTemplate, Offset := h + 1 }
        ∧ countForTemplate - (h + 1) = d - indexes.length
        ∧ d ≤ countForTemplate
        ∧ (countForTemplate = d ↔ h = indexes.length - 1) := by
  have hpos : 0 < indexes.length := List.length_pos_of_mem hmem
  have hle := length_le_of_nodup_bounded indexes h hnodup hnonneg hmem hmax
  have hhigh := sortIndexes_highest indexes h hmem hmax
  have hh0 : 0 ≤ h := hnonneg h hmem
  have hidx : ((indexes.length : Int) - 1).toNat = indexes.length - 1 := by omega
  have hne : ¬ (indexes.length : Int) = d := by omega
  have hgt : (indexes.length : Int) > 0 := by omega
  have hw1 : wrapInt (h + 1) = h + 1 := wrapInt_of_fits _ (by omega) (by omega)
  have hw2 : wrapInt (h + 1 - indexes.length) = h + 1 - indexes.length :=
    wrapInt_of_fits _ (by omega) (by omega)
  have hw3 : wrapInt (d + (h + 1 - indexes.length)) = d + (h + 1 - indexes.length) :=
    wrapInt_of_fits _ (by omega) hfit
  by_cases hz : h = 0
  · refine ⟨d, ?_, ?_, le_refl d, ?_⟩
    · simp only [scaleParameters, sortIndexes_length, hne, if_false, hgt, if_true, hidx,
        hhigh, hw1]
      simp [hz]
    · omega
    · constructor
      · intro _
        omega
      · intro _
        rfl
  · refine ⟨d + (h + 1 - indexes.length), ?_, ?_, ?_, ?_⟩
    · simp only [scaleParameters, sortIndexes_length, hne, if_false, hgt, if_true, hidx,
        hhigh, hw1, hw2, hw3]
      simp [hz]
    · omega
    · omega
    · constructor
      · intro hc
        omega
      · intro hc
        omega

/-- C23 at a pool with VMs 0, 3 and 7 scaled to 5 nodes: offset 8, count 10. -/
theorem c23_scale_up_template_range_witness :
    scaleParameters [3, 0, 7] 5 = some { Count := 10, Offset := 8 } := by
  obtain ⟨countForTemplate, hparams, hcount, -, -⟩ :=
    c23_scale_up_template_range [3, 0, 7] 7 5 (by decide) (by decide) (by decide)
      (by decide) (by decide) (by decide)
  have hc : countForTemplate = 10 := by
    simp only [List.length_cons, List.length_nil] at hcount
    omega
  rw [hparams, hc]
  rfl

/-- The loop over one listing, when it ends without error: every VM of the pool has
a name that parses, `indexes` gains the indexes of the pool's VMs in listing order,
and `indexToVM` gains one entry for each, the latest first. -/
theorem collectIndexes_ok (vmInVMASAgentPool : String → List (String × String) → Bool)
    (isWindows : Bool) (vmsList : List compute.VirtualMachine)
    (state result : List Int × List (Int × String))
    (h : collectIndexes vmInVMASAgentPool isWindows vmsList state = Except.ok result) :
    (∀ vm ∈ vmsList.filter (fun vm => vmInVMASAgentPool vm.Name vm.Tags),
        (vmNameIndex isWindows vm.Name).2 = none)
      ∧ result.1 = state.1
          ++ (vmsList.filter fun vm => vmInVMASAgentPool vm.Name vm.Tags).map
              (fun vm => (vmNameIndex isWindows vm.Name).1)
      ∧ result.2 =
          ((vmsList.filter fun vm => vmInVMASAgentPool vm.Name vm.Tags).map
              (fun vm => ((vmNameIndex isWindows vm.Name).1, vm.Name))).reverse ++ state.2 := by
  induction vmsList generalizing state with
  | nil =>
      obtain ⟨indexes, indexToVM⟩ := state
      simp only [collectIndexes, Except.ok.injEq] at h
      subst h
      simp
  | cons vm rest ih =>
      obtain ⟨indexes, indexToVM⟩ := state
      simp only [collectIndexes] at h
      by_cases hp : vmInVMASAgentPool vm.Name vm.Tags = true
      · simp only [hp, Bool.not_true, Bool.false_eq_true, if_false] at h
        cases hidx : vmNameIndex isWindows vm.Name with
        | mk index err =>
            cases err with
            | some e =>
                rw [hidx] at h
                simp at h
            | none =>
                rw [hidx] at h
                simp only at h
                obtain ⟨h1, h2, h3⟩ := ih _ h
                rw [List.filter_cons, hp]
                simp only [if_true, List.map_cons, List.mem_cons, forall_eq_or_imp, hidx,
                  List.reverse_cons, List.append_assoc, List.singleton_append]
                refine ⟨⟨trivial, h1⟩, ?_, ?_⟩
                · rw [h2]
                  simp
                · rw [h3]
      · have hp2 : vmInVMASAgentPool vm.Name vm.Tags = false := by simpa using hp
        simp only [hp2, Bool.not_false, if_true] at h
        rw [List.filter_cons, hp2]
        simp only [Bool.false_eq_true, if_false]
        exact ih _ h

/-- The selection loop over counters that are positions of `indexes`: it appends the
VM recorded for the index at each position, in turn. -/
theorem vmsToDeleteLoop_ok (indexes : List Int) (indexToVM : List (Int × String))
    (counters : List Int) (positions : List Int) (vmsToDelete : List String)
    (hpos : ∀ i ∈ counters, 0 ≤ i)
    (hget : counters.map (fun i => indexes[i.toNat]?) = positions.map some) :
    vmsToDeleteLoop indexes indexToVM counters vmsToDelete
      = some (vmsToDelete ++ positions.map fun index => (indexToVM.lookup index).getD "") := by
  induction counters generalizing positions vmsToDelete with
  | nil =>
      cases positions with
      | nil => simp [vmsToDeleteLoop]
      | cons _ _ => simp at hget
  | cons i rest ih =>
      cases positions with
      | nil => simp at hget
      | cons index others =>
          simp only [List.map_cons, List.cons.injEq] at hget
          have hi : 0 ≤ i := hpos i (List.mem_cons_self _ _)
          simp only [vmsToDeleteLoop, hi, if_true, hget.1]
          rw [ih others _ (fun j hj => hpos j (List.mem_cons_of_mem _ hj)) hget.2]
          simp

/-- The counters `c - 1` down to `d` read a list of length `c` from its last element
back to the one at position `d`. -/
theorem counters_read_drop_reverse (sorted : List Int) (d : Nat) (hd : d ≤ sorted.length) :
    ((List.range (sorted.length - d)).map fun (k : Nat) => (sorted.length : Int) - 1 - (k : Int)).map
        (fun i => sorted[i.toNat]?)
      = (sorted.drop d).reverse.map some := by
  apply List.ext_getElem?
  intro k
  simp only [List.map_map, List.getElem?_map]
  by_cases hk : k < sorted.length - d
  · rw [List.getElem?_range hk, List.getElem?_reverse (by simpa using hk)]
    simp only [Option.map_some', Function.comp, List.length_drop, List.getElem?_drop]
    have h1 : ((sorted.length : Int) - 1 - (k : Int)).toNat = sorted.length - 1 - k := by omega
    have h2 : d + (sorted.length - d - 1 - k) = sorted.length - 1 - k := by omega
    rw [h1, h2]
    have hlt : sorted.length - 1 - k < sorted.length := by omega
    rw [List.getElem?_eq_getElem hlt]
    rfl
  · have h1 : (List.range (sorted.length - d))[k]? = none := by
      rw [List.getElem?_eq_none_iff]
      simpa using hk
    have h2 : (sorted.drop d).reverse[k]? = none := by
      rw [List.getElem?_eq_none_iff]
      simpa using hk
    rw [h1, h2]
    rfl
/-- C24: scale-down selection of `scaleCmd.run`. When the loop over the listing has
collected the indexes of the pool's VMs and these are the pairwise distinct
`i_0 < ... < i_(c-1)` (the list `sorted`), then for a desired count `d` with
`0 < d < c` the VMs handed to drain and to `ScaleDownVMs` are VMs of the pool, their
indexes are `i_(c-1), ..., i_d` in this order, they are `c - d` many, and every VM of
the pool that is kept has a smaller index than every deleted one. -/
theorem c24_scale_down_selection
    (vmInVMASAgentPool : String → List (String × String) → Bool) (isWindows : Bool)
    (vmsList : List compute.VirtualMachine) (indexes : List Int)
    (indexToVM : List (Int × String)) (sorted : List Int) (d : Int)
    (hcollect : collectIndexes vmInVMASAgentPool isWindows vmsList ([], [])
      = Except.ok (indexes, indexToVM))
    (hperm : sorted.Perm indexes) (hsorted : sorted.Sorted (fun a b => a < b))
    (hd0 : 0 < d) (hdc : d < indexes.length) :
    ∃ deleted : List String,
      vmsToDelete indexes indexToVM d = some deleted
        ∧ deleted.map (fun name => (vmNameIndex isWindows name).1)
            = (sorted.drop d.toNat).reverse
        ∧ (deleted.length : Int) = indexes.length - d
        ∧ (∀ name ∈ deleted, ∃ vm ∈ vmsList,
            vmInVMASAgentPool vm.Name vm.Tags = true ∧ vm.Name = name)
        ∧ ∀ vm ∈ vmsList, vmInVMASAgentPool vm.Name vm.Tags = true → vm.Name ∉ deleted →
            ∀ name ∈ deleted,
              (vmNameIndex isWindows vm.Name).1 < (vmNameIndex isWindows name).1 := by
  obtain ⟨-, hindexes, hmap⟩ := collectIndexes_ok _ _ _ _ _ hcollect
  simp only [List.nil_append, List.append_nil] at hindexes hmap
  have hsort : sortIndexes indexes = sorted :=
    List.eq_of_perm_of_sorted ((sortIndexes_perm indexes).trans hperm.symm)
      (sortIndexes_sorted indexes) (hsorted.imp le_of_lt)
  have hlen : sorted.length = indexes.length := hperm.length_eq
  have hnodup : indexes.Nodup := hperm.nodup_iff.mp hsorted.nodup
  have hkeys : (indexToVM.map Prod.fst).Nodup := by
    rw [hmap, List.map_reverse, List.nodup_reverse, List.map_map]
    rw [hindexes] at hnodup
    exact hnodup
  have hlookup : ∀ vm ∈ vmsList, vmInVMASAgentPool vm.Name vm.Tags = true →
      indexToVM.lookup (vmNameIndex isWindows vm.Name).1 = some vm.Name := by
    intro vm hvm hp
    apply lookup_of_mem_nodup indexToVM hkeys ((vmNameIndex isWindows vm.Name).1, vm.Name)
    rw [hmap, List.mem_reverse, List.mem_map]
    exact ⟨vm, List.mem_filter.mpr ⟨hvm, hp⟩, rfl⟩
  have hsrc : ∀ x ∈ sorted, ∃ vm ∈ vmsList,
      vmInVMASAgentPool vm.Name vm.Tags = true ∧ (vmNameIndex isWindows vm.Name).1 = x := by
    intro x hx
    have hx2 : x ∈ indexes := hperm.mem_iff.mp hx
    rw [hindexes, List.mem_map] at hx2
    obtain ⟨vm, hvm, rfl⟩ := hx2
    obtain ⟨h1, h2⟩ := List.mem_filter.mp hvm
    exact ⟨vm, h1, h2, rfl⟩
  have hdn : d.toNat ≤ sorted.length := by omega
  have hcount : ((sorted.length : Int) - d).toNat = sorted.length - d.toNat := by omega
  have hresult : vmsToDelete indexes indexToVM d
      = some ((sorted.drop d.toNat).reverse.map fun index => (indexToVM.lookup index).getD "") := by
    simp only [vmsToDelete, hsort, hcount]
    rw [vmsToDeleteLoop_ok sorted indexToVM _ (sorted.drop d.toNat).reverse []
      (by
        intro i hi
        rw [List.mem_map] at hi
        obtain ⟨k, hk, rfl⟩ := hi
        rw [List.mem_range] at hk
        omega)
      (counters_read_drop_reverse sorted d.toNat hdn)]
    simp
  have hdrop : ∀ x ∈ (sorted.drop d.toNat).reverse, x ∈ sorted := fun x hx =>
    List.mem_of_mem_drop (List.mem_reverse.mp hx)
  refine ⟨_, hresult, ?_, ?_, ?_, ?_⟩
  · rw [List.map_map]
    conv_rhs => rw [← List.map_id (sorted.drop d.toNat).reverse]
    apply List.map_congr_left
    intro x hx
    obtain ⟨vm, hvm, hp, rfl⟩ := hsrc x (hdrop x hx)
    simp [hlookup vm hvm hp]
  · rw [List.length_map, List.length_reverse, List.length_drop]
    omega
  · intro name hname
    rw [List.mem_map] at hname
    obtain ⟨x, hx, rfl⟩ := hname
    obtain ⟨vm, hvm, hp, rfl⟩ := hsrc x (hdrop x hx)
    exact ⟨vm, hvm, hp, by simp [hlookup vm hvm hp]⟩
  · intro vm hvm hp hkept name hname
    rw [List.mem_map] at hname
    obtain ⟨x, hx, rfl⟩ := hname
    obtain ⟨vm2, hvm2, hp2, rfl⟩ := hsrc x (hdrop x hx)
    rw [hlookup vm2 hvm2 hp2]
    simp only [Option.getD_some]
    have hmem : (vmNameIndex isWindows vm.Name).1 ∈ sorted := by
      apply hperm.mem_iff.mpr
      rw [hindexes, List.mem_map]
      exact ⟨vm, List.mem_filter.mpr ⟨hvm, hp⟩, rfl⟩
    rw [← List.take_append_drop d.toNat sorted] at hmem hsorted
    rcases List.mem_append.mp hmem with htake | hdr
    · exact (List.pairwise_append.mp hsorted).2.2 _ htake _ (List.mem_reverse.mp hx)
    · exfalso
      apply hkept
      rw [List.mem_map]
      exact ⟨_, List.mem_reverse.mpr hdr, by simp [hlookup vm hvm hp]⟩

/-- C24 at a pool of four Linux VMs with indexes 3, 0, 7 and 5, listed in this order
among a VM of another pool, scaled down to 2 nodes: the VMs with indexes 7 and 5 are
selected, in this order. -/
theorem c24_scale_down_selection_witness :
    ∃ deleted : List String,
      vmsToDelete [3, 0, 7, 5]
          [(5, "k8s-agentpool-12345678-5"), (7, "k8s-agentpool-12345678-7"),
            (0, "k8s-agentpool-12345678-0"), (3, "k8s-agentpool-12345678-3")] 2
        = some deleted
        ∧ deleted.map (fun name => (vmNameIndex false name).1) = [7, 5] := by
  obtain ⟨deleted, hresult, hidx, -, -, -⟩ :=
    c24_scale_down_selection (fun vmName _ => vmName != "k8s-other-12345678-0") false
      [{ Name := "k8s-agentpool-12345678-3" }, { Name := "k8s-agentpool-12345678-0" },
        { Name := "k8s-other-12345678-0" }, { Name := "k8s-agentpool-12345678-7" },
        { Name := "k8s-agentpool-12345678-5" }]
      [3, 0, 7, 5]
      [(5, "k8s-agentpool-12345678-5"), (7, "k8s-agentpool-12345678-7"),
        (0, "k8s-agentpool-12345678-0"), (3, "k8s-agentpool-12345678-3")]
      [0, 3, 5, 7] 2 rfl (by decide) (by decide) (by decide) (by decide)
  exact ⟨deleted, hresult, hidx.trans (by decide)⟩

/-- For a desired count that is not negative the selection loop reads `indexes` only
at positions it has, whatever the indexes and the map. -/
theorem vmsToDelete_in_range (indexes : List Int) (indexToVM : List (Int × String)) (d : Int)
    (hd : 0 ≤ d) : (vmsToDelete indexes indexToVM d).isSome = true := by
  simp only [vmsToDelete]
  by_cases hdc : d.toNat ≤ (sortIndexes indexes).length
  · have hcount : (((sortIndexes indexes).length : Int) - d).toNat
        = (sortIndexes indexes).length - d.toNat := by omega
    rw [hcount, vmsToDeleteLoop_ok (sortIndexes indexes) indexToVM _
      ((sortIndexes indexes).drop d.toNat).reverse []
      (by
        intro i hi
        rw [List.mem_map] at hi
        obtain ⟨k, hk, rfl⟩ := hi
        rw [List.mem_range] at hk
        omega)
      (counters_read_drop_reverse (sortIndexes indexes) d.toNat hdc)]
    rfl
  · have hcount : (((sortIndexes indexes).length : Int) - d).toNat = 0 := by omega
    rw [hcount]
    rfl

/-- C25 (the code departs from the claim): `scaleCmd.validate` accepts the desired
node count -1, and for a pool whose only VM has index 0 the selection loop then runs
for the counters 0 and -1 and reads `indexes[-1]`, out of range, where Go panics. For
every desired count that is not negative every read is in range. -/
theorem c25_vmsToDelete_reads_out_of_range_for_negative_count :
    validateNewDesiredAgentCount (-1) = none
      ∧ collectIndexes (fun _ _ => true) false [{ Name := "k8s-agentpool-12345678-0" }]
          ([], [])
        = Except.ok ([0], [(0, "k8s-agentpool-12345678-0")])
      ∧ ((([0] : List Int).length : Int) > -1)
      ∧ vmsToDelete [0] [(0, "k8s-agentpool-12345678-0")] (-1) = none
      ∧ vmsToDeleteLoop [0] [(0, "k8s-agentpool-12345678-0")] [0] []
        = some ["k8s-agentpool-12345678-0"]
      ∧ vmsToDeleteLoop [0] [(0, "k8s-agentpool-12345678-0")] [-1]
          ["k8s-agentpool-12345678-0"] = none
      ∧ ∀ (indexes : List Int) (indexToVM : List (Int × String)) (d : Int), 0 ≤ d →
          (vmsToDelete indexes indexToVM d).isSome = true :=
  ⟨by decide, rfl, by decide, by decide, by decide, by decide, vmsToDelete_in_range⟩

/-- A string that holds the separator splits into at least two pieces. -/
theorem splitOn_length_of_mem (sep : Char) (s : List Char) (h : sep ∈ s) :
    2 ≤ (splitOn sep s).length := by
  induction s with
  | nil => simp at h
  | cons c cs ih =>
      simp only [splitOn]
      by_cases hc : c = sep
      · simp only [hc, if_true, List.length_cons]
        have := List.length_pos.mpr (splitOn_ne_nil sep cs)
        omega
      · simp only [hc, if_false, List.length_cons, List.length_tail]
        have hcs : sep ∈ cs := by
          rcases List.mem_cons.mp h with h1 | h1
          · exact absurd h1.symm hc
          · exact h1
        have := ih hcs
        omega

/-- C26 (the code departs from the claim): for the URI `https://host`, which parses
to the host `host` and the empty path, and for the empty URI, which parses to an
empty host and path, the path splits into the single piece `""`, and `urlParts[1]` is
out of range, where Go panics. For every URI that parses, `SplitBlobURI` returns
exactly when the parsed path holds a `/`. -/
theorem c26_SplitBlobURI_index_out_of_range_on_empty_path :
    stringsSplit "" '/' = [""]
      ∧ SplitBlobURI (fun _ => Except.ok { Host := "host", Path := "" }) "https://host" = none
      ∧ SplitBlobURI (fun _ => Except.ok { Host := "", Path := "" }) "" = none
      ∧ ∀ (urlParse : String → Except String URL) (uri : String) (parsed : URL),
          urlParse uri = Except.ok parsed →
            ((SplitBlobURI urlParse uri).isSome = true ↔ '/' ∈ parsed.Path.data) := by
  refine ⟨by decide, by decide, by decide, ?_⟩
  intro urlParse uri parsed hparse
  obtain ⟨account, rest, hhost⟩ :=
    List.exists_cons_of_ne_nil (splitOn_ne_nil '.' parsed.Host.data)
  simp only [SplitBlobURI, hparse, stringsSplit, hhost, List.map_cons, List.getElem?_cons_zero]
  by_cases hmem : '/' ∈ parsed.Path.data
  · have hlen := splitOn_length_of_mem '/' parsed.Path.data hmem
    cases hsplit : splitOn '/' parsed.Path.data with
    | nil => simp [hsplit] at hlen
    | cons p ps =>
        cases ps with
        | nil => simp [hsplit] at hlen
        | cons q qs => simp [hmem]
  · rw [splitOn_of_not_mem '/' parsed.Path.data hmem]
    simp [hmem]

/-- The polling loop, from any state: when the condition holds at a poll for the time
that completes the successes needed, and no earlier poll met a list error, the loop
stops at that poll with that node list and no error. -/
theorem waitForNodesConditionLoop_success (condition : List Node → Bool)
    (successesNeeded : Int) (before : List (List Node)) (nl : List Node)
    (after : List (Except String (List Node))) (nl0 : Option (List Node))
    (successesCount : Int) (polls : Nat)
    (hcount : successesCount + ((before.filter condition).length : Int) + 1 = successesNeeded)
    (hnl : condition nl = true) :
    waitForNodesConditionLoop condition successesNeeded
        (before.map Except.ok ++ Except.ok nl :: after) nl0 successesCount polls
      = { nl := some nl, err := none, polls := polls + before.length + 1 } := by
  induction before generalizing nl0 successesCount polls with
  | nil =>
      simp only [List.filter_nil, List.length_nil, Nat.cast_zero, add_zero] at hcount
      have hlt : ¬ successesCount + 1 < successesNeeded := by omega
      simp [waitForNodesConditionLoop, hnl, hlt]
  | cons b rest ih =>
      simp only [List.map_cons, List.cons_append, waitForNodesConditionLoop]
      by_cases hb : condition b = true
      · simp only [List.filter_cons, hb, if_true, List.length_cons, Nat.cast_add,
          Nat.cast_one] at hcount
        have hlt : successesCount + 1 < successesNeeded := by omega
        simp only [hb, Bool.not_true, Bool.false_eq_true, if_false, hlt, if_true]
        refine (ih (some b) (successesCount + 1) (polls + 1) (by omega)).trans ?_
        simp only [List.length_cons, NodesPollResult.mk.injEq, true_and]
        omega
      · have hb2 : condition b = false := by simpa using hb
        simp only [List.filter_cons, hb2, Bool.false_eq_true, if_false] at hcount
        simp only [hb2, Bool.not_false, if_true]
        refine (ih (some b) successesCount (polls + 1) hcount).trans ?_
        simp only [List.length_cons, NodesPollResult.mk.injEq, true_and]
        omega

/-- The polling loop, from any state: a list error at a poll before the successes
needed are complete stops the loop at that poll with that error. -/
theorem waitForNodesConditionLoop_error (condition : List Node → Bool)
    (successesNeeded : Int) (before : List (List Node)) (err : String)
    (after : List (Except String (List Node))) (nl0 : Option (List Node))
    (successesCount : Int) (polls : Nat)
    (hcount : successesCount + ((before.filter condition).length : Int) < successesNeeded) :
    waitForNodesConditionLoop condition successesNeeded
        (before.map Except.ok ++ Except.error err :: after) nl0 successesCount polls
      = { nl := none, err := some err, polls := polls + before.length + 1 } := by
  induction before generalizing nl0 successesCount polls with
  | nil => simp [waitForNodesConditionLoop]
  | cons b rest ih =>
      simp only [List.map_cons, List.cons_append, waitForNodesConditionLoop]
      by_cases hb : condition b = true
      · simp only [List.filter_cons, hb, if_true, List.length_cons, Nat.cast_add,
          Nat.cast_one] at hcount
        have hlt : successesCount + 1 < successesNeeded := by omega
        simp only [hb, Bool.not_true, Bool.false_eq_true, if_false, hlt, if_true]
        refine (ih (some b) (successesCount + 1) (polls + 1) (by omega)).trans ?_
        simp only [List.length_cons, NodesPollResult.mk.injEq, true_and]
        omega
      · have hb2 : condition b = false := by simpa using hb
        simp only [List.filter_cons, hb2, Bool.false_eq_true, if_false] at hcount
        simp only [hb2, Bool.not_false, if_true]
        refine (ih (some b) successesCount (polls + 1) hcount).trans ?_
        simp only [List.length_cons, NodesPollResult.mk.injEq, true_and]
        omega

/-- The polling loop, from any state: while the successes needed are not complete and
no list error occurs, the loop polls on until the timeout and returns its error. -/
theorem waitForNodesConditionLoop_timeout (condition : List Node → Bool)
    (successesNeeded : Int) (observations : List (List Node)) (nl0 : Option (List Node))
    (successesCount : Int) (polls : Nat)
    (hcount : successesCount + ((observations.filter condition).length : Int)
      < successesNeeded) :
    (waitForNodesConditionLoop condition successesNeeded (observations.map Except.ok) nl0
        successesCount polls).err = some contextDeadlineExceeded
      ∧ (waitForNodesConditionLoop condition successesNeeded (observations.map Except.ok) nl0
          successesCount polls).polls = polls + observations.length := by
  induction observations generalizing nl0 successesCount polls with
  | nil => simp [waitForNodesConditionLoop]
  | cons b rest ih =>
      simp only [List.map_cons, waitForNodesConditionLoop]
      by_cases hb : condition b = true
      · simp only [List.filter_cons, hb, if_true, List.length_cons, Nat.cast_add,
          Nat.cast_one] at hcount
        have hlt : successesCount + 1 < successesNeeded := by omega
        simp only [hb, Bool.not_true, Bool.false_eq_true, if_false, hlt, if_true]
        obtain ⟨h1, h2⟩ := ih (some b) (successesCount + 1) (polls + 1) (by omega)
        refine ⟨h1, ?_⟩
        rw [h2, List.length_cons]
        omega
      · have hb2 : condition b = false := by simpa using hb
        simp only [List.filter_cons, hb2, Bool.false_eq_true, if_false] at hcount
        simp only [hb2, Bool.not_false, if_true]
        obtain ⟨h1, h2⟩ := ih (some b) successesCount (polls + 1) hcount
        refine ⟨h1, ?_⟩
        rw [h2, List.length_cons]
        omega
/-- C27: `waitForNodesCondition` counts the successes cumulatively. Over polls
without list error it stops with success exactly at the poll at which the condition
holds for the `successesNeeded`-th time, whatever polls at which it did not hold lie
in between, and returns the node list of that poll; while the condition has held
fewer times it keeps polling until the timeout; a list error at a poll before that
stops the polling at that poll and is returned. `WaitForNodesReady` needs 5 successes:
with Ready at polls 1, 2, 4, 5 and 7 and not Ready at polls 3 and 6 it succeeds at
poll 7, and with the first five of these polls only it times out. -/
theorem c27_waitForNodesCondition_counts_successes_cumulatively :
    (∀ (condition : List Node → Bool) (successesNeeded : Int),
        (∀ (before : List (List Node)) (nl : List Node)
            (after : List (Except String (List Node))),
            ((before.filter condition).length : Int) + 1 = successesNeeded →
            condition nl = true →
              waitForNodesCondition (before.map Except.ok ++ Except.ok nl :: after) condition
                  successesNeeded
                = { nl := some nl, err := none, polls := before.length + 1 })
          ∧ (∀ observations : List (List Node),
              ((observations.filter condition).length : Int) < successesNeeded →
                (waitForNodesCondition (observations.map Except.ok) condition
                    successesNeeded).err = some contextDeadlineExceeded
                  ∧ (waitForNodesCondition (observations.map Except.ok) condition
                      successesNeeded).polls = observations.length)
          ∧ ∀ (before : List (List Node)) (err : String)
              (after : List (Except String (List Node))),
              ((before.filter condition).length : Int) < successesNeeded →
                waitForNodesCondition (before.map Except.ok ++ Except.error err :: after)
                    condition successesNeeded
                  = { nl := none, err := some err, polls := before.length + 1 })
      ∧ (∀ (isReady : Node → Bool) (requiredNodes : List String) (before : List (List Node))
          (nl : List Node) (after : List (Except String (List Node))),
          (before.filter (allNodesReadyCondition isReady requiredNodes)).length = 4 →
          allNodesReadyCondition isReady requiredNodes nl = true →
            WaitForNodesReady isReady (before.map Except.ok ++ Except.ok nl :: after)
              requiredNodes = none)
      ∧ waitForNodesCondition
          [Except.ok [testNode "n" true], Except.ok [testNode "n" true],
            Except.ok [testNode "n" false], Except.ok [testNode "n" true],
            Except.ok [testNode "n" true], Except.ok [testNode "n" false],
            Except.ok [testNode "n" true], Except.ok [testNode "n" true]]
          (allNodesReadyCondition isNodeReady ["n"]) defaultSuccessesNeeded
        = { nl := some [testNode "n" true], err := none, polls := 7 }
      ∧ WaitForNodesReady isNodeReady
          [Except.ok [testNode "n" true], Except.ok [testNode "n" true],
            Except.ok [testNode "n" false], Except.ok [testNode "n" true],
            Except.ok [testNode "n" true]] ["n"]
        = some contextDeadlineExceeded
      ∧ waitForNodesCondition
          [Except.ok [testNode "n" true], Except.error "connection refused",
            Except.ok [testNode "n" true]]
          (allNodesReadyCondition isNodeReady ["n"]) defaultSuccessesNeeded
        = { nl := none, err := some "connection refused", polls := 2 } := by
  refine ⟨?_, ?_, by decide, by decide, by decide⟩
  · intro condition successesNeeded
    refine ⟨?_, ?_, ?_⟩
    · intro before nl after hcount hnl
      rw [waitForNodesCondition, waitForNodesConditionLoop_success condition successesNeeded
        before nl after none 0 0 (by omega) hnl]
      simp
    · intro observations hcount
      have h := waitForNodesConditionLoop_timeout condition successesNeeded observations none
        0 0 (by omega)
      simpa [waitForNodesCondition] using h
    · intro before err after hcount
      rw [waitForNodesCondition, waitForNodesConditionLoop_error condition successesNeeded
        before err after none 0 0 (by omega)]
      simp
  · intro isReady requiredNodes before nl after hcount hnl
    rw [WaitForNodesReady, waitForNodesCondition,
      waitForNodesConditionLoop_success _ defaultSuccessesNeeded before nl after none 0 0
        (by rw [hcount]; rfl) hnl]

/-- C28: the priorities of `CreateNetworkSecurityGroup`, for every container service
and every answer of the three helper methods. No two of the returned rules with the
same direction have the same priority; and whenever the rule `block_outbound` is
returned it is an outbound deny rule of priority 120, the outbound allow rules
`allow_ARM` of priority 100 and `allow_vnet` of priority 110 are returned with it, and
every rule of these two names has a lower priority number than it; it is returned
exactly when the feature `BlockOutboundInternet` is enabled. -/
theorem c28_CreateNetworkSecurityGroup_priorities
    (IsPrivateCluster : OrchestratorProfile → Bool) (HasWindows : Properties → Bool)
    (IsFeatureEnabled : Properties → String → Bool) (cs : ContainerService) :
    (CreateNetworkSecurityGroup IsPrivateCluster HasWindows IsFeatureEnabled
        cs).SecurityGroup.SecurityRules.Pairwise
        (fun a b => a.Direction = b.Direction → a.Priority ≠ b.Priority)
      ∧ (∀ deny ∈ (CreateNetworkSecurityGroup IsPrivateCluster HasWindows IsFeatureEnabled
            cs).SecurityGroup.SecurityRules,
          deny.Name = "block_outbound" →
            deny.Access = network.SecurityRuleAccess.Deny
              ∧ deny.Direction = network.SecurityRuleDirection.Outbound
              ∧ deny.Priority = 120
              ∧ (∃ allow ∈ (CreateNetworkSecurityGroup IsPrivateCluster HasWindows
                    IsFeatureEnabled cs).SecurityGroup.SecurityRules,
                  allow.Name = "allow_ARM" ∧ allow.Access = network.SecurityRuleAccess.Allow
                    ∧ allow.Direction = network.SecurityRuleDirection.Outbound
                    ∧ allow.Priority = 100)
              ∧ (∃ allow ∈ (CreateNetworkSecurityGroup IsPrivateCluster HasWindows
                    IsFeatureEnabled cs).SecurityGroup.SecurityRules,
                  allow.Name = "allow_vnet" ∧ allow.Access = network.SecurityRuleAccess.Allow
                    ∧ allow.Direction = network.SecurityRuleDirection.Outbound
                    ∧ allow.Priority = 110)
              ∧ ∀ allow ∈ (CreateNetworkSecurityGroup IsPrivateCluster HasWindows
                    IsFeatureEnabled cs).SecurityGroup.SecurityRules,
                  allow.Name = "allow_ARM" ∨ allow.Name = "allow_vnet" →
                    allow.Priority < deny.Priority)
      ∧ ((∃ deny ∈ (CreateNetworkSecurityGroup IsPrivateCluster HasWindows IsFeatureEnabled
            cs).SecurityGroup.SecurityRules, deny.Name = "block_outbound")
          ↔ IsFeatureEnabled cs.Properties "BlockOutboundInternet" = true) := by
  cases h1 : IsPrivateCluster cs.Properties.OrchestratorProfile <;>
    cases h2 : HasWindows cs.Properties <;>
    cases h3 : IsFeatureEnabled cs.Properties "BlockOutboundInternet" <;>
    simp only [CreateNetworkSecurityGroup, h1, h2, h3] <;>
    decide

end AksEngine
